import Mathlib

/-!
Screen-Content-Compression: the syntheticness pipeline.

A shallow embedding of the numeric core of the repository
(`sobel_syntheticness.cpp`, `syntheticness.cpp`, `sobel_operator.cpp`):
gradient extraction, histogram construction, regression fit and the
syntheticness score.

Modelling conventions.

* C++ `int` values are mathematical integers (`Int`) and arithmetic on them is
  exact (the samples of the pipeline are 8-bit, and counts are bounded by the
  number of pixels), with one exception: the `int` products
  `bin_centers[i] * histogram[i]` of `fitRegressionLine` leave the range of
  `int` on large images.  The namespace `Machine` holds `fitRegressionLine`
  with the 32-bit `int` arithmetic of the source (`Cxx.imul`, `Cxx.iadd`); it
  is proved equal to the version with exact integer arithmetic wherever
  `Machine.noOverflow` holds.
* `width`, `height` and vector sizes, which the program never holds as negative
  numbers when the modelled functions run, are natural numbers; a loop
  `for (int i = 1; i < height - 1; ++i)` runs over `List.range' 1 (height - 2)`.
* C++ `int / int` truncates toward zero (`Int.tdiv`); a zero divisor is
  undefined behaviour and is modelled by `none`.
* A finite `double` is modelled by the rational number it denotes; arithmetic on
  finite doubles is exact rational arithmetic (rounding is not modelled).  A
  `double` division by zero gives an infinity or a NaN; in the finite model such
  a value is `none` in an `Option ℚ`.
* Where the kind of a non-finite value matters (a NaN passing through the
  scorer), `Cxx.Double` adds the special values of IEEE-754 (signed zeros,
  infinities, NaN) to the rationals; the namespace `Ieee` holds
  `fitRegressionLine` and `calculateSyntheticness` evaluated on it, and they are
  proved to agree with the finite model wherever that has a value.
* Reading or writing a vector outside its bounds is undefined behaviour and is
  modelled by `none`.
* Output to `std::cout` is not modelled, except for the vector reads it makes.
* Where two source files hold a function of the same name, each is embedded in
  the namespace of its file: `SobelSyntheticness` (`sobel_syntheticness.cpp`),
  `Syntheticness` (`syntheticness.cpp`), `SobelOperator` (`sobel_operator.cpp`).
  The namespace `Spec` holds the closed forms the specification is stated with.
-/

/-! ## Definitions -/

namespace Cxx

/-- Integer division `a / b` of C++ on `int`: the quotient is truncated toward
zero, and a zero divisor is undefined behaviour (`none`). -/
def idiv (a b : Int) : Option Int :=
  if b = 0 then none else some (a.tdiv b)

/-- Element access `v[k]` with an `int` index: reading outside the bounds of
the vector is undefined behaviour (`none`). -/
def index? {α : Type} (v : List α) (k : Int) : Option α :=
  if k < 0 then none else v[k.toNat]?

/-- Element access `grid[r][c]` on a vector of vectors. -/
def at2 (grid : List (List Int)) (r c : Int) : Option Int :=
  match index? grid r with
  | some row => index? row c
  | none => none

/-- The assignment `v[k] = x`: writing outside the bounds of the vector is
undefined behaviour (`none`). -/
def assign (v : List Int) (k : Nat) (x : Int) : Option (List Int) :=
  if k < v.length then some (v.set k x) else none

/-- The assignment `grid[r][c] = x` on a vector of vectors. -/
def assign2 (grid : List (List Int)) (r c : Nat) (x : Int) : Option (List (List Int)) :=
  match grid[r]? with
  | some row => if c < row.length then some (grid.set r (row.set c x)) else none
  | none => none

/-- The call `v.resize(n, x)`: the first `n` elements are kept, and copies of
`x` are appended up to length `n`. -/
def resize {α : Type} (v : List α) (n : Nat) (x : α) : List α :=
  v.take n ++ List.replicate (n - v.length) x

/-- The conversion to `int` of `std::sqrt(s)` for an `int` argument `s`: the
square root is taken in `double` and truncated toward zero, which for a
non-negative `s` in `int` range is the integer square root.  A negative
argument gives NaN, whose conversion to `int` is undefined (`none`). -/
def sqrtToInt (s : Int) : Option Int :=
  if s < 0 then none else some ((Nat.sqrt s.toNat : Nat) : Int)

end Cxx

namespace SobelSyntheticness

/-- The function `calculateSyntheticness(double g0, int gmax)` of
`sobel_syntheticness.cpp`, lines 129-134.  `gmax / 2` and `200 / (gmax / 2)` are
integer divisions; the product with `(g0 - gmax) / 2` is taken in `double`. -/
def calculateSyntheticness (g0 : ℚ) (gmax : Int) : Option ℚ := do
  let half ← Cxx.idiv gmax 2
  let scale ← Cxx.idiv 200 half
  let sy_prime : ℚ := ((g0 - (gmax : ℚ)) / 2) * (scale : ℚ)
  if 200 ≤ sy_prime then some 200
  else if sy_prime ≤ 0 then some 0
  else some sy_prime

end SobelSyntheticness

namespace Syntheticness

/-- The function `calculateSyntheticness(double g0, int gmax, name)` of
`syntheticness.cpp`, lines 107-114: the same formula, clamped by two successive
assignments to `sy_prime`. -/
def calculateSyntheticness (g0 : ℚ) (gmax : Int) : Option ℚ := do
  let half ← Cxx.idiv gmax 2
  let scale ← Cxx.idiv 200 half
  let sy_prime : ℚ := ((g0 - (gmax : ℚ)) / 2) * (scale : ℚ)
  let sy_prime := if 200 ≤ sy_prime then 200 else sy_prime
  let sy_prime := if sy_prime ≤ 0 then 0 else sy_prime
  some sy_prime

end Syntheticness

/-! ### Sobel gradient -/

/-- The kernel `Gx` of `applySobel` (the same array in `sobel_syntheticness.cpp`
and `sobel_operator.cpp`). -/
def Gx : List (List Int) :=
  [[-1, 0, 1],
   [-2, 0, 2],
   [-1, 0, 1]]

/-- The kernel `Gy` of `applySobel` (the same array in `sobel_syntheticness.cpp`
and `sobel_operator.cpp`). -/
def Gy : List (List Int) :=
  [[-1, -2, -1],
   [0, 0, 0],
   [1, 2, 1]]

/-- The body of the innermost loop of `applySobel`, for kernel offsets `m`, `n`:
`sumX += channel[i + m][j + n] * Gx[m + 1][n + 1]`, and the same for `sumY`
with `Gy`.  The accumulator is the pair `(sumX, sumY)`. -/
def sobelAccumulate (channel : List (List Int)) (i j : Nat) (m n : Int)
    (acc : Int × Int) : Option (Int × Int) :=
  match Cxx.at2 channel ((i : Int) + m) ((j : Int) + n),
        Cxx.at2 Gx (m + 1) (n + 1), Cxx.at2 Gy (m + 1) (n + 1) with
  | some v, some gx, some gy => some (acc.1 + v * gx, acc.2 + v * gy)
  | _, _, _ => none

/-- The two convolution loops of `applySobel` at pixel `(i, j)`: `m` and `n`
run from `-1` to `1`, starting from `sumX = 0`, `sumY = 0`. -/
def sobelSums (channel : List (List Int)) (i j : Nat) : Option (Int × Int) :=
  ([-1, 0, 1] : List Int).foldlM
    (fun acc m =>
      ([-1, 0, 1] : List Int).foldlM (fun acc n => sobelAccumulate channel i j m n acc) acc)
    (0, 0)

/-- The value `std::sqrt(sumX * sumX + sumY * sumY)` stored, as an `int`, at
pixel `(i, j)`. -/
def sobelMagnitude (channel : List (List Int)) (i j : Nat) : Option Int :=
  match sobelSums channel i j with
  | some (sumX, sumY) => Cxx.sqrtToInt (sumX * sumX + sumY * sumY)
  | none => none

namespace SobelSyntheticness

/-- The function `applySobel(channel, gradient, width, height)` of
`sobel_syntheticness.cpp`, lines 41-75: the gradient is a flat vector, resized
to `height * width` and written at `i * width + j` for the interior pixels
`1 ≤ i < height - 1`, `1 ≤ j < width - 1`.  The result is the final content of
the reference parameter `gradient`. -/
def applySobel (channel : List (List Int)) (gradient : List Int) (width height : Nat) :
    Option (List Int) :=
  (List.range' 1 (height - 2)).foldlM
    (fun gradient i =>
      (List.range' 1 (width - 2)).foldlM
        (fun gradient j =>
          match sobelMagnitude channel i j with
          | some magnitude => Cxx.assign gradient (i * width + j) magnitude
          | none => none)
        gradient)
    (Cxx.resize gradient (height * width) 0)

end SobelSyntheticness

namespace SobelOperator

/-- The function `applySobel(channel, gradient, width, height)` of
`sobel_operator.cpp`, lines 39-73: the gradient is a vector of rows, resized to
`height` rows (new rows are `width` zeros) and written at `[i][j]` for the
interior pixels. -/
def applySobel (channel : List (List Int)) (gradient : List (List Int))
    (width height : Nat) : Option (List (List Int)) :=
  (List.range' 1 (height - 2)).foldlM
    (fun gradient i =>
      (List.range' 1 (width - 2)).foldlM
        (fun gradient j =>
          match sobelMagnitude channel i j with
          | some magnitude => Cxx.assign2 gradient i j magnitude
          | none => none)
        gradient)
    (Cxx.resize gradient height (List.replicate width 0))

end SobelOperator

namespace Spec

/-- The sample `channel[r][c]` of a channel grid (`0` outside the grid). -/
def sample (channel : List (List Int)) (r c : Nat) : Int :=
  (channel.getD r []).getD c 0

/-- The horizontal Sobel sum at `(i, j)`: the 3x3 neighbourhood weighted by
`Gx = [[-1,0,1],[-2,0,2],[-1,0,1]]`. -/
def sobelSumX (channel : List (List Int)) (i j : Nat) : Int :=
  -sample channel (i - 1) (j - 1) + sample channel (i - 1) (j + 1)
    - 2 * sample channel i (j - 1) + 2 * sample channel i (j + 1)
    - sample channel (i + 1) (j - 1) + sample channel (i + 1) (j + 1)

/-- The vertical Sobel sum at `(i, j)`: the 3x3 neighbourhood weighted by
`Gy = [[-1,-2,-1],[0,0,0],[1,2,1]]`. -/
def sobelSumY (channel : List (List Int)) (i j : Nat) : Int :=
  -sample channel (i - 1) (j - 1) - 2 * sample channel (i - 1) j
    - sample channel (i - 1) (j + 1)
    + sample channel (i + 1) (j - 1) + 2 * sample channel (i + 1) j
    + sample channel (i + 1) (j + 1)

end Spec

/-! ### Histogram construction -/

/-- One iteration of the loop `for (int val : gradients)` of `buildHistogram`:
a sample `val > 0` increments `histogram[min(val / bin_width, bin_size - 1)]`,
any other sample leaves the histogram as it is. -/
def histogramStep (bin_size bin_width : Int) (histogram : List Int) (val : Int) :
    Option (List Int) :=
  if 0 < val then
    match Cxx.idiv val bin_width with
    | none => none
    | some q =>
      let bin_index := min q (bin_size - 1)
      if bin_index < 0 then none
      else
        match histogram[bin_index.toNat]? with
        | some c => some (histogram.set bin_index.toNat (c + 1))
        | none => none
  else some histogram

namespace SobelSyntheticness

/-- The default `bin_size = 50` of `buildHistogram` in
`sobel_syntheticness.cpp`. -/
def default_bin_size : Int := 50

/-- The default `max_val = 255` of `buildHistogram` in
`sobel_syntheticness.cpp`. -/
def default_max_val : Int := 255

/-- The function `buildHistogram(gradients, bin_size, max_val)` of
`sobel_syntheticness.cpp`, lines 78-97.  Constructing the vector with a negative
size throws, `max_val / bin_size` is an integer division. -/
def buildHistogram (gradients : List Int) (bin_size max_val : Int) : Option (List Int) :=
  if bin_size < 0 then none
  else
    match Cxx.idiv max_val bin_size with
    | none => none
    | some bin_width =>
      gradients.foldlM (histogramStep bin_size bin_width) (List.replicate bin_size.toNat 0)

end SobelSyntheticness

namespace Syntheticness

/-- The default `bin_size = 1` of `buildHistogram` in `syntheticness.cpp`. -/
def default_bin_size : Int := 1

/-- The default `max_val = 255` of `buildHistogram` in `syntheticness.cpp`. -/
def default_max_val : Int := 255

/-- The function `buildHistogram(gradients, name, bin_size, max_val)` of
`syntheticness.cpp`, lines 63-76: the same loop, followed by a read of
`histogram[0]` for the log line. -/
def buildHistogram (gradients : List Int) (bin_size max_val : Int) : Option (List Int) :=
  if bin_size < 0 then none
  else
    match Cxx.idiv max_val bin_size with
    | none => none
    | some bin_width =>
      match gradients.foldlM (histogramStep bin_size bin_width)
          (List.replicate bin_size.toNat 0) with
      | none => none
      | some histogram =>
        match histogram[0]? with
        | some _ => some histogram
        | none => none

end Syntheticness

/-! ### Regression fit -/

namespace Cxx

/-- Division `a / b` of two finite doubles.  With a zero divisor IEEE-754
arithmetic yields an infinity or a NaN; such a non-finite value is modelled by
`none`. -/
def fdiv (a b : ℚ) : Option ℚ :=
  if b = 0 then none else some (a / b)

/-- The contents `0, 1, ..., n-1` written by `std::iota(first, last, 0)` into a
vector of `n` integers. -/
def iota (n : Nat) : List Int :=
  (List.range n).map Int.ofNat

end Cxx

/-- The four `double` accumulators of the summation loop of
`fitRegressionLine`. -/
structure RegressionSums where
  /-- The accumulator `sum_x`. -/
  sum_x : ℚ
  /-- The accumulator `sum_y`. -/
  sum_y : ℚ
  /-- The accumulator `sum_xy`. -/
  sum_xy : ℚ
  /-- The accumulator `sum_x2`. -/
  sum_x2 : ℚ

/-- What `fitRegressionLine` computes: the locals `slope` and `intercept`, the
output parameter `gmax` and the returned `g0`.  A `double` that is not finite
(the result of a division by zero, or computed from one) is `none`. -/
structure RegressionFit where
  /-- The local `slope`. -/
  slope : Option ℚ
  /-- The local `intercept`. -/
  intercept : Option ℚ
  /-- The output parameter `gmax`. -/
  gmax : Int
  /-- The returned value `-intercept / slope`. -/
  g0 : Option ℚ

/-- One iteration of the summation loop of `fitRegressionLine` at index `i`:
`bin_centers[i] * histogram[i]` and `bin_centers[i] * bin_centers[i]` are
integer products, added to `double` accumulators.  The products are exact
here; `Machine.regressionStep` computes them in 32-bit `int` as the source
does, and the two agree where no product leaves the range of `int`. -/
def regressionStep (bin_centers histogram : List Int) (s : RegressionSums) (i : Nat) :
    Option RegressionSums :=
  match bin_centers[i]?, histogram[i]? with
  | some c, some h =>
      some { sum_x := s.sum_x + (c : ℚ), sum_y := s.sum_y + (h : ℚ),
             sum_xy := s.sum_xy + ((c * h : Int) : ℚ),
             sum_x2 := s.sum_x2 + ((c * c : Int) : ℚ) }
  | _, _ => none

namespace SobelSyntheticness

/-- The function `fitRegressionLine(histogram, gmax)` of
`sobel_syntheticness.cpp`, lines 100-126, with exact integer arithmetic (see
`Machine.SobelSyntheticness.fitRegressionLine` for the 32-bit `int` arithmetic
of the source).  `total` is the integer `std::accumulate` of the counts;
`gmax = bin_centers[bin_size - 1]` reads out of bounds when the histogram is
empty. -/
def fitRegressionLine (histogram : List Int) : Option RegressionFit := do
  let bin_size := histogram.length
  let bin_centers := Cxx.iota bin_size
  let total : Int := histogram.foldl (fun acc h => acc + h) 0
  let sums ← (List.range bin_size).foldlM (regressionStep bin_centers histogram) ⟨0, 0, 0, 0⟩
  let slope := Cxx.fdiv ((total : ℚ) * sums.sum_xy - sums.sum_x * sums.sum_y)
                 ((total : ℚ) * sums.sum_x2 - sums.sum_x * sums.sum_x)
  let intercept := slope.bind fun s => Cxx.fdiv (sums.sum_y - s * sums.sum_x) (total : ℚ)
  let gmax ← if bin_size = 0 then none else bin_centers[bin_size - 1]?
  some { slope := slope, intercept := intercept, gmax := gmax,
         g0 := intercept.bind fun c => slope.bind fun s => Cxx.fdiv (-c) s }

end SobelSyntheticness

namespace Syntheticness

/-- The function `fitRegressionLine(histogram, gmax, name)` of
`syntheticness.cpp`, lines 79-104, with exact integer arithmetic: the same
statements as in `sobel_syntheticness.cpp`, with different logging. -/
def fitRegressionLine (histogram : List Int) : Option RegressionFit := do
  let bin_size := histogram.length
  let bin_centers := Cxx.iota bin_size
  let total : Int := histogram.foldl (fun acc h => acc + h) 0
  let sums ← (List.range bin_size).foldlM (regressionStep bin_centers histogram) ⟨0, 0, 0, 0⟩
  let slope := Cxx.fdiv ((total : ℚ) * sums.sum_xy - sums.sum_x * sums.sum_y)
                 ((total : ℚ) * sums.sum_x2 - sums.sum_x * sums.sum_x)
  let intercept := slope.bind fun s => Cxx.fdiv (sums.sum_y - s * sums.sum_x) (total : ℚ)
  let gmax ← if bin_size = 0 then none else bin_centers[bin_size - 1]?
  some { slope := slope, intercept := intercept, gmax := gmax,
         g0 := intercept.bind fun c => slope.bind fun s => Cxx.fdiv (-c) s }

end Syntheticness

namespace Spec

/-- The sum `Σx` of the specification: the bin indices `0 .. bin_count-1`. -/
def sumX (counts : List Int) : ℚ :=
  ∑ i ∈ Finset.range counts.length, (i : ℚ)

/-- The sum `Σy` of the specification: the counts of all bins. -/
def sumY (counts : List Int) : ℚ :=
  ∑ i ∈ Finset.range counts.length, ((counts.getD i 0 : Int) : ℚ)

/-- The sum `Σxy` of the specification over the points `(bin_index, count)`. -/
def sumXY (counts : List Int) : ℚ :=
  ∑ i ∈ Finset.range counts.length, (i : ℚ) * ((counts.getD i 0 : Int) : ℚ)

/-- The sum `Σx²` of the specification. -/
def sumX2 (counts : List Int) : ℚ :=
  ∑ i ∈ Finset.range counts.length, (i : ℚ) ^ 2

/-- The least-squares `n` of the specification: `n = Σy`, the sum of the
counts, not the number of bins. -/
def n (counts : List Int) : ℚ :=
  sumY counts

/-- The regression denominator `n*Σx² − (Σx)²` of the specification. -/
def denominator (counts : List Int) : ℚ :=
  n counts * sumX2 counts - sumX counts ^ 2

/-- The slope of the specification:
`(n*Σxy − Σx*Σy) / (n*Σx² − (Σx)²)`. -/
def slope (counts : List Int) : ℚ :=
  (n counts * sumXY counts - sumX counts * sumY counts) / denominator counts

/-- The intercept of the specification: `(Σy − slope*Σx) / n`. -/
def intercept (counts : List Int) : ℚ :=
  (sumY counts - slope counts * sumX counts) / n counts

/-- The x-intercept of the specification: `g0 = -intercept / slope`. -/
def g0 (counts : List Int) : ℚ :=
  -intercept counts / slope counts

/-- The last bin index of the specification: `gmax = bin_count - 1`. -/
def gmax (counts : List Int) : Int :=
  (counts.length : Int) - 1

end Spec

/-! ### Absolute-difference gradient -/

namespace Syntheticness

/-- The body of the horizontal loop of `calculateGradients` at `(i, j)`:
`ghor.push_back(std::abs(channel[i][j] - channel[i][j - 1]))`. -/
def horizontalStep (channel : List (List Int)) (i : Nat) (ghor : List Int) (j : Nat) :
    Option (List Int) :=
  match Cxx.at2 channel (i : Int) (j : Int), Cxx.at2 channel (i : Int) ((j : Int) - 1) with
  | some x, some y => some (ghor ++ [|x - y|])
  | _, _ => none

/-- The body of the vertical loop of `calculateGradients` at `(i, j)`:
`gver.push_back(std::abs(channel[i][j] - channel[i - 1][j]))`. -/
def verticalStep (channel : List (List Int)) (i : Nat) (gver : List Int) (j : Nat) :
    Option (List Int) :=
  match Cxx.at2 channel (i : Int) (j : Int), Cxx.at2 channel ((i : Int) - 1) (j : Int) with
  | some x, some y => some (gver ++ [|x - y|])
  | _, _ => none

/-- The function `calculateGradients(channel, ghor, gver, name)` of
`syntheticness.cpp`, lines 41-60.  `width` is `channel[0].size()`; the
horizontal loop runs over all rows and the columns `1 ≤ j < width`, the
vertical loop over the rows `1 ≤ i < height` and all columns; the log line at
the end reads `ghor[0]` and `gver[0]`.  The result is the final content of the
reference parameters `ghor` and `gver`. -/
def calculateGradients (channel : List (List Int)) (ghor gver : List Int) :
    Option (List Int × List Int) :=
  let height := channel.length
  match channel[0]? with
  | none => none
  | some row0 =>
    let width := row0.length
    match (List.range height).foldlM
        (fun ghor i => (List.range' 1 (width - 1)).foldlM (horizontalStep channel i) ghor)
        ghor with
    | none => none
    | some ghor =>
      match (List.range' 1 (height - 1)).foldlM
          (fun gver i => (List.range width).foldlM (verticalStep channel i) gver)
          gver with
      | none => none
      | some gver =>
        match ghor[0]?, gver[0]? with
        | some _, some _ => some (ghor, gver)
        | _, _ => none

end Syntheticness

namespace Spec

/-- The horizontal differences `|channel[i][j] - channel[i][j-1]|` of a
`height × width` grid for all rows `i` and all columns `j ≥ 1`, in row-major
order (`width - 1` entries per row). -/
def horizontalDifferences (channel : List (List Int)) (width height : Nat) : List Int :=
  (List.range height).flatMap fun i =>
    (List.range (width - 1)).map fun j => |sample channel i (j + 1) - sample channel i j|

/-- The vertical differences `|channel[i][j] - channel[i-1][j]|` of a
`height × width` grid for all rows `i ≥ 1` and all columns `j`, in row-major
order (`width` entries per row). -/
def verticalDifferences (channel : List (List Int)) (width height : Nat) : List Int :=
  (List.range (height - 1)).flatMap fun i =>
    (List.range width).map fun j => |sample channel (i + 1) j - sample channel i j|

end Spec

/-! ### Doubles with the special values of IEEE-754 -/

namespace Cxx

/-- A `double` with the special values of IEEE-754 arithmetic: a finite value
(an exact rational; `finite 0` is `+0.0`), the negative zero `-0.0`, the two
infinities, and NaN.  Rounding and overflow of finite values are not modelled. -/
inductive Double where
  /-- A finite value; `finite 0` is `+0.0`. -/
  | finite (q : ℚ)
  /-- The negative zero `-0.0`. -/
  | negZero
  /-- The infinity `+inf` (`negative = false`) or `-inf` (`negative = true`). -/
  | inf (negative : Bool)
  /-- Not a number. -/
  | nan
deriving DecidableEq, Repr

namespace Double

/-- Whether the value is `+0.0` or `-0.0`. -/
def isZero : Double → Bool
  | finite q => decide (q = 0)
  | negZero => true
  | inf _ => false
  | nan => false

/-- The sign bit of a value that is not NaN. -/
def signBit : Double → Bool
  | finite q => decide (q < 0)
  | negZero => true
  | inf negative => negative
  | nan => false

/-- The rational value of a finite `double` (both zeros have value `0`). -/
def value : Double → ℚ
  | finite q => q
  | negZero => 0
  | inf _ => 0
  | nan => 0

/-- The finite value of a `double`, if it has one. -/
def toRat? : Double → Option ℚ
  | finite q => some q
  | negZero => some 0
  | inf _ => none
  | nan => none

/-- The zero with the given sign bit. -/
def zero (negative : Bool) : Double :=
  if negative then negZero else finite 0

/-- The finite result `q` of an operation; a zero result takes the given sign
bit. -/
def ofRat (q : ℚ) (negative : Bool) : Double :=
  if q = 0 then zero negative else finite q

/-- The conversion of an `int` to `double`. -/
def ofInt (n : Int) : Double :=
  finite (n : ℚ)

/-- The unary minus: it flips the sign bit, also of zeros and infinities. -/
def neg : Double → Double
  | finite q => if q = 0 then negZero else finite (-q)
  | negZero => finite 0
  | inf negative => inf (!negative)
  | nan => nan

/-- The product `a * b`: NaN propagates, `inf * 0` is NaN, and the sign of a
zero or infinite product is the exclusive or of the operands' signs. -/
def mul (a b : Double) : Double :=
  match a, b with
  | nan, _ => nan
  | _, nan => nan
  | inf s, y => if y.isZero then nan else inf (s != y.signBit)
  | x, inf s => if x.isZero then nan else inf (x.signBit != s)
  | x, y => ofRat (x.value * y.value) (x.signBit != y.signBit)

/-- The quotient `a / b`: NaN propagates, `0 / 0` and `inf / inf` are NaN, a
non-zero value divided by a zero is an infinity, a finite value divided by an
infinity is a zero, and signs combine by exclusive or. -/
def div (a b : Double) : Double :=
  match a, b with
  | nan, _ => nan
  | _, nan => nan
  | inf _, inf _ => nan
  | inf s, y => inf (s != y.signBit)
  | x, inf s => zero (x.signBit != s)
  | x, y =>
    if y.isZero then
      if x.isZero then nan else inf (x.signBit != y.signBit)
    else ofRat (x.value / y.value) (x.signBit != y.signBit)

/-- The sum `a + b` (rounding to nearest): NaN propagates, `inf + (-inf)` is
NaN, and an exact zero sum is `-0.0` only when both operands are `-0.0`. -/
def add (a b : Double) : Double :=
  match a, b with
  | nan, _ => nan
  | _, nan => nan
  | inf s, inf t => if s = t then inf s else nan
  | inf s, _ => inf s
  | _, inf t => inf t
  | negZero, negZero => negZero
  | x, y => finite (x.value + y.value)

/-- The difference `a - b`, which is `a + (-b)`. -/
def sub (a b : Double) : Double :=
  add a (neg b)

/-- The comparison `a <= b`: false when an operand is NaN; the two zeros
compare equal. -/
def le (a b : Double) : Bool :=
  match a, b with
  | nan, _ => false
  | _, nan => false
  | inf s, inf t => s || !t
  | inf s, _ => s
  | _, inf t => !t
  | x, y => decide (x.value ≤ y.value)

end Double

end Cxx

/-! ### The regression fit and the scorer on IEEE-754 doubles -/

namespace Ieee

/-- What `fitRegressionLine` computes, with `slope`, `intercept` and `g0` as
IEEE-754 doubles. -/
structure RegressionFit where
  /-- The local `slope`. -/
  slope : Cxx.Double
  /-- The local `intercept`. -/
  intercept : Cxx.Double
  /-- The output parameter `gmax`. -/
  gmax : Int
  /-- The returned value `-intercept / slope`. -/
  g0 : Cxx.Double

/-- The function `fitRegressionLine` (the same statements in
`sobel_syntheticness.cpp`, lines 100-126, and `syntheticness.cpp`, lines
79-104), evaluated with the special values of IEEE-754: a division by zero
gives an infinity or a NaN and the function carries on.  The four accumulators
are sums of integers starting from `0.0` and are finite; integer arithmetic is
exact, as in `regressionStep`. -/
def fitRegressionLine (histogram : List Int) : Option RegressionFit := do
  let bin_size := histogram.length
  let bin_centers := Cxx.iota bin_size
  let total : Int := histogram.foldl (fun acc h => acc + h) 0
  let sums ← (List.range bin_size).foldlM (regressionStep bin_centers histogram) ⟨0, 0, 0, 0⟩
  let slope :=
    Cxx.Double.div
      (Cxx.Double.sub
        (Cxx.Double.mul (Cxx.Double.ofInt total) (Cxx.Double.finite sums.sum_xy))
        (Cxx.Double.mul (Cxx.Double.finite sums.sum_x) (Cxx.Double.finite sums.sum_y)))
      (Cxx.Double.sub
        (Cxx.Double.mul (Cxx.Double.ofInt total) (Cxx.Double.finite sums.sum_x2))
        (Cxx.Double.mul (Cxx.Double.finite sums.sum_x) (Cxx.Double.finite sums.sum_x)))
  let intercept :=
    Cxx.Double.div
      (Cxx.Double.sub (Cxx.Double.finite sums.sum_y)
        (Cxx.Double.mul slope (Cxx.Double.finite sums.sum_x)))
      (Cxx.Double.ofInt total)
  let gmax ← if bin_size = 0 then none else bin_centers[bin_size - 1]?
  some { slope := slope, intercept := intercept, gmax := gmax,
         g0 := Cxx.Double.div (Cxx.Double.neg intercept) slope }

namespace SobelSyntheticness

/-- The function `calculateSyntheticness(double g0, int gmax)` of
`sobel_syntheticness.cpp`, lines 129-134, on IEEE-754 doubles: both comparisons
are false for a NaN, which is then returned. -/
def calculateSyntheticness (g0 : Cxx.Double) (gmax : Int) : Option Cxx.Double := do
  let half ← Cxx.idiv gmax 2
  let scale ← Cxx.idiv 200 half
  let sy_prime :=
    Cxx.Double.mul
      (Cxx.Double.div (Cxx.Double.sub g0 (Cxx.Double.ofInt gmax)) (Cxx.Double.ofInt 2))
      (Cxx.Double.ofInt scale)
  if Cxx.Double.le (Cxx.Double.ofInt 200) sy_prime then some (Cxx.Double.ofInt 200)
  else if Cxx.Double.le sy_prime (Cxx.Double.ofInt 0) then some (Cxx.Double.ofInt 0)
  else some sy_prime

end SobelSyntheticness

namespace Syntheticness

/-- The function `calculateSyntheticness(double g0, int gmax, name)` of
`syntheticness.cpp`, lines 107-114, on IEEE-754 doubles. -/
def calculateSyntheticness (g0 : Cxx.Double) (gmax : Int) : Option Cxx.Double := do
  let half ← Cxx.idiv gmax 2
  let scale ← Cxx.idiv 200 half
  let sy_prime :=
    Cxx.Double.mul
      (Cxx.Double.div (Cxx.Double.sub g0 (Cxx.Double.ofInt gmax)) (Cxx.Double.ofInt 2))
      (Cxx.Double.ofInt scale)
  let sy_prime :=
    if Cxx.Double.le (Cxx.Double.ofInt 200) sy_prime then Cxx.Double.ofInt 200 else sy_prime
  let sy_prime :=
    if Cxx.Double.le sy_prime (Cxx.Double.ofInt 0) then Cxx.Double.ofInt 0 else sy_prime
  some sy_prime

end Syntheticness

end Ieee

/-! ### The two pipelines -/

namespace SobelSyntheticness

/-- The function `main` of `sobel_syntheticness.cpp`, lines 136-181, after
`readPPM` has produced the three channels and the dimensions: the three
syntheticness values it prints.  `applySobel` is called on empty vectors,
`gradient_red[0]`, `gradient_green[0]` and `gradient_blue[0]` are read for the
log, and `buildHistogram` is called with its defaults. -/
def main (red green blue : List (List Int)) (width height : Nat) :
    Option (Cxx.Double × Cxx.Double × Cxx.Double) := do
  let gradient_red ← applySobel red [] width height
  let gradient_green ← applySobel green [] width height
  let gradient_blue ← applySobel blue [] width height
  let _ ← gradient_red[0]?
  let _ ← gradient_green[0]?
  let _ ← gradient_blue[0]?
  let hist_red ← buildHistogram gradient_red default_bin_size default_max_val
  let hist_green ← buildHistogram gradient_green default_bin_size default_max_val
  let hist_blue ← buildHistogram gradient_blue default_bin_size default_max_val
  let fit_red ← Ieee.fitRegressionLine hist_red
  let fit_green ← Ieee.fitRegressionLine hist_green
  let fit_blue ← Ieee.fitRegressionLine hist_blue
  let syntheticness_red ← Ieee.SobelSyntheticness.calculateSyntheticness fit_red.g0 fit_red.gmax
  let syntheticness_green ←
    Ieee.SobelSyntheticness.calculateSyntheticness fit_green.g0 fit_green.gmax
  let syntheticness_blue ←
    Ieee.SobelSyntheticness.calculateSyntheticness fit_blue.g0 fit_blue.gmax
  some (syntheticness_red, syntheticness_green, syntheticness_blue)

end SobelSyntheticness

namespace Syntheticness

/-- Steps 2 and 3 of `calculateImageSyntheticness` in `syntheticness.cpp`, lines
124-133: `calculateGradients` on each channel with empty outputs, then
`buildHistogram`, with its defaults, on `ghor_red`, `ghor_green` and
`ghor_blue`.  The vectors `gver_red`, `gver_green` and `gver_blue` are filled
and not used again. -/
def imageHistograms (red green blue : List (List Int)) :
    Option (List Int × List Int × List Int) := do
  let (ghor_red, _gver_red) ← calculateGradients red [] []
  let (ghor_green, _gver_green) ← calculateGradients green [] []
  let (ghor_blue, _gver_blue) ← calculateGradients blue [] []
  let hist_red ← buildHistogram ghor_red default_bin_size default_max_val
  let hist_green ← buildHistogram ghor_green default_bin_size default_max_val
  let hist_blue ← buildHistogram ghor_blue default_bin_size default_max_val
  some (hist_red, hist_green, hist_blue)

/-- The function `calculateImageSyntheticness` of `syntheticness.cpp`, lines
117-149, after `readPPM` has produced the three channels: steps 2 and 3 as in
`imageHistograms`, then `fitRegressionLine` and `calculateSyntheticness` for
each channel; the result is the three syntheticness values it prints. -/
def calculateImageSyntheticness (red green blue : List (List Int)) :
    Option (Cxx.Double × Cxx.Double × Cxx.Double) := do
  let (hist_red, hist_green, hist_blue) ← imageHistograms red green blue
  let fit_red ← Ieee.fitRegressionLine hist_red
  let fit_green ← Ieee.fitRegressionLine hist_green
  let fit_blue ← Ieee.fitRegressionLine hist_blue
  let syntheticness_red ← Ieee.Syntheticness.calculateSyntheticness fit_red.g0 fit_red.gmax
  let syntheticness_green ←
    Ieee.Syntheticness.calculateSyntheticness fit_green.g0 fit_green.gmax
  let syntheticness_blue ← Ieee.Syntheticness.calculateSyntheticness fit_blue.g0 fit_blue.gmax
  some (syntheticness_red, syntheticness_green, syntheticness_blue)

end Syntheticness

/-! ### The regression fit with 32-bit `int` arithmetic -/

namespace Cxx

/-- Whether a mathematical integer is a value of the 32-bit `int`. -/
def fitsInt (x : Int) : Bool :=
  decide (-2147483648 ≤ x) && decide (x ≤ 2147483647)

/-- The value of the 32-bit `int` that holds the mathematical result `x` of an
`int` operation: `x` itself when it is in range, and otherwise the
two's-complement wrap of `x` (signed overflow is undefined in C++; the compiled
program wraps). -/
def wrapInt (x : Int) : Int :=
  (x + 2147483648) % 4294967296 - 2147483648

/-- The product `a * b` of two `int` values, computed in `int`. -/
def imul (a b : Int) : Int :=
  wrapInt (a * b)

/-- The sum `a + b` of two `int` values, computed in `int`. -/
def iadd (a b : Int) : Int :=
  wrapInt (a + b)

end Cxx

namespace Machine

/-- One iteration of the summation loop of `fitRegressionLine` at index `i`,
with the `int` products of the source: `bin_centers[i] * histogram[i]` and
`bin_centers[i] * bin_centers[i]` are computed in 32-bit `int` and then added
to the `double` accumulators; `sum_x` and `sum_y` add an `int` to a `double`. -/
def regressionStep (bin_centers histogram : List Int) (s : RegressionSums) (i : Nat) :
    Option RegressionSums :=
  match bin_centers[i]?, histogram[i]? with
  | some c, some h =>
      some { sum_x := s.sum_x + (c : ℚ), sum_y := s.sum_y + (h : ℚ),
             sum_xy := s.sum_xy + ((Cxx.imul c h : Int) : ℚ),
             sum_x2 := s.sum_x2 + ((Cxx.imul c c : Int) : ℚ) }
  | _, _ => none

/-- Whether no `int` operation of `fitRegressionLine` overflows on the
histogram: the total of the counts, every product `i * histogram[i]` and every
square `i * i` of a bin index is a value of the 32-bit `int`. -/
def noOverflow (histogram : List Int) : Bool :=
  Cxx.fitsInt histogram.sum
    && (List.range histogram.length).all fun i =>
         Cxx.fitsInt ((i : Int) * histogram.getD i 0) && Cxx.fitsInt ((i : Int) * (i : Int))

namespace SobelSyntheticness

/-- The function `fitRegressionLine(histogram, gmax)` of
`sobel_syntheticness.cpp`, lines 100-126, with the 32-bit `int` arithmetic of
the source: `total` is `std::accumulate` with the `int` initial value `0`, and
the two products of the loop are `int` products. -/
def fitRegressionLine (histogram : List Int) : Option RegressionFit := do
  let bin_size := histogram.length
  let bin_centers := Cxx.iota bin_size
  let total : Int := histogram.foldl (fun acc h => Cxx.iadd acc h) 0
  let sums ← (List.range bin_size).foldlM (regressionStep bin_centers histogram) ⟨0, 0, 0, 0⟩
  let slope := Cxx.fdiv ((total : ℚ) * sums.sum_xy - sums.sum_x * sums.sum_y)
                 ((total : ℚ) * sums.sum_x2 - sums.sum_x * sums.sum_x)
  let intercept := slope.bind fun s => Cxx.fdiv (sums.sum_y - s * sums.sum_x) (total : ℚ)
  let gmax ← if bin_size = 0 then none else bin_centers[bin_size - 1]?
  some { slope := slope, intercept := intercept, gmax := gmax,
         g0 := intercept.bind fun c => slope.bind fun s => Cxx.fdiv (-c) s }

end SobelSyntheticness

namespace Syntheticness

/-- The function `fitRegressionLine(histogram, gmax, name)` of
`syntheticness.cpp`, lines 79-104, with the 32-bit `int` arithmetic of the
source: the same statements as in `sobel_syntheticness.cpp`. -/
def fitRegressionLine (histogram : List Int) : Option RegressionFit := do
  let bin_size := histogram.length
  let bin_centers := Cxx.iota bin_size
  let total : Int := histogram.foldl (fun acc h => Cxx.iadd acc h) 0
  let sums ← (List.range bin_size).foldlM (regressionStep bin_centers histogram) ⟨0, 0, 0, 0⟩
  let slope := Cxx.fdiv ((total : ℚ) * sums.sum_xy - sums.sum_x * sums.sum_y)
                 ((total : ℚ) * sums.sum_x2 - sums.sum_x * sums.sum_x)
  let intercept := slope.bind fun s => Cxx.fdiv (sums.sum_y - s * sums.sum_x) (total : ℚ)
  let gmax ← if bin_size = 0 then none else bin_centers[bin_size - 1]?
  some { slope := slope, intercept := intercept, gmax := gmax,
         g0 := intercept.bind fun c => slope.bind fun s => Cxx.fdiv (-c) s }

end Syntheticness

end Machine

/-! ## Theorems -/

/-! ### The syntheticness scorer -/

/-- With a non-zero inner quotient both scorers evaluate the same clamped
expression. -/
theorem calculateSyntheticness_eq_of_half_ne_zero (g0 : ℚ) (gmax : Int)
    (h : gmax.tdiv 2 ≠ 0) :
    SobelSyntheticness.calculateSyntheticness g0 gmax
        = some (max 0 (min 200
            (((g0 - (gmax : ℚ)) / 2) * (((200 : Int).tdiv (gmax.tdiv 2) : Int) : ℚ))))
    ∧ Syntheticness.calculateSyntheticness g0 gmax
        = some (max 0 (min 200
            (((g0 - (gmax : ℚ)) / 2) * (((200 : Int).tdiv (gmax.tdiv 2) : Int) : ℚ)))) := by
  have h2 : Cxx.idiv gmax 2 = some (gmax.tdiv 2) := by simp [Cxx.idiv]
  have h3 : Cxx.idiv 200 (gmax.tdiv 2) = some ((200 : Int).tdiv (gmax.tdiv 2)) := by
    simp [Cxx.idiv, h]
  generalize hr : ((g0 - (gmax : ℚ)) / 2) * (((200 : Int).tdiv (gmax.tdiv 2) : Int) : ℚ) = raw
  constructor
  · simp only [SobelSyntheticness.calculateSyntheticness, h2, h3, Option.bind_eq_bind,
      Option.some_bind, hr]
    by_cases h200 : 200 ≤ raw
    · rw [if_pos h200, min_eq_left h200]; norm_num
    · rw [if_neg h200]
      have hlt : raw < 200 := lt_of_not_le h200
      rw [min_eq_right hlt.le]
      by_cases h0 : raw ≤ 0
      · rw [if_pos h0, max_eq_left h0]
      · rw [if_neg h0, max_eq_right (lt_of_not_le h0).le]
  · simp only [Syntheticness.calculateSyntheticness, h2, h3, Option.bind_eq_bind,
      Option.some_bind, hr]
    by_cases h200 : 200 ≤ raw
    · rw [if_pos h200, min_eq_left h200]; norm_num
    · rw [if_neg h200]
      have hlt : raw < 200 := lt_of_not_le h200
      rw [min_eq_right hlt.le]
      by_cases h0 : raw ≤ 0
      · rw [if_pos h0, max_eq_left h0]
      · rw [if_neg h0, max_eq_right (lt_of_not_le h0).le]

/-- With a zero inner quotient `gmax / 2` the division `200 / (gmax / 2)` is
undefined and neither scorer returns a value. -/
theorem calculateSyntheticness_none_of_half_zero (g0 : ℚ) (gmax : Int)
    (h : gmax.tdiv 2 = 0) :
    SobelSyntheticness.calculateSyntheticness g0 gmax = none
      ∧ Syntheticness.calculateSyntheticness g0 gmax = none := by
  constructor
  · simp [SobelSyntheticness.calculateSyntheticness, Cxx.idiv, h]
  · simp [Syntheticness.calculateSyntheticness, Cxx.idiv, h]

/-- For `gmax ≥ 2` the inner quotient `gmax / 2` is at least one. -/
theorem half_pos_of_two_le (gmax : Int) (h : 2 ≤ gmax) : 1 ≤ gmax.tdiv 2 := by
  rw [Int.tdiv_eq_ediv (by omega) (by omega)]
  omega

/-- For `gmax ≥ 2` the scale factor `200 / (gmax / 2)` is non-negative. -/
theorem scale_nonneg_of_two_le (gmax : Int) (h : 2 ≤ gmax) :
    0 ≤ (200 : Int).tdiv (gmax.tdiv 2) :=
  Int.tdiv_nonneg (by omega) (by have := half_pos_of_two_le gmax h; omega)

/-- C1: whenever the formula is defined (`gmax / 2`, an integer division, is
non-zero), both versions of `calculateSyntheticness` return a value `v` with
`0 ≤ v ≤ 200`, and `v` is the raw value
`((g0 - gmax)/2) * (200 / (gmax / 2))` whenever that lies strictly between
`0` and `200`. -/
theorem C1_calculateSyntheticness_clamped (g0 : ℚ) (gmax : Int)
    (h : gmax.tdiv 2 ≠ 0) :
    ∃ v : ℚ, SobelSyntheticness.calculateSyntheticness g0 gmax = some v
      ∧ Syntheticness.calculateSyntheticness g0 gmax = some v
      ∧ 0 ≤ v ∧ v ≤ 200
      ∧ (0 < ((g0 - (gmax : ℚ)) / 2) * (((200 : Int).tdiv (gmax.tdiv 2) : Int) : ℚ) →
          ((g0 - (gmax : ℚ)) / 2) * (((200 : Int).tdiv (gmax.tdiv 2) : Int) : ℚ) < 200 →
          v = ((g0 - (gmax : ℚ)) / 2) * (((200 : Int).tdiv (gmax.tdiv 2) : Int) : ℚ)) := by
  obtain ⟨hs, hy⟩ := calculateSyntheticness_eq_of_half_ne_zero g0 gmax h
  refine ⟨_, hs, hy, le_max_left _ _, max_le (by norm_num) (min_le_left _ _), ?_⟩
  intro hpos hlt
  rw [min_eq_right hlt.le, max_eq_right hpos.le]

/-- C1, at `g0 = 60`, `gmax = 49` (the 50-bin histogram of the Sobel pipeline):
the raw value `5.5 * 8 = 44` is passed through. -/
theorem C1_calculateSyntheticness_clamped_witness :
    ∃ v : ℚ, SobelSyntheticness.calculateSyntheticness 60 49 = some v
      ∧ Syntheticness.calculateSyntheticness 60 49 = some v
      ∧ 0 ≤ v ∧ v ≤ 200
      ∧ (0 < (((60 : ℚ) - ((49 : Int) : ℚ)) / 2) * (((200 : Int).tdiv ((49 : Int).tdiv 2) : Int) : ℚ) →
          (((60 : ℚ) - ((49 : Int) : ℚ)) / 2) * (((200 : Int).tdiv ((49 : Int).tdiv 2) : Int) : ℚ) < 200 →
          v = (((60 : ℚ) - ((49 : Int) : ℚ)) / 2) * (((200 : Int).tdiv ((49 : Int).tdiv 2) : Int) : ℚ)) :=
  C1_calculateSyntheticness_clamped 60 49 (by decide)

/-- C2 fails on the code: for `gmax = 49` (the last index of the 50-bin
histogram) and `g0 = 98 = 2 * gmax` both scorers return `24.5 * 8 = 196`,
not `200`, because `200 / (49 / 2) = 200 / 24 = 8` in integer arithmetic. -/
theorem C2_score_at_twice_gmax_counterexample :
    (0 : Int) < 49 ∧ (2 * ((49 : Int) : ℚ)) ≤ 98
      ∧ SobelSyntheticness.calculateSyntheticness 98 49 = some 196
      ∧ Syntheticness.calculateSyntheticness 98 49 = some 196
      ∧ SobelSyntheticness.calculateSyntheticness 98 49 ≠ some 200
      ∧ Syntheticness.calculateSyntheticness 98 49 ≠ some 200 := by
  obtain ⟨hs, hy⟩ := calculateSyntheticness_eq_of_half_ne_zero 98 49 (by decide)
  have e : ((200 : Int).tdiv ((49 : Int).tdiv 2)) = 8 := by decide
  rw [e] at hs hy
  have v : max (0 : ℚ) (min 200 (((98 : ℚ) - ((49 : Int) : ℚ)) / 2 * ((8 : Int) : ℚ))) = 196 := by
    norm_num
  rw [v] at hs hy
  refine ⟨by decide, by norm_num, hs, hy, ?_, ?_⟩
  · rw [hs]; norm_num
  · rw [hy]; norm_num

/-- C2 (amended): for `gmax ≥ 2`, both scorers return exactly `200` for every
`g0 ≥ 2 * gmax` if and only if `gmax * (200 / (gmax / 2)) ≥ 400` with the two
integer divisions of the code. -/
theorem C2_score_200_iff (gmax : Int) (h : 2 ≤ gmax) :
    (∀ g0 : ℚ, 2 * (gmax : ℚ) ≤ g0 →
        SobelSyntheticness.calculateSyntheticness g0 gmax = some 200
        ∧ Syntheticness.calculateSyntheticness g0 gmax = some 200)
      ↔ 400 ≤ gmax * (200 : Int).tdiv (gmax.tdiv 2) := by
  have hhalf := half_pos_of_two_le gmax h
  have hq := scale_nonneg_of_two_le gmax h
  have hne : gmax.tdiv 2 ≠ 0 := by omega
  generalize hqdef : (200 : Int).tdiv (gmax.tdiv 2) = q at hq
  have hqQ : (0 : ℚ) ≤ (q : ℚ) := by exact_mod_cast hq
  have hgQ : (2 : ℚ) ≤ (gmax : ℚ) := by exact_mod_cast h
  constructor
  · intro hall
    obtain ⟨hs, -⟩ := hall (2 * (gmax : ℚ)) le_rfl
    obtain ⟨hs', -⟩ := calculateSyntheticness_eq_of_half_ne_zero (2 * (gmax : ℚ)) gmax hne
    rw [hqdef] at hs'
    rw [hs'] at hs
    have hv : max (0 : ℚ) (min 200 ((2 * (gmax : ℚ) - (gmax : ℚ)) / 2 * (q : ℚ))) = 200 :=
      Option.some.inj hs
    have hraw : (200 : ℚ) ≤ (2 * (gmax : ℚ) - (gmax : ℚ)) / 2 * (q : ℚ) := by
      by_contra hcon
      have hlt := lt_of_not_le hcon
      rw [min_eq_right hlt.le] at hv
      rcases le_total ((2 * (gmax : ℚ) - (gmax : ℚ)) / 2 * (q : ℚ)) 0 with h0 | h0
      · rw [max_eq_left h0] at hv; norm_num at hv
      · rw [max_eq_right h0] at hv; linarith
    have : (400 : ℚ) ≤ (gmax : ℚ) * (q : ℚ) := by linarith
    exact_mod_cast this
  · intro h400 g0 hg0
    have h400Q : (400 : ℚ) ≤ (gmax : ℚ) * (q : ℚ) := by exact_mod_cast h400
    obtain ⟨hs, hy⟩ := calculateSyntheticness_eq_of_half_ne_zero g0 gmax hne
    rw [hqdef] at hs hy
    have hraw : (200 : ℚ) ≤ (g0 - (gmax : ℚ)) / 2 * (q : ℚ) := by
      have h1 : (gmax : ℚ) / 2 ≤ (g0 - (gmax : ℚ)) / 2 := by linarith
      have h2 : (gmax : ℚ) / 2 * (q : ℚ) ≤ (g0 - (gmax : ℚ)) / 2 * (q : ℚ) :=
        mul_le_mul_of_nonneg_right h1 hqQ
      linarith
    rw [min_eq_left hraw] at hs hy
    have hm : max (0 : ℚ) 200 = 200 := by norm_num
    rw [hm] at hs hy
    exact ⟨hs, hy⟩

/-- C2 (amended), at `gmax = 4`, `g0 = 8`: `4 * (200 / 2) = 400`, and the score
is `200`. -/
theorem C2_score_200_iff_witness :
    SobelSyntheticness.calculateSyntheticness 8 4 = some 200
      ∧ Syntheticness.calculateSyntheticness 8 4 = some 200 :=
  (C2_score_200_iff 4 (by decide)).mpr (by decide) 8 (by norm_num)

/-! ### The regression fit -/

/-- The two versions of `fitRegressionLine` are the same function. -/
theorem fitRegressionLine_versions_eq (histogram : List Int) :
    Syntheticness.fitRegressionLine histogram
      = SobelSyntheticness.fitRegressionLine histogram := rfl

/-- Reading `std::iota`'s vector inside its bounds gives the index itself. -/
theorem iota_getElem? (n i : Nat) (h : i < n) : (Cxx.iota n)[i]? = some (i : Int) := by
  simp [Cxx.iota, List.getElem?_map, List.getElem?_range h]

/-- The summation loop of `fitRegressionLine`, run over the first `k` bins from
the accumulators `s`, adds the four partial sums over the points
`(i, histogram[i])`, `i < k`. -/
theorem regression_loop (histogram : List Int) (k : Nat) (hk : k ≤ histogram.length)
    (s : RegressionSums) :
    (List.range k).foldlM (regressionStep (Cxx.iota histogram.length) histogram) s
      = some { sum_x := s.sum_x + ∑ i ∈ Finset.range k, (i : ℚ),
               sum_y := s.sum_y + ∑ i ∈ Finset.range k, ((histogram.getD i 0 : Int) : ℚ),
               sum_xy := s.sum_xy
                 + ∑ i ∈ Finset.range k, (i : ℚ) * ((histogram.getD i 0 : Int) : ℚ),
               sum_x2 := s.sum_x2 + ∑ i ∈ Finset.range k, (i : ℚ) ^ 2 } := by
  induction k with
  | zero => simp
  | succ k ih =>
    have hlt : k < histogram.length := hk
    rw [List.range_succ, List.foldlM_append, ih (Nat.le_of_lt hlt)]
    have hc := iota_getElem? histogram.length k hlt
    have hh : histogram[k]? = some (histogram.getD k 0) := by
      simp [List.getD_eq_getElem?_getD, List.getElem?_eq_getElem hlt]
    simp only [Option.bind_eq_bind, Option.some_bind, List.foldlM_cons, List.foldlM_nil,
      regressionStep, hc, hh, Finset.sum_range_succ]
    simp only [pure, Option.some.injEq, RegressionSums.mk.injEq]
    refine ⟨?_, ?_, ?_, ?_⟩ <;> push_cast <;> ring

/-- The integer total of `std::accumulate` is the specification's `n = Σy`. -/
theorem accumulate_eq_n (histogram : List Int) :
    ((histogram.foldl (fun acc h => acc + h) 0 : Int) : ℚ) = Spec.n histogram := by
  have h1 : ∀ (l : List Int) (a : Int), l.foldl (fun acc h => acc + h) a = a + l.sum := by
    intro l
    induction l with
    | nil => intro a; simp
    | cons x xs ih => intro a; rw [List.foldl_cons, ih, List.sum_cons]; ring
  have h2 : ∀ l : List Int,
      ∑ i ∈ Finset.range l.length, ((l.getD i 0 : Int) : ℚ) = ((l.sum : Int) : ℚ) := by
    intro l
    induction l with
    | nil => simp
    | cons x xs ih =>
      rw [List.length_cons, Finset.sum_range_succ', List.sum_cons]
      simp only [List.getD_cons_succ, List.getD_cons_zero]
      rw [ih]; push_cast; ring
  rw [h1, Spec.n, Spec.sumY, h2]; simp

/-- On a non-empty histogram `fitRegressionLine` returns, with the sums of the
specification: the three quotients of the code and `gmax = bin_count - 1`. -/
theorem fitRegressionLine_eq (histogram : List Int) (hne : histogram ≠ []) :
    SobelSyntheticness.fitRegressionLine histogram
      = some
          { slope := Cxx.fdiv
              (Spec.n histogram * Spec.sumXY histogram
                - Spec.sumX histogram * Spec.sumY histogram)
              (Spec.n histogram * Spec.sumX2 histogram
                - Spec.sumX histogram * Spec.sumX histogram),
            intercept :=
              (Cxx.fdiv
                (Spec.n histogram * Spec.sumXY histogram
                  - Spec.sumX histogram * Spec.sumY histogram)
                (Spec.n histogram * Spec.sumX2 histogram
                  - Spec.sumX histogram * Spec.sumX histogram)).bind
                fun s => Cxx.fdiv (Spec.sumY histogram - s * Spec.sumX histogram)
                  (Spec.n histogram),
            gmax := (histogram.length : Int) - 1,
            g0 :=
              ((Cxx.fdiv
                (Spec.n histogram * Spec.sumXY histogram
                  - Spec.sumX histogram * Spec.sumY histogram)
                (Spec.n histogram * Spec.sumX2 histogram
                  - Spec.sumX histogram * Spec.sumX histogram)).bind
                fun s => Cxx.fdiv (Spec.sumY histogram - s * Spec.sumX histogram)
                  (Spec.n histogram)).bind
                fun c =>
                  (Cxx.fdiv
                    (Spec.n histogram * Spec.sumXY histogram
                      - Spec.sumX histogram * Spec.sumY histogram)
                    (Spec.n histogram * Spec.sumX2 histogram
                      - Spec.sumX histogram * Spec.sumX histogram)).bind
                    fun s => Cxx.fdiv (-c) s } := by
  have hpos : 0 < histogram.length := List.length_pos.mpr hne
  have hloop := regression_loop histogram histogram.length le_rfl ⟨0, 0, 0, 0⟩
  have hlast : (Cxx.iota histogram.length)[histogram.length - 1]?
      = some ((histogram.length : Int) - 1) := by
    rw [iota_getElem? histogram.length (histogram.length - 1) (by omega)]
    congr 1
    omega
  have h0 : histogram.length ≠ 0 := by omega
  simp only [SobelSyntheticness.fitRegressionLine, hloop, Option.bind_eq_bind,
    Option.some_bind, zero_add, accumulate_eq_n, h0, if_false, hlast]
  rfl

/-- The specification's `n` is the sum of the list of counts. -/
theorem specN_eq_sum (histogram : List Int) :
    Spec.n histogram = ((histogram.sum : Int) : ℚ) := by
  rw [Spec.n, Spec.sumY]
  induction histogram with
  | nil => simp
  | cons x xs ih =>
    rw [List.length_cons, Finset.sum_range_succ', List.sum_cons]
    simp only [List.getD_cons_succ, List.getD_cons_zero]
    rw [ih]; push_cast; ring

/-- Closed form of `Σx` over the bin indices `0 .. m-1`. -/
theorem sum_range_index (m : Nat) :
    ∑ i ∈ Finset.range m, (i : ℚ) = (m : ℚ) * ((m : ℚ) - 1) / 2 := by
  induction m with
  | zero => simp
  | succ k ih => rw [Finset.sum_range_succ, ih]; push_cast; ring

/-- Closed form of `Σx²` over the bin indices `0 .. m-1`. -/
theorem sum_range_index_sq (m : Nat) :
    ∑ i ∈ Finset.range m, (i : ℚ) ^ 2
      = ((m : ℚ) - 1) * (m : ℚ) * (2 * (m : ℚ) - 1) / 6 := by
  induction m with
  | zero => simp
  | succ k ih => rw [Finset.sum_range_succ, ih]; push_cast; ring

/-! ### The histogram -/

/-- Incrementing one entry of a list of counts raises the sum by one. -/
theorem sum_set_succ (l : List Int) (i : Nat) (c : Int) (h : l[i]? = some c) :
    (l.set i (c + 1)).sum = l.sum + 1 := by
  induction l generalizing i with
  | nil => simp at h
  | cons x xs ih =>
    cases i with
    | zero =>
      simp only [List.getElem?_cons_zero, Option.some.injEq] at h
      simp only [List.set_cons_zero, List.sum_cons, h]
      ring
    | succ j =>
      simp only [List.getElem?_cons_succ] at h
      simp only [List.set_cons_succ, List.sum_cons, ih j h]
      ring

/-- For a positive bin width and at least one bin, the bin index
`min(val / bin_width, bin_size - 1)` of a positive sample is a valid index. -/
theorem bin_index_range (bin_size bin_width val : Int) (hbs : 1 ≤ bin_size)
    (hbw : 1 ≤ bin_width) (hv : 0 < val) :
    0 ≤ min (val.tdiv bin_width) (bin_size - 1)
      ∧ min (val.tdiv bin_width) (bin_size - 1) ≤ bin_size - 1 := by
  have hq : 0 ≤ val.tdiv bin_width := Int.tdiv_nonneg hv.le (by omega)
  exact ⟨le_min hq (by omega), min_le_right _ _⟩

/-- One iteration of the histogram loop on a histogram of `bin_size` bins, with
a positive bin width: it succeeds, and a positive sample increments its bin. -/
theorem histogramStep_eq (bin_size bin_width : Int) (hbs : 1 ≤ bin_size)
    (hbw : 1 ≤ bin_width) (histogram : List Int)
    (hlen : (histogram.length : Int) = bin_size) (val : Int) :
    histogramStep bin_size bin_width histogram val
      = some (if 0 < val then
                histogram.set (min (val.tdiv bin_width) (bin_size - 1)).toNat
                  (histogram.getD (min (val.tdiv bin_width) (bin_size - 1)).toNat 0 + 1)
              else histogram) := by
  unfold histogramStep
  by_cases hv : 0 < val
  · obtain ⟨h0, h1⟩ := bin_index_range bin_size bin_width val hbs hbw hv
    have hne : ¬ bin_width = 0 := by omega
    have hlt : (min (val.tdiv bin_width) (bin_size - 1)).toNat < histogram.length := by
      omega
    simp only [if_pos hv, Cxx.idiv, if_neg hne, not_lt.mpr h0, if_false,
      List.getElem?_eq_getElem hlt, List.getD_eq_getElem?_getD, Option.getD_some]
  · simp only [if_neg hv]

/-- The histogram loop, run on a histogram `h0` of `bin_size` bins with a
positive bin width: it succeeds, keeps the length, adds the number of positive
samples to the sum, and adds to bin `k` the number of positive samples whose
bin index is `k`. -/
theorem histogram_loop (bin_size bin_width : Int) (hbs : 1 ≤ bin_size)
    (hbw : 1 ≤ bin_width) (gradients : List Int) :
    ∀ h0 : List Int, (h0.length : Int) = bin_size →
      ∃ h : List Int,
        gradients.foldlM (histogramStep bin_size bin_width) h0 = some h
          ∧ (h.length : Int) = bin_size
          ∧ h.sum = h0.sum + (gradients.countP (fun v => decide (0 < v)) : Int)
          ∧ ∀ k : Nat, (k : Int) < bin_size →
              h.getD k 0 = h0.getD k 0
                + (gradients.countP (fun v => decide (0 < v
                    ∧ min (v.tdiv bin_width) (bin_size - 1) = (k : Int))) : Int) := by
  induction gradients with
  | nil =>
    intro h0 hlen
    exact ⟨h0, rfl, hlen, by simp, fun k _ => by simp⟩
  | cons v vs ih =>
    intro h0 hlen
    rw [List.foldlM_cons, histogramStep_eq bin_size bin_width hbs hbw h0 hlen v]
    by_cases hv : 0 < v
    · obtain ⟨hi0, hi1⟩ := bin_index_range bin_size bin_width v hbs hbw hv
      have hlt : (min (v.tdiv bin_width) (bin_size - 1)).toNat < h0.length := by omega
      have hget : h0[(min (v.tdiv bin_width) (bin_size - 1)).toNat]?
          = some (h0.getD (min (v.tdiv bin_width) (bin_size - 1)).toNat 0) := by
        simp [List.getD_eq_getElem?_getD, List.getElem?_eq_getElem hlt]
      obtain ⟨h, hrun, hl, hsum, hbin⟩ :=
        ih (h0.set (min (v.tdiv bin_width) (bin_size - 1)).toNat
              (h0.getD (min (v.tdiv bin_width) (bin_size - 1)).toNat 0 + 1))
          (by rw [List.length_set]; exact hlen)
      refine ⟨h, ?_, hl, ?_, ?_⟩
      · simp only [if_pos hv, Option.bind_eq_bind, Option.some_bind]
        exact hrun
      · rw [hsum, sum_set_succ h0 _ _ hget, List.countP_cons]
        simp only [hv, decide_True, if_true]
        push_cast; ring
      · intro k hk
        rw [hbin k hk, List.countP_cons]
        have hklt : k < h0.length := by omega
        by_cases hidx : min (v.tdiv bin_width) (bin_size - 1) = (k : Int)
        · have hk' : (min (v.tdiv bin_width) (bin_size - 1)).toNat = k := by omega
          rw [hk']
          simp only [List.getD_eq_getElem?_getD]
          rw [List.getElem?_set, if_pos rfl, if_pos hklt]
          simp only [hv, hidx, and_self, decide_True, if_true, Option.getD_some]
          push_cast; ring
        · have hk' : ¬ (min (v.tdiv bin_width) (bin_size - 1)).toNat = k := by omega
          simp only [hv, hidx, and_false, decide_False, if_false, true_and]
          simp only [List.getD_eq_getElem?_getD]
          rw [List.getElem?_set, if_neg hk']
          simp
    · obtain ⟨h, hrun, hl, hsum, hbin⟩ := ih h0 hlen
      refine ⟨h, ?_, hl, ?_, ?_⟩
      · simp only [if_neg hv, Option.bind_eq_bind, Option.some_bind]
        exact hrun
      · rw [hsum, List.countP_cons]
        simp [hv]
      · intro k hk
        rw [hbin k hk, List.countP_cons]
        simp [hv]

/-- A zero sample leaves the histogram untouched, whatever the bin
configuration: dropping the zero samples does not change the loop's result. -/
theorem histogram_loop_filter_zero (bin_size bin_width : Int) (gradients : List Int) :
    ∀ h0 : List Int,
      (gradients.filter (fun v => decide (v ≠ 0))).foldlM (histogramStep bin_size bin_width) h0
        = gradients.foldlM (histogramStep bin_size bin_width) h0 := by
  induction gradients with
  | nil => intro h0; rfl
  | cons v vs ih =>
    intro h0
    by_cases hv : v = 0
    · have hstep : histogramStep bin_size bin_width h0 0 = some h0 := by
        simp [histogramStep]
      rw [hv, List.filter_cons_of_neg (by simp), List.foldlM_cons, hstep]
      exact ih h0
    · rw [List.filter_cons_of_pos (by simpa using hv), List.foldlM_cons, List.foldlM_cons]
      cases histogramStep bin_size bin_width h0 v with
      | none => rfl
      | some h1 => exact ih h1

/-- With at least one bin and a positive bin width both versions of
`buildHistogram` return the result of the histogram loop started from
`bin_size` zero counts. -/
theorem buildHistogram_eq_loop (gradients : List Int) (bin_size max_val : Int)
    (hbs : 1 ≤ bin_size) (hbw : 0 < max_val.tdiv bin_size) :
    ∃ h : List Int,
      gradients.foldlM (histogramStep bin_size (max_val.tdiv bin_size))
          (List.replicate bin_size.toNat 0) = some h
        ∧ SobelSyntheticness.buildHistogram gradients bin_size max_val = some h
        ∧ Syntheticness.buildHistogram gradients bin_size max_val = some h
        ∧ (h.length : Int) = bin_size
        ∧ h.sum = (gradients.countP (fun v => decide (0 < v)) : Int)
        ∧ ∀ k : Nat, (k : Int) < bin_size →
            h.getD k 0 = (gradients.countP (fun v => decide (0 < v
              ∧ min (v.tdiv (max_val.tdiv bin_size)) (bin_size - 1) = (k : Int))) : Int) := by
  have hlen0 : ((List.replicate bin_size.toNat (0 : Int)).length : Int) = bin_size := by
    rw [List.length_replicate]; omega
  obtain ⟨h, hrun, hl, hsum, hbin⟩ :=
    histogram_loop bin_size (max_val.tdiv bin_size) hbs (by omega) gradients
      (List.replicate bin_size.toNat 0) hlen0
  have hnn : ¬ bin_size < 0 := by omega
  have hne : ¬ bin_size = 0 := by omega
  have hpos : 0 < h.length := by omega
  refine ⟨h, hrun, ?_, ?_, hl, ?_, ?_⟩
  · simp only [SobelSyntheticness.buildHistogram, if_neg hnn, Cxx.idiv, if_neg hne, hrun]
  · simp only [Syntheticness.buildHistogram, if_neg hnn, Cxx.idiv, if_neg hne, hrun,
      List.getElem?_eq_getElem hpos]
  · rw [hsum]; simp
  · intro k hk
    rw [hbin k hk]
    have hk' : k < bin_size.toNat := by omega
    simp [List.getD_eq_getElem?_getD, List.getElem?_replicate, hk']

/-- C7: for every gradient sequence, every `bin_count ≥ 1` and every
`max_val ≥ bin_count`, the bin width `max_val / bin_count` is positive and both
versions of `buildHistogram` return a histogram of length `bin_count` whose
counts sum to the number of strictly positive samples; zero-valued samples are
never counted (dropping them leaves the result unchanged). -/
theorem C7_buildHistogram_length_and_sum (gradients : List Int) (bin_size max_val : Int)
    (hbs : 1 ≤ bin_size) (hmv : bin_size ≤ max_val) :
    0 < max_val.tdiv bin_size
      ∧ (∃ h : List Int,
          SobelSyntheticness.buildHistogram gradients bin_size max_val = some h
            ∧ Syntheticness.buildHistogram gradients bin_size max_val = some h
            ∧ (h.length : Int) = bin_size
            ∧ h.sum = (gradients.countP (fun v => decide (0 < v)) : Int))
      ∧ SobelSyntheticness.buildHistogram (gradients.filter (fun v => decide (v ≠ 0)))
            bin_size max_val
          = SobelSyntheticness.buildHistogram gradients bin_size max_val
      ∧ Syntheticness.buildHistogram (gradients.filter (fun v => decide (v ≠ 0)))
            bin_size max_val
          = Syntheticness.buildHistogram gradients bin_size max_val := by
  have hbw : 0 < max_val.tdiv bin_size := by
    rw [Int.tdiv_eq_ediv (by omega) (by omega)]
    have : 1 ≤ max_val / bin_size := (Int.le_ediv_iff_mul_le (by omega)).mpr (by omega)
    omega
  obtain ⟨h, -, hs, hy, hl, hsum, -⟩ :=
    buildHistogram_eq_loop gradients bin_size max_val hbs hbw
  refine ⟨hbw, ⟨h, hs, hy, hl, hsum⟩, ?_, ?_⟩
  · simp only [SobelSyntheticness.buildHistogram, histogram_loop_filter_zero]
  · simp only [Syntheticness.buildHistogram, histogram_loop_filter_zero]

/-- C7, on the samples `[0, 3, 5, 255, 300, 0]` with the Sobel pipeline's
`bin_size = 50`, `max_val = 255`. -/
theorem C7_buildHistogram_length_and_sum_witness :
    0 < (255 : Int).tdiv 50
      ∧ (∃ h : List Int,
          SobelSyntheticness.buildHistogram [0, 3, 5, 255, 300, 0] 50 255 = some h
            ∧ Syntheticness.buildHistogram [0, 3, 5, 255, 300, 0] 50 255 = some h
            ∧ (h.length : Int) = 50
            ∧ h.sum = (([0, 3, 5, 255, 300, 0] : List Int).countP
                (fun v => decide (0 < v)) : Int))
      ∧ SobelSyntheticness.buildHistogram
            (([0, 3, 5, 255, 300, 0] : List Int).filter (fun v => decide (v ≠ 0))) 50 255
          = SobelSyntheticness.buildHistogram [0, 3, 5, 255, 300, 0] 50 255
      ∧ Syntheticness.buildHistogram
            (([0, 3, 5, 255, 300, 0] : List Int).filter (fun v => decide (v ≠ 0))) 50 255
          = Syntheticness.buildHistogram [0, 3, 5, 255, 300, 0] 50 255 :=
  C7_buildHistogram_length_and_sum [0, 3, 5, 255, 300, 0] 50 255 (by decide) (by decide)

/-- For a positive sample the clamped bin index is the last bin exactly when
the sample is at least `bin_width * (bin_size - 1)`. -/
theorem bin_index_last_iff (bin_size bin_width v : Int) (hbw : 0 < bin_width)
    (hv : 0 < v) :
    min (v.tdiv bin_width) (bin_size - 1) = bin_size - 1
      ↔ bin_width * (bin_size - 1) ≤ v := by
  rw [Int.tdiv_eq_ediv hv.le hbw.le, min_eq_right_iff, Int.le_ediv_iff_mul_le hbw,
    mul_comm]

/-- C8: for every gradient sequence, `bin_count ≥ 1` and
`bin_width = max_val / bin_count > 0`, both versions of `buildHistogram` return
a histogram whose count in every bin `k` of `0 .. bin_count-1` is the number of
samples `v > 0` with `min(v / bin_width, bin_count - 1) = k`.  In particular the
index incremented for a sample `v > 0` lies in `[0, bin_count-1]`, every
non-zero sample `v ≥ bin_width*(bin_count-1)` is positive and has the last bin
as its index, and the last bin counts exactly the samples `v > 0` with
`v ≥ bin_width*(bin_count-1)`. -/
theorem C8_buildHistogram_bin_counts (gradients : List Int) (bin_size max_val : Int)
    (hbs : 1 ≤ bin_size) (hbw : 0 < max_val.tdiv bin_size) :
    (∃ h : List Int,
        SobelSyntheticness.buildHistogram gradients bin_size max_val = some h
          ∧ Syntheticness.buildHistogram gradients bin_size max_val = some h
          ∧ (∀ k : Nat, (k : Int) < bin_size →
              h.getD k 0 = (gradients.countP (fun v => decide (0 < v
                ∧ min (v.tdiv (max_val.tdiv bin_size)) (bin_size - 1) = (k : Int))) : Int))
          ∧ h.getD (bin_size - 1).toNat 0
              = (gradients.countP (fun v => decide (0 < v
                  ∧ max_val.tdiv bin_size * (bin_size - 1) ≤ v)) : Int))
      ∧ (∀ v : Int, 0 < v →
          0 ≤ min (v.tdiv (max_val.tdiv bin_size)) (bin_size - 1)
            ∧ min (v.tdiv (max_val.tdiv bin_size)) (bin_size - 1) ≤ bin_size - 1)
      ∧ (∀ v : Int, v ≠ 0 → max_val.tdiv bin_size * (bin_size - 1) ≤ v →
          0 < v ∧ min (v.tdiv (max_val.tdiv bin_size)) (bin_size - 1) = bin_size - 1) := by
  obtain ⟨h, -, hs, hy, -, -, hbin⟩ :=
    buildHistogram_eq_loop gradients bin_size max_val hbs hbw
  refine ⟨⟨h, hs, hy, hbin, ?_⟩, ?_, ?_⟩
  · rw [hbin (bin_size - 1).toNat (by omega)]
    have hcast : (((bin_size - 1).toNat : Nat) : Int) = bin_size - 1 := by omega
    rw [hcast]
    congr 1
    refine List.countP_congr fun v _ => ?_
    simp only [decide_eq_true_eq]
    constructor
    · rintro ⟨hv, hidx⟩
      exact ⟨hv, (bin_index_last_iff bin_size _ v hbw hv).mp hidx⟩
    · rintro ⟨hv, hge⟩
      exact ⟨hv, (bin_index_last_iff bin_size _ v hbw hv).mpr hge⟩
  · intro v hv
    exact bin_index_range bin_size _ v hbs (by omega) hv
  · intro v hv0 hge
    have hthr : 0 ≤ max_val.tdiv bin_size * (bin_size - 1) :=
      Int.mul_nonneg hbw.le (by omega)
    have hv : 0 < v := by omega
    exact ⟨hv, (bin_index_last_iff bin_size _ v hbw hv).mpr hge⟩

/-- C8, on the samples `[0, 3, 5, 255, 300, 0]` with the Sobel pipeline's
`bin_size = 50`, `max_val = 255` (bin width `5`). -/
theorem C8_buildHistogram_bin_counts_witness :
    (∃ h : List Int,
        SobelSyntheticness.buildHistogram [0, 3, 5, 255, 300, 0] 50 255 = some h
          ∧ Syntheticness.buildHistogram [0, 3, 5, 255, 300, 0] 50 255 = some h
          ∧ (∀ k : Nat, (k : Int) < 50 →
              h.getD k 0 = (([0, 3, 5, 255, 300, 0] : List Int).countP (fun v => decide (0 < v
                ∧ min (v.tdiv ((255 : Int).tdiv 50)) (50 - 1) = (k : Int))) : Int))
          ∧ h.getD ((50 : Int) - 1).toNat 0
              = (([0, 3, 5, 255, 300, 0] : List Int).countP (fun v => decide (0 < v
                  ∧ (255 : Int).tdiv 50 * (50 - 1) ≤ v)) : Int))
      ∧ (∀ v : Int, 0 < v →
          0 ≤ min (v.tdiv ((255 : Int).tdiv 50)) (50 - 1)
            ∧ min (v.tdiv ((255 : Int).tdiv 50)) (50 - 1) ≤ 50 - 1)
      ∧ (∀ v : Int, v ≠ 0 → (255 : Int).tdiv 50 * (50 - 1) ≤ v →
          0 < v ∧ min (v.tdiv ((255 : Int).tdiv 50)) (50 - 1) = 50 - 1) :=
  C8_buildHistogram_bin_counts [0, 3, 5, 255, 300, 0] 50 255 (by decide) (by decide)

/-! ### The Sobel gradient -/

/-- Two nested loops over `rows` and `cols` run their body on the pairs
`(i, j)` in row-major order. -/
theorem foldlM_nested_pairs {σ : Type} (body : σ → Nat × Nat → Option σ)
    (rows cols : List Nat) :
    ∀ s : σ,
      rows.foldlM (fun s i => cols.foldlM (fun s j => body s (i, j)) s) s
        = (rows.flatMap fun i => cols.map fun j => (i, j)).foldlM body s := by
  induction rows with
  | nil => intro s; rfl
  | cons i rest ih =>
    intro s
    rw [List.foldlM_cons, List.flatMap_cons, List.foldlM_append, List.foldlM_map]
    cases cols.foldlM (fun s j => body s (i, j)) s with
    | none => rfl
    | some s1 => exact ih s1

/-- A loop whose body performs the assignment `v[idx x] = val x` for every `x`
of a list, all indices being in bounds: it succeeds, keeps the length, leaves
every index that is not assigned as it was, and an assigned index holds the
value of the last assignment to it. -/
theorem foldlM_assign {α : Type} (body : List Int → α → Option (List Int))
    (idx : α → Nat) (val : α → Int) (xs : List α)
    (hbody : ∀ x ∈ xs, ∀ v : List Int, body v x = Cxx.assign v (idx x) (val x)) :
    ∀ v : List Int, (∀ x ∈ xs, idx x < v.length) →
      ∃ w : List Int, xs.foldlM body v = some w
        ∧ w.length = v.length
        ∧ (∀ k : Nat, (∀ x ∈ xs, idx x ≠ k) → w[k]? = v[k]?)
        ∧ (∀ x ∈ xs, (∀ y ∈ xs, idx y = idx x → val y = val x) →
            w[idx x]? = some (val x)) := by
  induction xs with
  | nil =>
    intro v _
    exact ⟨v, rfl, rfl, fun _ _ => rfl, fun x hx => absurd hx (List.not_mem_nil x)⟩
  | cons a rest ih =>
    intro v hlt
    have ha : idx a < v.length := hlt a (List.mem_cons_self a rest)
    have hstep : body v a = some (v.set (idx a) (val a)) := by
      rw [hbody a (List.mem_cons_self a rest) v, Cxx.assign, if_pos ha]
    obtain ⟨w, hrun, hlen, hframe, hval⟩ :=
      ih (fun x hx => hbody x (List.mem_cons_of_mem a hx)) (v.set (idx a) (val a))
        (fun x hx => by rw [List.length_set]; exact hlt x (List.mem_cons_of_mem a hx))
    refine ⟨w, ?_, ?_, ?_, ?_⟩
    · rw [List.foldlM_cons, hstep]; exact hrun
    · rw [hlen, List.length_set]
    · intro k hk
      rw [hframe k (fun x hx => hk x (List.mem_cons_of_mem a hx)), List.getElem?_set,
        if_neg (hk a (List.mem_cons_self a rest))]
    · intro x hx hlast
      by_cases hxr : x ∈ rest
      · exact hval x hxr (fun y hy => hlast y (List.mem_cons_of_mem a hy))
      · have hxa : x = a := by
          rcases List.mem_cons.mp hx with h | h
          · exact h
          · exact absurd h hxr
        by_cases hre : ∃ y ∈ rest, idx y = idx x
        · obtain ⟨y, hy, hyx⟩ := hre
          have hvy := hlast y (List.mem_cons_of_mem a hy) hyx
          rw [← hyx, ← hvy]
          exact hval y hy (fun z hz hzy => by
            rw [hvy]
            exact hlast z (List.mem_cons_of_mem a hz) (hzy.trans hyx))
        · have hno : ∀ y ∈ rest, idx y ≠ idx x := fun y hy h => hre ⟨y, hy, h⟩
          rw [hframe (idx x) hno, hxa, List.getElem?_set, if_pos rfl, if_pos ha]

/-- Reading a `height × width` grid inside its bounds gives the sample. -/
theorem at2_eq_sample (channel : List (List Int)) (width height : Nat)
    (hrows : channel.length = height) (hcols : ∀ row ∈ channel, row.length = width)
    (r c : Nat) (hr : r < height) (hc : c < width) :
    Cxx.at2 channel (r : Int) (c : Int) = some (Spec.sample channel r c) := by
  have hr' : r < channel.length := by omega
  have hrow : (channel[r]).length = width := hcols _ (List.getElem_mem hr')
  have hc' : c < (channel[r]).length := by omega
  have hr0 : ¬ ((r : Int) < 0) := by omega
  have hc0 : ¬ ((c : Int) < 0) := by omega
  simp only [Cxx.at2, Cxx.index?, Int.toNat_ofNat, List.getElem?_eq_getElem hr',
    List.getElem?_eq_getElem hc', Spec.sample, List.getD_eq_getElem?_getD,
    Option.getD_some, if_neg hr0, if_neg hc0]

/-- One pass of the innermost loop body at an in-bounds neighbour. -/
theorem sobelAccumulate_eq (channel : List (List Int)) (width height : Nat)
    (hrows : channel.length = height) (hcols : ∀ row ∈ channel, row.length = width)
    (i j r c : Nat) (m n gx gy : Int) (hr : r < height) (hc : c < width)
    (hm : (i : Int) + m = (r : Int)) (hn : (j : Int) + n = (c : Int))
    (hgx : Cxx.at2 Gx (m + 1) (n + 1) = some gx)
    (hgy : Cxx.at2 Gy (m + 1) (n + 1) = some gy) (acc : Int × Int) :
    sobelAccumulate channel i j m n acc
      = some (acc.1 + Spec.sample channel r c * gx, acc.2 + Spec.sample channel r c * gy) := by
  simp only [sobelAccumulate, hm, hn, at2_eq_sample channel width height hrows hcols r c hr hc,
    hgx, hgy]

/-- At an interior pixel of a `height × width` grid the two convolution loops
compute the two weighted sums of the 3x3 neighbourhood. -/
theorem sobelSums_eq (channel : List (List Int)) (width height : Nat)
    (hrows : channel.length = height) (hcols : ∀ row ∈ channel, row.length = width)
    (i j : Nat) (hi : 1 ≤ i) (hi' : i + 1 < height) (hj : 1 ≤ j) (hj' : j + 1 < width) :
    sobelSums channel i j
      = some (Spec.sobelSumX channel i j, Spec.sobelSumY channel i j) := by
  have acc := sobelAccumulate_eq channel width height hrows hcols i j
  have hi0 : ((i : Int) + -1) = ((i - 1 : Nat) : Int) := by omega
  have hi1 : ((i : Int) + 0) = ((i : Nat) : Int) := by omega
  have hi2 : ((i : Int) + 1) = ((i + 1 : Nat) : Int) := by omega
  have hj0 : ((j : Int) + -1) = ((j - 1 : Nat) : Int) := by omega
  have hj1 : ((j : Int) + 0) = ((j : Nat) : Int) := by omega
  have hj2 : ((j : Int) + 1) = ((j + 1 : Nat) : Int) := by omega
  simp only [sobelSums, List.foldlM_cons, List.foldlM_nil, Option.bind_eq_bind, pure,
    acc (i - 1) (j - 1) (-1) (-1) (-1) (-1) (by omega) (by omega) hi0 hj0 (by decide) (by decide),
    acc (i - 1) j (-1) 0 0 (-2) (by omega) (by omega) hi0 hj1 (by decide) (by decide),
    acc (i - 1) (j + 1) (-1) 1 1 (-1) (by omega) (by omega) hi0 hj2 (by decide) (by decide),
    acc i (j - 1) 0 (-1) (-2) 0 (by omega) (by omega) hi1 hj0 (by decide) (by decide),
    acc i j 0 0 0 0 (by omega) (by omega) hi1 hj1 (by decide) (by decide),
    acc i (j + 1) 0 1 2 0 (by omega) (by omega) hi1 hj2 (by decide) (by decide),
    acc (i + 1) (j - 1) 1 (-1) (-1) 1 (by omega) (by omega) hi2 hj0 (by decide) (by decide),
    acc (i + 1) j 1 0 0 2 (by omega) (by omega) hi2 hj1 (by decide) (by decide),
    acc (i + 1) (j + 1) 1 1 1 1 (by omega) (by omega) hi2 hj2 (by decide) (by decide),
    Option.some_bind]
  simp only [Option.some.injEq, Prod.mk.injEq, Spec.sobelSumX, Spec.sobelSumY]
  constructor <;> ring

/-- The pixels visited by the two pixel loops of `applySobel`, in order. -/
theorem mem_interior_pairs (width height : Nat) (p : Nat × Nat) :
    p ∈ ((List.range' 1 (height - 2)).flatMap fun i =>
          (List.range' 1 (width - 2)).map fun j => (i, j))
      ↔ (1 ≤ p.1 ∧ p.1 + 1 < height) ∧ (1 ≤ p.2 ∧ p.2 + 1 < width) := by
  obtain ⟨a, b⟩ := p
  simp only [List.mem_flatMap, List.mem_map, List.mem_range'_1, Prod.mk.injEq]
  constructor
  · rintro ⟨i, hi, j, hj, rfl, rfl⟩
    exact ⟨⟨hi.1, by omega⟩, ⟨hj.1, by omega⟩⟩
  · rintro ⟨⟨h1, h2⟩, ⟨h3, h4⟩⟩
    exact ⟨a, ⟨h1, by omega⟩, b, ⟨h3, by omega⟩, rfl, rfl⟩

/-- Row-major flat indices determine the pixel. -/
theorem flat_index_inj (width i j i' j' : Nat) (hj : j < width) (hj' : j' < width)
    (h : i * width + j = i' * width + j') : i = i' ∧ j = j' := by
  have hw : 0 < width := by omega
  have hd : (i * width + j) / width = (i' * width + j') / width := by rw [h]
  have hm : (i * width + j) % width = (i' * width + j') % width := by rw [h]
  rw [Nat.add_comm, Nat.add_mul_div_right _ _ hw, Nat.div_eq_of_lt hj, Nat.add_comm (i' * width),
    Nat.add_mul_div_right _ _ hw, Nat.div_eq_of_lt hj'] at hd
  rw [Nat.add_comm, Nat.add_mul_mod_self_right, Nat.mod_eq_of_lt hj, Nat.add_comm (i' * width),
    Nat.add_mul_mod_self_right, Nat.mod_eq_of_lt hj'] at hm
  exact ⟨by omega, hm⟩

/-- A row-major flat index of a pixel of the grid is below `height * width`. -/
theorem flat_index_lt (width height i j : Nat) (hi : i < height) (hj : j < width) :
    i * width + j < height * width := by
  have h1 : (i + 1) * width ≤ height * width := Nat.mul_le_mul_right width hi
  rw [Nat.add_mul, Nat.one_mul] at h1
  omega

/-- The length of a resized vector. -/
theorem length_resize {α : Type} (v : List α) (n : Nat) (x : α) :
    (Cxx.resize v n x).length = n := by
  simp only [Cxx.resize, List.length_append, List.length_take, List.length_replicate]
  omega

/-- At an interior pixel of a `height × width` grid the stored magnitude is the
integer square root of `sumX² + sumY²`. -/
theorem sobelMagnitude_eq (channel : List (List Int)) (width height : Nat)
    (hrows : channel.length = height) (hcols : ∀ row ∈ channel, row.length = width)
    (i j : Nat) (hi : 1 ≤ i) (hi' : i + 1 < height) (hj : 1 ≤ j) (hj' : j + 1 < width) :
    sobelMagnitude channel i j
      = some ((Nat.sqrt (Spec.sobelSumX channel i j * Spec.sobelSumX channel i j
          + Spec.sobelSumY channel i j * Spec.sobelSumY channel i j).toNat : Nat) : Int) := by
  have hnn : ¬ (Spec.sobelSumX channel i j * Spec.sobelSumX channel i j
      + Spec.sobelSumY channel i j * Spec.sobelSumY channel i j < 0) := by
    have h1 := mul_self_nonneg (Spec.sobelSumX channel i j)
    have h2 := mul_self_nonneg (Spec.sobelSumY channel i j)
    omega
  simp only [sobelMagnitude, sobelSums_eq channel width height hrows hcols i j hi hi' hj hj',
    Cxx.sqrtToInt, if_neg hnn]

/-- The flat `applySobel` on a `height × width` grid: it succeeds, the result has
`height * width` entries, every entry that is not an interior pixel is as in
the resized input vector, and every interior pixel `(i, j)` holds the integer
square root of `sumX² + sumY²` at index `i * width + j`. -/
theorem applySobel_flat_spec (channel : List (List Int)) (gradient : List Int)
    (width height : Nat) (hrows : channel.length = height)
    (hcols : ∀ row ∈ channel, row.length = width) :
    ∃ g : List Int,
      SobelSyntheticness.applySobel channel gradient width height = some g
        ∧ g.length = height * width
        ∧ (∀ k : Nat,
            (∀ i j : Nat, 1 ≤ i → i + 1 < height → 1 ≤ j → j + 1 < width →
              i * width + j ≠ k) →
            g[k]? = (Cxx.resize gradient (height * width) 0)[k]?)
        ∧ (∀ i j : Nat, 1 ≤ i → i + 1 < height → 1 ≤ j → j + 1 < width →
            g[i * width + j]?
              = some ((Nat.sqrt (Spec.sobelSumX channel i j * Spec.sobelSumX channel i j
                  + Spec.sobelSumY channel i j * Spec.sobelSumY channel i j).toNat : Nat)
                  : Int)) := by
  have hflat : SobelSyntheticness.applySobel channel gradient width height
      = (((List.range' 1 (height - 2)).flatMap fun i =>
            (List.range' 1 (width - 2)).map fun j => (i, j)).foldlM
          (fun (g : List Int) (p : Nat × Nat) =>
            match sobelMagnitude channel p.1 p.2 with
            | some magnitude => Cxx.assign g (p.1 * width + p.2) magnitude
            | none => none)
          (Cxx.resize gradient (height * width) 0)) :=
    foldlM_nested_pairs
      (fun (g : List Int) (p : Nat × Nat) =>
        match sobelMagnitude channel p.1 p.2 with
        | some magnitude => Cxx.assign g (p.1 * width + p.2) magnitude
        | none => none) _ _ _
  obtain ⟨g, hrun, hlen, hframe, hval⟩ :=
    foldlM_assign
      (fun (g : List Int) (p : Nat × Nat) =>
        match sobelMagnitude channel p.1 p.2 with
        | some magnitude => Cxx.assign g (p.1 * width + p.2) magnitude
        | none => none)
      (fun p => p.1 * width + p.2)
      (fun p => ((Nat.sqrt (Spec.sobelSumX channel p.1 p.2 * Spec.sobelSumX channel p.1 p.2
          + Spec.sobelSumY channel p.1 p.2 * Spec.sobelSumY channel p.1 p.2).toNat : Nat) : Int))
      ((List.range' 1 (height - 2)).flatMap fun i =>
          (List.range' 1 (width - 2)).map fun j => (i, j))
      (by
        intro p hp v
        obtain ⟨⟨h1, h2⟩, ⟨h3, h4⟩⟩ := (mem_interior_pairs width height p).mp hp
        simp only [sobelMagnitude_eq channel width height hrows hcols p.1 p.2 h1 h2 h3 h4])
      (Cxx.resize gradient (height * width) 0)
      (by
        intro p hp
        obtain ⟨⟨h1, h2⟩, ⟨h3, h4⟩⟩ := (mem_interior_pairs width height p).mp hp
        rw [length_resize]
        exact flat_index_lt width height p.1 p.2 (by omega) (by omega))
  refine ⟨g, hflat.trans hrun, by rw [hlen, length_resize], ?_, ?_⟩
  · intro k hk
    refine hframe k fun p hp => ?_
    obtain ⟨⟨h1, h2⟩, ⟨h3, h4⟩⟩ := (mem_interior_pairs width height p).mp hp
    exact hk p.1 p.2 h1 h2 h3 h4
  · intro i j h1 h2 h3 h4
    refine hval (i, j) ((mem_interior_pairs width height (i, j)).mpr ⟨⟨h1, h2⟩, ⟨h3, h4⟩⟩) ?_
    intro q hq hidx
    obtain ⟨-, ⟨-, h4'⟩⟩ := (mem_interior_pairs width height q).mp hq
    obtain ⟨e1, e2⟩ := flat_index_inj width q.1 q.2 i j (by omega) (by omega) hidx
    simp only [e1, e2]

/-- Reading a vector of vectors at natural-number indices. -/
theorem at2_natCast (grid : List (List Int)) (r c : Nat) :
    Cxx.at2 grid (r : Int) (c : Int) = (grid[r]?).bind fun row => row[c]? := by
  have hr0 : ¬ ((r : Int) < 0) := by omega
  have hc0 : ¬ ((c : Int) < 0) := by omega
  simp only [Cxx.at2, Cxx.index?, if_neg hr0, if_neg hc0, Int.toNat_ofNat]
  cases grid[r]? with
  | none => rfl
  | some row => rfl

/-- The effect of the assignment `grid[r][c] = x` on a later read. -/
theorem at2_set_set (grid : List (List Int)) (r c : Nat) (x : Int) (row : List Int)
    (hrow : grid[r]? = some row) (hc : c < row.length) (r' c' : Nat) :
    Cxx.at2 (grid.set r (row.set c x)) (r' : Int) (c' : Int)
      = if r = r' ∧ c = c' then some x else Cxx.at2 grid (r' : Int) (c' : Int) := by
  have hr : r < grid.length := by
    rcases Nat.lt_or_ge r grid.length with h | h
    · exact h
    · rw [List.getElem?_eq_none h] at hrow; exact Option.noConfusion hrow
  rw [at2_natCast, at2_natCast, List.getElem?_set]
  by_cases hrr : r = r'
  · subst hrr
    rw [if_pos rfl, if_pos hr, hrow]
    simp only [Option.some_bind, List.getElem?_set]
    by_cases hcc : c = c'
    · subst hcc
      simp [hc]
    · simp [hcc]
  · rw [if_neg hrr, if_neg (fun h => hrr h.1)]

/-- A loop whose body performs the assignment `grid[row x][col x] = val x` for
every `x` of a list, all positions being in bounds: it succeeds, keeps the
length of every row, leaves every position that is not assigned as it was, and
an assigned position holds the value of the last assignment to it. -/
theorem foldlM_assign2 {α : Type} (body : List (List Int) → α → Option (List (List Int)))
    (row col : α → Nat) (val : α → Int) (xs : List α)
    (hbody : ∀ x ∈ xs, ∀ g : List (List Int),
      body g x = Cxx.assign2 g (row x) (col x) (val x)) :
    ∀ g : List (List Int),
      (∀ x ∈ xs, col x < (g.map List.length).getD (row x) 0) →
      ∃ w : List (List Int), xs.foldlM body g = some w
        ∧ w.map List.length = g.map List.length
        ∧ (∀ r c : Nat, (∀ x ∈ xs, ¬ (row x = r ∧ col x = c)) →
            Cxx.at2 w (r : Int) (c : Int) = Cxx.at2 g (r : Int) (c : Int))
        ∧ (∀ x ∈ xs, (∀ y ∈ xs, row y = row x → col y = col x → val y = val x) →
            Cxx.at2 w (row x : Int) (col x : Int) = some (val x)) := by
  induction xs with
  | nil =>
    intro g _
    exact ⟨g, rfl, rfl, fun _ _ _ => rfl, fun x hx => absurd hx (List.not_mem_nil x)⟩
  | cons a rest ih =>
    intro g hlt
    have ha := hlt a (List.mem_cons_self a rest)
    have hra : row a < g.length := by
      rcases Nat.lt_or_ge (row a) g.length with h | h
      · exact h
      · rw [List.getD_eq_getElem?_getD, List.getElem?_eq_none (by simpa using h)] at ha
        simp at ha
    have hrow : g[row a]? = some (g[row a]) := List.getElem?_eq_getElem hra
    have hca : col a < (g[row a]).length := by
      rw [List.getD_eq_getElem?_getD, List.getElem?_map, hrow] at ha
      simpa using ha
    have hstep : body g a = some (g.set (row a) ((g[row a]).set (col a) (val a))) := by
      rw [hbody a (List.mem_cons_self a rest) g, Cxx.assign2, hrow]
      simp only [if_pos hca]
    have hlens : (g.set (row a) ((g[row a]).set (col a) (val a))).map List.length
        = g.map List.length := by
      apply List.ext_getElem?
      intro k
      rw [List.getElem?_map, List.getElem?_map, List.getElem?_set]
      by_cases hk : row a = k
      · subst hk; rw [if_pos rfl, if_pos hra, hrow]; simp
      · rw [if_neg hk]
    obtain ⟨w, hrun, hlen, hframe, hval⟩ :=
      ih (fun x hx => hbody x (List.mem_cons_of_mem a hx))
        (g.set (row a) ((g[row a]).set (col a) (val a)))
        (fun x hx => by rw [hlens]; exact hlt x (List.mem_cons_of_mem a hx))
    refine ⟨w, ?_, ?_, ?_, ?_⟩
    · rw [List.foldlM_cons, hstep]; exact hrun
    · rw [hlen, hlens]
    · intro r c hk
      rw [hframe r c (fun x hx => hk x (List.mem_cons_of_mem a hx)),
        at2_set_set g (row a) (col a) (val a) _ hrow hca r c,
        if_neg (hk a (List.mem_cons_self a rest))]
    · intro x hx hlast
      by_cases hxr : x ∈ rest
      · exact hval x hxr (fun y hy => hlast y (List.mem_cons_of_mem a hy))
      · have hxa : x = a := by
          rcases List.mem_cons.mp hx with h | h
          · exact h
          · exact absurd h hxr
        by_cases hre : ∃ y ∈ rest, row y = row x ∧ col y = col x
        · obtain ⟨y, hy, hyr, hyc⟩ := hre
          have hvy := hlast y (List.mem_cons_of_mem a hy) hyr hyc
          rw [← hyr, ← hyc, ← hvy]
          exact hval y hy (fun z hz hzr hzc => by
            rw [hvy]
            exact hlast z (List.mem_cons_of_mem a hz) (hzr.trans hyr) (hzc.trans hyc))
        · have hno : ∀ y ∈ rest, ¬ (row y = row x ∧ col y = col x) :=
            fun y hy h => hre ⟨y, hy, h⟩
          rw [hframe (row x) (col x) hno, hxa,
            at2_set_set g (row a) (col a) (val a) _ hrow hca (row a) (col a),
            if_pos ⟨rfl, rfl⟩]

/-- Resizing a vector of rows of `width` entries with rows of `width` zeros:
every row of the result has `width` entries. -/
theorem resize_rows_length (gradient : List (List Int)) (width height : Nat)
    (hgrad : ∀ row ∈ gradient, row.length = width) :
    (Cxx.resize gradient height (List.replicate width 0)).map List.length
      = List.replicate height width := by
  rw [List.eq_replicate_iff]
  refine ⟨by rw [List.length_map, length_resize], ?_⟩
  intro n hn
  obtain ⟨row, hmem, rfl⟩ := List.mem_map.mp hn
  rw [Cxx.resize, List.mem_append] at hmem
  rcases hmem with h | h
  · exact hgrad _ (List.mem_of_mem_take h)
  · rw [(List.mem_replicate.mp h).2, List.length_replicate]

/-- The `applySobel` of `sobel_operator.cpp` on a `height × width` grid, started
with a gradient whose rows (if any) have `width` entries: it succeeds, the
result has `height` rows of `width` entries, every position that is not an
interior pixel is as in the resized input, and every interior pixel `(i, j)`
holds the integer square root of `sumX² + sumY²`. -/
theorem applySobel_rows_spec (channel : List (List Int)) (gradient : List (List Int))
    (width height : Nat) (hrows : channel.length = height)
    (hcols : ∀ row ∈ channel, row.length = width)
    (hgrad : ∀ row ∈ gradient, row.length = width) :
    ∃ g : List (List Int),
      SobelOperator.applySobel channel gradient width height = some g
        ∧ g.map List.length = List.replicate height width
        ∧ (∀ r c : Nat,
            (∀ i j : Nat, 1 ≤ i → i + 1 < height → 1 ≤ j → j + 1 < width →
              ¬ (i = r ∧ j = c)) →
            Cxx.at2 g (r : Int) (c : Int)
              = Cxx.at2 (Cxx.resize gradient height (List.replicate width 0))
                  (r : Int) (c : Int))
        ∧ (∀ i j : Nat, 1 ≤ i → i + 1 < height → 1 ≤ j → j + 1 < width →
            Cxx.at2 g (i : Int) (j : Int)
              = some ((Nat.sqrt (Spec.sobelSumX channel i j * Spec.sobelSumX channel i j
                  + Spec.sobelSumY channel i j * Spec.sobelSumY channel i j).toNat : Nat)
                  : Int)) := by
  have hflat : SobelOperator.applySobel channel gradient width height
      = (((List.range' 1 (height - 2)).flatMap fun i =>
            (List.range' 1 (width - 2)).map fun j => (i, j)).foldlM
          (fun (g : List (List Int)) (p : Nat × Nat) =>
            match sobelMagnitude channel p.1 p.2 with
            | some magnitude => Cxx.assign2 g p.1 p.2 magnitude
            | none => none)
          (Cxx.resize gradient height (List.replicate width 0))) :=
    foldlM_nested_pairs
      (fun (g : List (List Int)) (p : Nat × Nat) =>
        match sobelMagnitude channel p.1 p.2 with
        | some magnitude => Cxx.assign2 g p.1 p.2 magnitude
        | none => none) _ _ _
  have hlens := resize_rows_length gradient width height hgrad
  obtain ⟨g, hrun, hlen, hframe, hval⟩ :=
    foldlM_assign2
      (fun (g : List (List Int)) (p : Nat × Nat) =>
        match sobelMagnitude channel p.1 p.2 with
        | some magnitude => Cxx.assign2 g p.1 p.2 magnitude
        | none => none)
      (fun p => p.1) (fun p => p.2)
      (fun p => ((Nat.sqrt (Spec.sobelSumX channel p.1 p.2 * Spec.sobelSumX channel p.1 p.2
          + Spec.sobelSumY channel p.1 p.2 * Spec.sobelSumY channel p.1 p.2).toNat : Nat) : Int))
      ((List.range' 1 (height - 2)).flatMap fun i =>
          (List.range' 1 (width - 2)).map fun j => (i, j))
      (by
        intro p hp v
        obtain ⟨⟨h1, h2⟩, ⟨h3, h4⟩⟩ := (mem_interior_pairs width height p).mp hp
        simp only [sobelMagnitude_eq channel width height hrows hcols p.1 p.2 h1 h2 h3 h4])
      (Cxx.resize gradient height (List.replicate width 0))
      (by
        intro p hp
        obtain ⟨⟨h1, h2⟩, ⟨h3, h4⟩⟩ := (mem_interior_pairs width height p).mp hp
        have hlt : p.1 < height := by omega
        rw [hlens, List.getD_eq_getElem?_getD, List.getElem?_replicate, if_pos hlt]
        simp only [Option.getD_some]
        omega)
  refine ⟨g, hflat.trans hrun, by rw [hlen, hlens], ?_, ?_⟩
  · intro r c hk
    refine hframe r c fun p hp => ?_
    obtain ⟨⟨h1, h2⟩, ⟨h3, h4⟩⟩ := (mem_interior_pairs width height p).mp hp
    exact hk p.1 p.2 h1 h2 h3 h4
  · intro i j h1 h2 h3 h4
    refine hval (i, j) ((mem_interior_pairs width height (i, j)).mpr ⟨⟨h1, h2⟩, ⟨h3, h4⟩⟩) ?_
    intro q _ e1 e2
    simp only at e1 e2
    simp only [e1, e2]

/-- The integer square root of a non-negative integer `s` is the unique natural
number `m` with `m² ≤ s < (m+1)²`. -/
theorem sqrt_toNat_spec (s : Int) (hs : 0 ≤ s) :
    ((Nat.sqrt s.toNat : Nat) : Int) ^ 2 ≤ s
      ∧ s < (((Nat.sqrt s.toNat : Nat) : Int) + 1) ^ 2
      ∧ ∀ m : Nat, (m : Int) ^ 2 ≤ s → s < ((m : Int) + 1) ^ 2 → m = Nat.sqrt s.toNat := by
  obtain ⟨t, rfl⟩ := Int.eq_ofNat_of_zero_le hs
  simp only [Int.toNat_ofNat]
  refine ⟨?_, ?_, ?_⟩
  · exact_mod_cast Nat.sqrt_le' t
  · exact_mod_cast Nat.lt_succ_sqrt' t
  · intro m h1 h2
    exact Nat.eq_sqrt'.mpr ⟨by exact_mod_cast h1, by exact_mod_cast h2⟩

/-- C9: for every interior pixel `(i, j)` (`1 ≤ i`, `i + 2 ≤ height`, `1 ≤ j`,
`j + 2 ≤ width`) of a `height × width` channel grid, both versions of
`applySobel` write the integer-truncated magnitude `floor(sqrt(sumX² + sumY²))`:
the unique `m ≥ 0` with `m² ≤ sumX² + sumY² < (m+1)²`, where `sumX` and `sumY`
are the sums of the 3x3 neighbourhood weighted by `Gx` and `Gy`.  The flat
version writes it at index `i * width + j`, the version of `sobel_operator.cpp`
at `[i][j]` (its output vector holding no rows or rows of `width` entries). -/
theorem C9_applySobel_interior_magnitude (channel : List (List Int))
    (gradient : List Int) (gradientRows : List (List Int)) (width height : Nat)
    (hrows : channel.length = height) (hcols : ∀ row ∈ channel, row.length = width)
    (hgrad : ∀ row ∈ gradientRows, row.length = width)
    (i j : Nat) (hi : 1 ≤ i) (hi' : i + 2 ≤ height) (hj : 1 ≤ j) (hj' : j + 2 ≤ width) :
    ∃ m : Nat,
      (m : Int) ^ 2 ≤ Spec.sobelSumX channel i j ^ 2 + Spec.sobelSumY channel i j ^ 2
        ∧ Spec.sobelSumX channel i j ^ 2 + Spec.sobelSumY channel i j ^ 2 < ((m : Int) + 1) ^ 2
        ∧ (∀ m' : Nat,
            (m' : Int) ^ 2 ≤ Spec.sobelSumX channel i j ^ 2 + Spec.sobelSumY channel i j ^ 2 →
            Spec.sobelSumX channel i j ^ 2 + Spec.sobelSumY channel i j ^ 2
              < ((m' : Int) + 1) ^ 2 →
            m' = m)
        ∧ (∃ g : List Int,
            SobelSyntheticness.applySobel channel gradient width height = some g
              ∧ g[i * width + j]? = some (m : Int))
        ∧ (∃ g : List (List Int),
            SobelOperator.applySobel channel gradientRows width height = some g
              ∧ Cxx.at2 g (i : Int) (j : Int) = some (m : Int)) := by
  have hsq : Spec.sobelSumX channel i j * Spec.sobelSumX channel i j
      + Spec.sobelSumY channel i j * Spec.sobelSumY channel i j
      = Spec.sobelSumX channel i j ^ 2 + Spec.sobelSumY channel i j ^ 2 := by ring
  have hnn : 0 ≤ Spec.sobelSumX channel i j ^ 2 + Spec.sobelSumY channel i j ^ 2 :=
    add_nonneg (sq_nonneg _) (sq_nonneg _)
  obtain ⟨h1, h2, h3⟩ := sqrt_toNat_spec _ hnn
  obtain ⟨g, hg, -, -, hval⟩ := applySobel_flat_spec channel gradient width height hrows hcols
  obtain ⟨g2, hg2, -, -, hval2⟩ :=
    applySobel_rows_spec channel gradientRows width height hrows hcols hgrad
  have e := hval i j hi (by omega) hj (by omega)
  have e2 := hval2 i j hi (by omega) hj (by omega)
  rw [hsq] at e e2
  exact ⟨_, h1, h2, h3, ⟨g, hg, e⟩, ⟨g2, hg2, e2⟩⟩

/-- C9, at the centre pixel of the 3x3 grid `[[1,2,3],[4,5,6],[7,8,9]]`
(`sumX = 8`, `sumY = 24`, magnitude `25`), with empty output vectors. -/
theorem C9_applySobel_interior_magnitude_witness :
    ∃ m : Nat,
      (m : Int) ^ 2 ≤ Spec.sobelSumX [[1, 2, 3], [4, 5, 6], [7, 8, 9]] 1 1 ^ 2
          + Spec.sobelSumY [[1, 2, 3], [4, 5, 6], [7, 8, 9]] 1 1 ^ 2
        ∧ Spec.sobelSumX [[1, 2, 3], [4, 5, 6], [7, 8, 9]] 1 1 ^ 2
            + Spec.sobelSumY [[1, 2, 3], [4, 5, 6], [7, 8, 9]] 1 1 ^ 2 < ((m : Int) + 1) ^ 2
        ∧ (∀ m' : Nat,
            (m' : Int) ^ 2 ≤ Spec.sobelSumX [[1, 2, 3], [4, 5, 6], [7, 8, 9]] 1 1 ^ 2
              + Spec.sobelSumY [[1, 2, 3], [4, 5, 6], [7, 8, 9]] 1 1 ^ 2 →
            Spec.sobelSumX [[1, 2, 3], [4, 5, 6], [7, 8, 9]] 1 1 ^ 2
              + Spec.sobelSumY [[1, 2, 3], [4, 5, 6], [7, 8, 9]] 1 1 ^ 2
              < ((m' : Int) + 1) ^ 2 →
            m' = m)
        ∧ (∃ g : List Int,
            SobelSyntheticness.applySobel [[1, 2, 3], [4, 5, 6], [7, 8, 9]] [] 3 3 = some g
              ∧ g[1 * 3 + 1]? = some (m : Int))
        ∧ (∃ g : List (List Int),
            SobelOperator.applySobel [[1, 2, 3], [4, 5, 6], [7, 8, 9]] [] 3 3 = some g
              ∧ Cxx.at2 g ((1 : Nat) : Int) ((1 : Nat) : Int) = some (m : Int)) :=
  C9_applySobel_interior_magnitude [[1, 2, 3], [4, 5, 6], [7, 8, 9]] [] [] 3 3 rfl
    (by simp) (by simp) 1 1 (by decide) (by decide) (by decide) (by decide)

/-- In a `height × width` grid whose samples all equal `c`, every sample read
inside the grid is `c`. -/
theorem sample_uniform (channel : List (List Int)) (width height : Nat) (c : Int)
    (hrows : channel.length = height) (hcols : ∀ row ∈ channel, row.length = width)
    (huniform : ∀ row ∈ channel, ∀ v ∈ row, v = c)
    (r k : Nat) (hr : r < height) (hk : k < width) :
    Spec.sample channel r k = c := by
  have hr' : r < channel.length := by omega
  have hmem : channel[r] ∈ channel := List.getElem_mem hr'
  have hk' : k < (channel[r]).length := by rw [hcols _ hmem]; exact hk
  have hs : Spec.sample channel r k = (channel[r])[k] := by
    simp only [Spec.sample, List.getD_eq_getElem?_getD, List.getElem?_eq_getElem hr',
      Option.getD_some, List.getElem?_eq_getElem hk']
  rw [hs]
  exact huniform _ hmem _ (List.getElem_mem hk')

/-- C10: for every channel grid with `width ≥ 3` and `height ≥ 3` in which every
sample equals the same value `c`, both versions of `applySobel` yield magnitude
`0` at every interior pixel (and `(1, 1)` is such a pixel). -/
theorem C10_applySobel_uniform_zero (channel : List (List Int)) (c : Int)
    (gradient : List Int) (gradientRows : List (List Int)) (width height : Nat)
    (hw : 3 ≤ width) (hh : 3 ≤ height)
    (hrows : channel.length = height) (hcols : ∀ row ∈ channel, row.length = width)
    (huniform : ∀ row ∈ channel, ∀ v ∈ row, v = c)
    (hgrad : ∀ row ∈ gradientRows, row.length = width) :
    (∃ g : List Int,
        SobelSyntheticness.applySobel channel gradient width height = some g
          ∧ (∀ i j : Nat, 1 ≤ i → i + 2 ≤ height → 1 ≤ j → j + 2 ≤ width →
              g[i * width + j]? = some 0)
          ∧ g[1 * width + 1]? = some 0)
      ∧ (∃ g : List (List Int),
          SobelOperator.applySobel channel gradientRows width height = some g
            ∧ (∀ i j : Nat, 1 ≤ i → i + 2 ≤ height → 1 ≤ j → j + 2 ≤ width →
                Cxx.at2 g (i : Int) (j : Int) = some 0)
            ∧ Cxx.at2 g ((1 : Nat) : Int) ((1 : Nat) : Int) = some 0) := by
  have hzero : ∀ i j : Nat, 1 ≤ i → i + 2 ≤ height → 1 ≤ j → j + 2 ≤ width →
      ((Nat.sqrt (Spec.sobelSumX channel i j * Spec.sobelSumX channel i j
          + Spec.sobelSumY channel i j * Spec.sobelSumY channel i j).toNat : Nat) : Int) = 0 := by
    intro i j hi hi' hj hj'
    have hs := sample_uniform channel width height c hrows hcols huniform
    have hx : Spec.sobelSumX channel i j = 0 := by
      simp only [Spec.sobelSumX, hs (i - 1) (j - 1) (by omega) (by omega),
        hs (i - 1) (j + 1) (by omega) (by omega), hs i (j - 1) (by omega) (by omega),
        hs i (j + 1) (by omega) (by omega), hs (i + 1) (j - 1) (by omega) (by omega),
        hs (i + 1) (j + 1) (by omega) (by omega)]
      ring
    have hy : Spec.sobelSumY channel i j = 0 := by
      simp only [Spec.sobelSumY, hs (i - 1) (j - 1) (by omega) (by omega),
        hs (i - 1) j (by omega) (by omega), hs (i - 1) (j + 1) (by omega) (by omega),
        hs (i + 1) (j - 1) (by omega) (by omega), hs (i + 1) j (by omega) (by omega),
        hs (i + 1) (j + 1) (by omega) (by omega)]
      ring
    rw [hx, hy]
    simp
  obtain ⟨g, hg, -, -, hval⟩ := applySobel_flat_spec channel gradient width height hrows hcols
  obtain ⟨g2, hg2, -, -, hval2⟩ :=
    applySobel_rows_spec channel gradientRows width height hrows hcols hgrad
  have hall : ∀ i j : Nat, 1 ≤ i → i + 2 ≤ height → 1 ≤ j → j + 2 ≤ width →
      g[i * width + j]? = some 0 := by
    intro i j hi hi' hj hj'
    rw [hval i j hi (by omega) hj (by omega), hzero i j hi hi' hj hj']
  have hall2 : ∀ i j : Nat, 1 ≤ i → i + 2 ≤ height → 1 ≤ j → j + 2 ≤ width →
      Cxx.at2 g2 (i : Int) (j : Int) = some 0 := by
    intro i j hi hi' hj hj'
    rw [hval2 i j hi (by omega) hj (by omega), hzero i j hi hi' hj hj']
  exact ⟨⟨g, hg, hall, hall 1 1 le_rfl (by omega) le_rfl (by omega)⟩,
    ⟨g2, hg2, hall2, hall2 1 1 le_rfl (by omega) le_rfl (by omega)⟩⟩

/-- C10, on the 4x4 grid whose samples are all `128`, with empty output
vectors. -/
theorem C10_applySobel_uniform_zero_witness :
    (∃ g : List Int,
        SobelSyntheticness.applySobel (List.replicate 4 (List.replicate 4 128)) [] 4 4 = some g
          ∧ (∀ i j : Nat, 1 ≤ i → i + 2 ≤ 4 → 1 ≤ j → j + 2 ≤ 4 →
              g[i * 4 + j]? = some 0)
          ∧ g[1 * 4 + 1]? = some 0)
      ∧ (∃ g : List (List Int),
          SobelOperator.applySobel (List.replicate 4 (List.replicate 4 128)) [] 4 4 = some g
            ∧ (∀ i j : Nat, 1 ≤ i → i + 2 ≤ 4 → 1 ≤ j → j + 2 ≤ 4 →
                Cxx.at2 g (i : Int) (j : Int) = some 0)
            ∧ Cxx.at2 g ((1 : Nat) : Int) ((1 : Nat) : Int) = some 0) :=
  C10_applySobel_uniform_zero (List.replicate 4 (List.replicate 4 128)) 128 [] [] 4 4
    (by decide) (by decide) (by simp)
    (fun row hrow => by rw [(List.mem_replicate.mp hrow).2]; simp)
    (fun row hrow v hv => by
      rw [(List.mem_replicate.mp hrow).2] at hv
      exact (List.mem_replicate.mp hv).2)
    (by simp)

/-- The integer square root of a square, as stored by `applySobel` when one of
the two sums vanishes. -/
theorem sqrt_sq_add_zero (x : Int) :
    ((Nat.sqrt (x * x + 0 * 0).toNat : Nat) : Int) = |x| := by
  have h : (x * x + 0 * 0).toNat = x.natAbs * x.natAbs := by
    have e : x * x + 0 * 0 = ((x.natAbs * x.natAbs : Nat) : Int) := by
      push_cast; rw [abs_mul_abs_self]; ring
    rw [e, Int.toNat_ofNat]
  rw [h, Nat.sqrt_eq, Int.natCast_natAbs]

/-- On a vertical step edge (every sample left of column `c` is `a`, every
sample from column `c` on is `b`) the two Sobel sums at an interior pixel are
`sumX = 4 * (v(j+1) - v(j-1))` and `sumY = 0`, so the stored magnitude is
`4 * |b - a|` in the two columns `c - 1` and `c` next to the step and `0` in
every other column. -/
theorem step_edge_magnitude (channel : List (List Int)) (width height c : Nat) (a b : Int)
    (hstep : ∀ r k : Nat, r < height → k < width →
      Spec.sample channel r k = if k < c then a else b)
    (i j : Nat) (hi : 1 ≤ i) (hi' : i + 1 < height) (hj : 1 ≤ j) (hj' : j + 1 < width) :
    ((Nat.sqrt (Spec.sobelSumX channel i j * Spec.sobelSumX channel i j
        + Spec.sobelSumY channel i j * Spec.sobelSumY channel i j).toNat : Nat) : Int)
      = if j + 1 = c ∨ j = c then 4 * |b - a| else 0 := by
  have hy : Spec.sobelSumY channel i j = 0 := by
    simp only [Spec.sobelSumY, hstep (i - 1) (j - 1) (by omega) (by omega),
      hstep (i - 1) j (by omega) (by omega), hstep (i - 1) (j + 1) (by omega) (by omega),
      hstep (i + 1) (j - 1) (by omega) (by omega), hstep (i + 1) j (by omega) (by omega),
      hstep (i + 1) (j + 1) (by omega) (by omega)]
    ring
  have hx : Spec.sobelSumX channel i j
      = 4 * ((if j + 1 < c then a else b) - (if j - 1 < c then a else b)) := by
    simp only [Spec.sobelSumX, hstep (i - 1) (j - 1) (by omega) (by omega),
      hstep (i - 1) (j + 1) (by omega) (by omega), hstep i (j - 1) (by omega) (by omega),
      hstep i (j + 1) (by omega) (by omega), hstep (i + 1) (j - 1) (by omega) (by omega),
      hstep (i + 1) (j + 1) (by omega) (by omega)]
    ring
  rw [hy, sqrt_sq_add_zero, hx]
  by_cases h1 : j + 1 < c
  · have h2 : j - 1 < c := by omega
    have h3 : ¬ (j + 1 = c ∨ j = c) := by omega
    rw [if_pos h1, if_pos h2, if_neg h3]
    simp
  · by_cases h2 : j - 1 < c
    · have h3 : j + 1 = c ∨ j = c := by omega
      rw [if_neg h1, if_pos h2, if_pos h3, abs_mul]
      simp
    · have h3 : ¬ (j + 1 = c ∨ j = c) := by omega
      rw [if_neg h1, if_neg h2, if_neg h3]
      simp

/-- Both versions of `applySobel` on a vertical step edge at column `c`: every
interior pixel `(i, j)` holds `4 * |b - a|` when `j = c - 1` or `j = c`, and `0`
otherwise. -/
theorem applySobel_step_edge (channel : List (List Int)) (gradient : List Int)
    (gradientRows : List (List Int)) (width height c : Nat) (a b : Int)
    (hrows : channel.length = height) (hcols : ∀ row ∈ channel, row.length = width)
    (hgrad : ∀ row ∈ gradientRows, row.length = width)
    (hstep : ∀ r k : Nat, r < height → k < width →
      Spec.sample channel r k = if k < c then a else b) :
    (∃ g : List Int,
        SobelSyntheticness.applySobel channel gradient width height = some g
          ∧ ∀ i j : Nat, 1 ≤ i → i + 2 ≤ height → 1 ≤ j → j + 2 ≤ width →
              g[i * width + j]? = some (if j + 1 = c ∨ j = c then 4 * |b - a| else 0))
      ∧ (∃ g : List (List Int),
          SobelOperator.applySobel channel gradientRows width height = some g
            ∧ ∀ i j : Nat, 1 ≤ i → i + 2 ≤ height → 1 ≤ j → j + 2 ≤ width →
                Cxx.at2 g (i : Int) (j : Int)
                  = some (if j + 1 = c ∨ j = c then 4 * |b - a| else 0)) := by
  obtain ⟨g, hg, -, -, hval⟩ := applySobel_flat_spec channel gradient width height hrows hcols
  obtain ⟨g2, hg2, -, -, hval2⟩ :=
    applySobel_rows_spec channel gradientRows width height hrows hcols hgrad
  refine ⟨⟨g, hg, ?_⟩, ⟨g2, hg2, ?_⟩⟩
  · intro i j hi hi' hj hj'
    rw [hval i j hi (by omega) hj (by omega),
      step_edge_magnitude channel width height c a b hstep i j hi (by omega) hj (by omega)]
  · intro i j hi hi' hj hj'
    rw [hval2 i j hi (by omega) hj (by omega),
      step_edge_magnitude channel width height c a b hstep i j hi (by omega) hj (by omega)]

/-- C11 fails on the code: in the 3x4 grid with rows `[0, 0, 1, 1]` (step column
`c = 2`, `a = 0`, `b = 1`) both versions of `applySobel` store magnitude `4` at
the interior pixel `(1, 1)`, whose column `1` is not the step column: the
3-wide kernel responds in both columns next to the step. -/
theorem C11_step_edge_counterexample :
    (∀ r k : Nat, r < 3 → k < 4 →
        Spec.sample [[0, 0, 1, 1], [0, 0, 1, 1], [0, 0, 1, 1]] r k = if k < 2 then 0 else 1)
      ∧ (1 : Nat) ≠ 2
      ∧ (∃ g : List Int,
          SobelSyntheticness.applySobel [[0, 0, 1, 1], [0, 0, 1, 1], [0, 0, 1, 1]] [] 4 3
              = some g
            ∧ g[1 * 4 + 1]? = some 4)
      ∧ (∃ g : List (List Int),
          SobelOperator.applySobel [[0, 0, 1, 1], [0, 0, 1, 1], [0, 0, 1, 1]] [] 4 3 = some g
            ∧ Cxx.at2 g ((1 : Nat) : Int) ((1 : Nat) : Int) = some 4) := by
  have hstep : ∀ r k : Nat, r < 3 → k < 4 →
      Spec.sample [[0, 0, 1, 1], [0, 0, 1, 1], [0, 0, 1, 1]] r k = if k < 2 then 0 else 1 := by
    intro r k hr hk
    interval_cases r <;> interval_cases k <;> simp [Spec.sample]
  obtain ⟨⟨g, hg, hval⟩, ⟨g2, hg2, hval2⟩⟩ :=
    applySobel_step_edge [[0, 0, 1, 1], [0, 0, 1, 1], [0, 0, 1, 1]] [] [] 4 3 2 0 1 rfl
      (by simp) (by simp) hstep
  have e := hval 1 1 (by decide) (by decide) (by decide) (by decide)
  have e2 := hval2 1 1 (by decide) (by decide) (by decide) (by decide)
  simp only [Nat.reduceAdd, true_or, if_true, sub_zero, abs_one, mul_one] at e e2
  exact ⟨hstep, by decide, ⟨g, hg, e⟩, ⟨g2, hg2, e2⟩⟩

/-- C11 (amended): for every channel grid with `width ≥ 3` and `height ≥ 3` that
is a vertical step edge (every sample in columns `< c` equals `a`, every sample
in columns `≥ c` equals `b`, `a ≠ b`, `1 ≤ c ≤ width - 1`), the magnitude that
both versions of `applySobel` store at an interior pixel `(i, j)` is non-zero
exactly when `j = c - 1` or `j = c` (the two columns next to the step), where it
is `4 * |b - a|`, and is `0` at every other interior pixel; some interior pixel
lies in one of these two columns. -/
theorem C11_applySobel_step_edge_columns (channel : List (List Int)) (gradient : List Int)
    (gradientRows : List (List Int)) (width height c : Nat) (a b : Int)
    (hw : 3 ≤ width) (hh : 3 ≤ height)
    (hrows : channel.length = height) (hcols : ∀ row ∈ channel, row.length = width)
    (hgrad : ∀ row ∈ gradientRows, row.length = width)
    (hc : 1 ≤ c) (hc' : c + 1 ≤ width) (hab : a ≠ b)
    (hstep : ∀ r k : Nat, r < height → k < width →
      Spec.sample channel r k = if k < c then a else b) :
    (∃ g : List Int,
        SobelSyntheticness.applySobel channel gradient width height = some g
          ∧ ∀ i j : Nat, 1 ≤ i → i + 2 ≤ height → 1 ≤ j → j + 2 ≤ width →
              ∃ m : Int, g[i * width + j]? = some m
                ∧ (m ≠ 0 ↔ (j + 1 = c ∨ j = c))
                ∧ (m ≠ 0 → m = 4 * |b - a|))
      ∧ (∃ g : List (List Int),
          SobelOperator.applySobel channel gradientRows width height = some g
            ∧ ∀ i j : Nat, 1 ≤ i → i + 2 ≤ height → 1 ≤ j → j + 2 ≤ width →
                ∃ m : Int, Cxx.at2 g (i : Int) (j : Int) = some m
                  ∧ (m ≠ 0 ↔ (j + 1 = c ∨ j = c))
                  ∧ (m ≠ 0 → m = 4 * |b - a|))
      ∧ (∃ i j : Nat, 1 ≤ i ∧ i + 2 ≤ height ∧ 1 ≤ j ∧ j + 2 ≤ width
          ∧ (j + 1 = c ∨ j = c)) := by
  have hpos : 4 * |b - a| ≠ 0 := by
    have : b - a ≠ 0 := sub_ne_zero.mpr (Ne.symm hab)
    have := abs_pos.mpr this
    omega
  have hm : ∀ j : Nat,
      ((if j + 1 = c ∨ j = c then 4 * |b - a| else (0 : Int)) ≠ 0 ↔ (j + 1 = c ∨ j = c))
        ∧ ((if j + 1 = c ∨ j = c then 4 * |b - a| else (0 : Int)) ≠ 0 →
            (if j + 1 = c ∨ j = c then 4 * |b - a| else (0 : Int)) = 4 * |b - a|) := by
    intro j
    by_cases h : j + 1 = c ∨ j = c
    · rw [if_pos h]
      exact ⟨⟨fun _ => h, fun _ => hpos⟩, fun _ => rfl⟩
    · rw [if_neg h]
      exact ⟨⟨fun h0 => absurd rfl h0, fun h1 => absurd h1 h⟩, fun h0 => absurd rfl h0⟩
  obtain ⟨⟨g, hg, hval⟩, ⟨g2, hg2, hval2⟩⟩ :=
    applySobel_step_edge channel gradient gradientRows width height c a b hrows hcols hgrad
      hstep
  refine ⟨⟨g, hg, ?_⟩, ⟨g2, hg2, ?_⟩, ?_⟩
  · intro i j hi hi' hj hj'
    exact ⟨_, hval i j hi hi' hj hj', (hm j).1, (hm j).2⟩
  · intro i j hi hi' hj hj'
    exact ⟨_, hval2 i j hi hi' hj hj', (hm j).1, (hm j).2⟩
  · by_cases h1 : c = 1
    · exact ⟨1, 1, le_rfl, by omega, le_rfl, by omega, Or.inr h1.symm⟩
    · exact ⟨1, c - 1, le_rfl, by omega, by omega, by omega, Or.inl (by omega)⟩

/-- C11 (amended), on the 3x4 grid with rows `[0, 0, 1, 1]` (step column `2`). -/
theorem C11_applySobel_step_edge_columns_witness :
    (∃ g : List Int,
        SobelSyntheticness.applySobel [[0, 0, 1, 1], [0, 0, 1, 1], [0, 0, 1, 1]] [] 4 3
            = some g
          ∧ ∀ i j : Nat, 1 ≤ i → i + 2 ≤ 3 → 1 ≤ j → j + 2 ≤ 4 →
              ∃ m : Int, g[i * 4 + j]? = some m
                ∧ (m ≠ 0 ↔ (j + 1 = 2 ∨ j = 2))
                ∧ (m ≠ 0 → m = 4 * |(1 : Int) - 0|))
      ∧ (∃ g : List (List Int),
          SobelOperator.applySobel [[0, 0, 1, 1], [0, 0, 1, 1], [0, 0, 1, 1]] [] 4 3 = some g
            ∧ ∀ i j : Nat, 1 ≤ i → i + 2 ≤ 3 → 1 ≤ j → j + 2 ≤ 4 →
                ∃ m : Int, Cxx.at2 g (i : Int) (j : Int) = some m
                  ∧ (m ≠ 0 ↔ (j + 1 = 2 ∨ j = 2))
                  ∧ (m ≠ 0 → m = 4 * |(1 : Int) - 0|))
      ∧ (∃ i j : Nat, 1 ≤ i ∧ i + 2 ≤ 3 ∧ 1 ≤ j ∧ j + 2 ≤ 4 ∧ (j + 1 = 2 ∨ j = 2)) :=
  C11_applySobel_step_edge_columns [[0, 0, 1, 1], [0, 0, 1, 1], [0, 0, 1, 1]] [] [] 4 3 2 0 1
    (by decide) (by decide) rfl (by simp) (by simp) (by decide) (by decide) (by decide)
    (by
      intro r k hr hk
      interval_cases r <;> interval_cases k <;> simp [Spec.sample])

/-- Resizing an empty vector fills it with copies of the given value. -/
theorem resize_nil {α : Type} (n : Nat) (x : α) :
    Cxx.resize ([] : List α) n x = List.replicate n x := by
  simp [Cxx.resize]

/-- A vector of rows whose list of row lengths is `height` times `width` has
`height` rows of `width` entries. -/
theorem rows_of_lengths (g : List (List Int)) (width height : Nat)
    (h : g.map List.length = List.replicate height width) :
    g.length = height ∧ ∀ row ∈ g, row.length = width := by
  constructor
  · have := congrArg List.length h
    simpa using this
  · intro row hrow
    have hmem : row.length ∈ g.map List.length := List.mem_map_of_mem _ hrow
    rw [h] at hmem
    exact (List.mem_replicate.mp hmem).2

/-- C12: for every `height × width` channel grid (any sample values) and an
initially empty output, both versions of `applySobel` produce a gradient with
exactly the source's dimensions (`height * width` entries, respectively `height`
rows of `width` entries) in which every border entry (row `0`, row `height - 1`,
column `0`, column `width - 1`) is `0`. -/
theorem C12_applySobel_dimensions_and_border (channel : List (List Int))
    (width height : Nat) (hrows : channel.length = height)
    (hcols : ∀ row ∈ channel, row.length = width) :
    (∃ g : List Int,
        SobelSyntheticness.applySobel channel [] width height = some g
          ∧ g.length = height * width
          ∧ ∀ r k : Nat, r < height → k < width →
              (r = 0 ∨ r + 1 = height ∨ k = 0 ∨ k + 1 = width) →
              g[r * width + k]? = some 0)
      ∧ (∃ g : List (List Int),
          SobelOperator.applySobel channel [] width height = some g
            ∧ g.length = height
            ∧ (∀ row ∈ g, row.length = width)
            ∧ ∀ r k : Nat, r < height → k < width →
                (r = 0 ∨ r + 1 = height ∨ k = 0 ∨ k + 1 = width) →
                Cxx.at2 g (r : Int) (k : Int) = some 0) := by
  obtain ⟨g, hg, hlen, hframe, -⟩ := applySobel_flat_spec channel [] width height hrows hcols
  obtain ⟨g2, hg2, hlens, hframe2, -⟩ :=
    applySobel_rows_spec channel [] width height hrows hcols
      (fun row hrow => absurd hrow (List.not_mem_nil row))
  obtain ⟨hl2, hrow2⟩ := rows_of_lengths g2 width height hlens
  refine ⟨⟨g, hg, hlen, ?_⟩, ⟨g2, hg2, hl2, hrow2, ?_⟩⟩
  · intro r k hr hk hborder
    rw [hframe (r * width + k), resize_nil,
      List.getElem?_replicate, if_pos (flat_index_lt width height r k hr hk)]
    intro i j hi hi' hj hj' hidx
    obtain ⟨e1, e2⟩ := flat_index_inj width i j r k (by omega) hk hidx
    omega
  · intro r k hr hk hborder
    rw [hframe2 r k, resize_nil, at2_natCast, List.getElem?_replicate, if_pos hr]
    · simp only [Option.some_bind, List.getElem?_replicate, if_pos hk]
    · intro i j hi hi' hj hj' hidx
      omega

/-- C12, on the 3x3 grid `[[1,2,3],[4,5,6],[7,8,9]]`. -/
theorem C12_applySobel_dimensions_and_border_witness :
    (∃ g : List Int,
        SobelSyntheticness.applySobel [[1, 2, 3], [4, 5, 6], [7, 8, 9]] [] 3 3 = some g
          ∧ g.length = 3 * 3
          ∧ ∀ r k : Nat, r < 3 → k < 3 →
              (r = 0 ∨ r + 1 = 3 ∨ k = 0 ∨ k + 1 = 3) →
              g[r * 3 + k]? = some 0)
      ∧ (∃ g : List (List Int),
          SobelOperator.applySobel [[1, 2, 3], [4, 5, 6], [7, 8, 9]] [] 3 3 = some g
            ∧ g.length = 3
            ∧ (∀ row ∈ g, row.length = 3)
            ∧ ∀ r k : Nat, r < 3 → k < 3 →
                (r = 0 ∨ r + 1 = 3 ∨ k = 0 ∨ k + 1 = 3) →
                Cxx.at2 g (r : Int) (k : Int) = some 0) :=
  C12_applySobel_dimensions_and_border [[1, 2, 3], [4, 5, 6], [7, 8, 9]] 3 3 rfl (by simp)

/-! ### The absolute-difference gradient -/

/-- A loop whose body appends `val x` for every `x` of a list appends the
mapped list. -/
theorem foldlM_push_back {α : Type} (body : List Int → α → Option (List Int)) (val : α → Int)
    (xs : List α) (hbody : ∀ x ∈ xs, ∀ v : List Int, body v x = some (v ++ [val x])) :
    ∀ v : List Int, xs.foldlM body v = some (v ++ xs.map val) := by
  induction xs with
  | nil => intro v; simp
  | cons a rest ih =>
    intro v
    rw [List.foldlM_cons, hbody a (List.mem_cons_self a rest) v]
    simp only [Option.bind_eq_bind, Option.some_bind]
    rw [ih (fun x hx => hbody x (List.mem_cons_of_mem a hx))]
    simp

/-- Row-major layout: in the list of `h` rows of `w` entries `f i j`, the entry
at index `i * w + j` is `f i j`, and the list has `h * w` entries. -/
theorem rowMajor_getElem? {α : Type} (w : Nat) (f : Nat → Nat → α) (h : Nat) :
    ((List.range h).flatMap fun i => (List.range w).map fun j => f i j).length = h * w
      ∧ ∀ i j : Nat, i < h → j < w →
          ((List.range h).flatMap fun i => (List.range w).map fun j => f i j)[i * w + j]?
            = some (f i j) := by
  induction h with
  | zero => exact ⟨by simp, fun i j hi _ => absurd hi (Nat.not_lt_zero i)⟩
  | succ n ih =>
    obtain ⟨hlen, hget⟩ := ih
    have hsplit : ((List.range (n + 1)).flatMap fun i => (List.range w).map fun j => f i j)
        = ((List.range n).flatMap fun i => (List.range w).map fun j => f i j)
            ++ (List.range w).map fun j => f n j := by
      rw [List.range_succ, List.flatMap_append]
      simp
    rw [hsplit]
    refine ⟨by rw [List.length_append, hlen, List.length_map, List.length_range, Nat.succ_mul],
      ?_⟩
    intro i j hi hj
    by_cases hin : i < n
    · rw [List.getElem?_append_left (by rw [hlen]; exact flat_index_lt w n i j hin hj)]
      exact hget i j hin hj
    · have hi' : i = n := by omega
      subst hi'
      rw [List.getElem?_append_right (by rw [hlen]; omega), hlen, Nat.add_sub_cancel_left,
        List.getElem?_map, List.getElem?_range hj]
      rfl

/-- The horizontal loop body at a pixel `(i, j)`, `j ≥ 1`, of a `height × width`
grid appends the absolute difference to the left neighbour. -/
theorem horizontalStep_eq (channel : List (List Int)) (width height : Nat)
    (hrows : channel.length = height) (hcols : ∀ row ∈ channel, row.length = width)
    (i j : Nat) (hi : i < height) (hj : 1 ≤ j) (hj' : j < width) (ghor : List Int) :
    Syntheticness.horizontalStep channel i ghor j
      = some (ghor ++ [|Spec.sample channel i j - Spec.sample channel i (j - 1)|]) := by
  have e : ((j : Int) - 1) = ((j - 1 : Nat) : Int) := by omega
  simp only [Syntheticness.horizontalStep, e,
    at2_eq_sample channel width height hrows hcols i j hi hj',
    at2_eq_sample channel width height hrows hcols i (j - 1) hi (by omega)]

/-- The vertical loop body at a pixel `(i, j)`, `i ≥ 1`, of a `height × width`
grid appends the absolute difference to the upper neighbour. -/
theorem verticalStep_eq (channel : List (List Int)) (width height : Nat)
    (hrows : channel.length = height) (hcols : ∀ row ∈ channel, row.length = width)
    (i j : Nat) (hi : 1 ≤ i) (hi' : i < height) (hj : j < width) (gver : List Int) :
    Syntheticness.verticalStep channel i gver j
      = some (gver ++ [|Spec.sample channel i j - Spec.sample channel (i - 1) j|]) := by
  have e : ((i : Int) - 1) = ((i - 1 : Nat) : Int) := by omega
  simp only [Syntheticness.verticalStep, e,
    at2_eq_sample channel width height hrows hcols i j hi' hj,
    at2_eq_sample channel width height hrows hcols (i - 1) j (by omega) hj]

/-- On a `height × width` grid with at least one row, `calculateGradients`
appends the horizontal differences to `ghor` and the vertical differences to
`gver`, and then reads the first entry of each. -/
theorem calculateGradients_eq (channel : List (List Int)) (width height : Nat)
    (hrows : channel.length = height) (hcols : ∀ row ∈ channel, row.length = width)
    (hh : 1 ≤ height) (ghor gver : List Int) :
    Syntheticness.calculateGradients channel ghor gver
      = match (ghor ++ Spec.horizontalDifferences channel width height)[0]?,
              (gver ++ Spec.verticalDifferences channel width height)[0]? with
        | some _, some _ =>
            some (ghor ++ Spec.horizontalDifferences channel width height,
                  gver ++ Spec.verticalDifferences channel width height)
        | _, _ => none := by
  have h0 : 0 < channel.length := by omega
  have hrow0 : channel[0]? = some (channel[0]) := List.getElem?_eq_getElem h0
  have hw : (channel[0]).length = width := hcols _ (List.getElem_mem h0)
  have hhor : (List.range height).foldlM
        (fun ghor i =>
          (List.range' 1 (width - 1)).foldlM (Syntheticness.horizontalStep channel i) ghor)
        ghor
      = some (ghor ++ Spec.horizontalDifferences channel width height) := by
    have hflat := foldlM_nested_pairs
      (fun (g : List Int) (p : Nat × Nat) => Syntheticness.horizontalStep channel p.1 g p.2)
      (List.range height) (List.range' 1 (width - 1)) ghor
    have hpush := foldlM_push_back
      (fun (g : List Int) (p : Nat × Nat) => Syntheticness.horizontalStep channel p.1 g p.2)
      (fun p => |Spec.sample channel p.1 p.2 - Spec.sample channel p.1 (p.2 - 1)|)
      ((List.range height).flatMap fun i => (List.range' 1 (width - 1)).map fun j => (i, j))
      (by
        intro p hp v
        simp only [List.mem_flatMap, List.mem_map, List.mem_range, List.mem_range'_1] at hp
        obtain ⟨i, hi, j, hj, rfl⟩ := hp
        exact horizontalStep_eq channel width height hrows hcols i j hi hj.1 (by omega) v)
      ghor
    rw [hflat.trans hpush]
    congr 2
    simp only [Spec.horizontalDifferences, List.map_flatMap, List.map_map,
      List.range'_eq_map_range]
    congr 1
    funext i
    apply List.map_congr_left
    intro j _
    simp only [Function.comp, Nat.add_comm 1 j, Nat.add_sub_cancel]
  have hver : (List.range' 1 (height - 1)).foldlM
        (fun gver i => (List.range width).foldlM (Syntheticness.verticalStep channel i) gver)
        gver
      = some (gver ++ Spec.verticalDifferences channel width height) := by
    have hflat := foldlM_nested_pairs
      (fun (g : List Int) (p : Nat × Nat) => Syntheticness.verticalStep channel p.1 g p.2)
      (List.range' 1 (height - 1)) (List.range width) gver
    have hpush := foldlM_push_back
      (fun (g : List Int) (p : Nat × Nat) => Syntheticness.verticalStep channel p.1 g p.2)
      (fun p => |Spec.sample channel p.1 p.2 - Spec.sample channel (p.1 - 1) p.2|)
      ((List.range' 1 (height - 1)).flatMap fun i => (List.range width).map fun j => (i, j))
      (by
        intro p hp v
        simp only [List.mem_flatMap, List.mem_map, List.mem_range, List.mem_range'_1] at hp
        obtain ⟨i, hi, j, hj, rfl⟩ := hp
        exact verticalStep_eq channel width height hrows hcols i j hi.1 (by omega) hj v)
      gver
    rw [hflat.trans hpush]
    congr 2
    simp only [Spec.verticalDifferences, List.map_flatMap, List.map_map,
      List.range'_eq_map_range, List.flatMap_map]
    congr 1
    funext i
    apply List.map_congr_left
    intro j _
    simp only [Function.comp, Nat.add_comm 1 i, Nat.add_sub_cancel]
  simp only [Syntheticness.calculateGradients, hrow0, hw, hrows, hhor, hver]

/-- The lists of horizontal and vertical differences of a grid: their lengths,
their entries in row-major order, and the sign of their entries. -/
theorem differences_spec (channel : List (List Int)) (width height : Nat) :
    (Spec.horizontalDifferences channel width height).length = height * (width - 1)
      ∧ (Spec.verticalDifferences channel width height).length = (height - 1) * width
      ∧ (∀ i j : Nat, i < height → 1 ≤ j → j < width →
          (Spec.horizontalDifferences channel width height)[i * (width - 1) + (j - 1)]?
            = some |Spec.sample channel i j - Spec.sample channel i (j - 1)|)
      ∧ (∀ i j : Nat, 1 ≤ i → i < height → j < width →
          (Spec.verticalDifferences channel width height)[(i - 1) * width + j]?
            = some |Spec.sample channel i j - Spec.sample channel (i - 1) j|)
      ∧ (∀ v ∈ Spec.horizontalDifferences channel width height, 0 ≤ v)
      ∧ (∀ v ∈ Spec.verticalDifferences channel width height, 0 ≤ v) := by
  obtain ⟨hlenH, hgetH⟩ := rowMajor_getElem? (width - 1)
    (fun i j => |Spec.sample channel i (j + 1) - Spec.sample channel i j|) height
  obtain ⟨hlenV, hgetV⟩ := rowMajor_getElem? width
    (fun i j => |Spec.sample channel (i + 1) j - Spec.sample channel i j|) (height - 1)
  refine ⟨hlenH, hlenV, ?_, ?_, ?_, ?_⟩
  · intro i j hi hj hj'
    have e := hgetH i (j - 1) hi (by omega)
    rw [Nat.sub_add_cancel hj] at e
    exact e
  · intro i j hi hi' hj
    have e := hgetV (i - 1) j (by omega) hj
    rw [Nat.sub_add_cancel hi] at e
    exact e
  · intro v hv
    simp only [Spec.horizontalDifferences, List.mem_flatMap, List.mem_map] at hv
    obtain ⟨i, -, j, -, rfl⟩ := hv
    exact abs_nonneg _
  · intro v hv
    simp only [Spec.verticalDifferences, List.mem_flatMap, List.mem_map] at hv
    obtain ⟨i, -, j, -, rfl⟩ := hv
    exact abs_nonneg _

/-- On a `height × width` grid with at least two rows and two columns, and with
empty outputs, `calculateGradients` returns the two lists of differences. -/
theorem calculateGradients_of_two_le (channel : List (List Int)) (width height : Nat)
    (hrows : channel.length = height) (hcols : ∀ row ∈ channel, row.length = width)
    (hh : 2 ≤ height) (hw : 2 ≤ width) :
    Syntheticness.calculateGradients channel [] []
      = some (Spec.horizontalDifferences channel width height,
              Spec.verticalDifferences channel width height) := by
  obtain ⟨hlenH, hlenV, -, -, -, -⟩ := differences_spec channel width height
  have hH : 0 < (Spec.horizontalDifferences channel width height).length := by
    rw [hlenH]; exact Nat.mul_pos (by omega) (by omega)
  have hV : 0 < (Spec.verticalDifferences channel width height).length := by
    rw [hlenV]; exact Nat.mul_pos (by omega) (by omega)
  rw [calculateGradients_eq channel width height hrows hcols (by omega) [] []]
  simp only [List.nil_append, List.getElem?_eq_getElem hH, List.getElem?_eq_getElem hV]

/-- C13 fails on the code: for the rectangular 2x1 grid `[[5], [7]]`
(`height = 2 ≥ 1`, `width = 1 ≥ 1`) the horizontal loop appends nothing, and the
log line of `calculateGradients` reads `ghor[0]` of the empty vector: the call
has undefined behaviour and returns no outputs.  The same holds for the 1x2
grid `[[5, 7]]`, where `gver` stays empty. -/
theorem C13_calculateGradients_counterexample :
    ([[5], [7]] : List (List Int)).length = 2
      ∧ (∀ row ∈ ([[5], [7]] : List (List Int)), row.length = 1)
      ∧ Syntheticness.calculateGradients [[5], [7]] [] [] = none
      ∧ Syntheticness.calculateGradients [[5, 7]] [] [] = none := by
  refine ⟨rfl, by simp, by decide, by decide⟩

/-- C13 (amended): for every rectangular channel grid with `height ≥ 2` and
`width ≥ 2` and initially empty outputs, `calculateGradients` fills `ghor` with
the horizontal differences `|channel[i][j] - channel[i][j-1]|` for all `i` and
all `j ≥ 1` in row-major order (`ghor[i*(width-1) + (j-1)]`, length
`height*(width-1)`) and `gver` with the vertical differences
`|channel[i][j] - channel[i-1][j]|` for all `i ≥ 1` and all `j` in row-major
order (`gver[(i-1)*width + j]`, length `(height-1)*width`), and every entry is
non-negative. -/
theorem C13_calculateGradients_differences (channel : List (List Int)) (width height : Nat)
    (hrows : channel.length = height) (hcols : ∀ row ∈ channel, row.length = width)
    (hh : 2 ≤ height) (hw : 2 ≤ width) :
    ∃ ghor gver : List Int,
      Syntheticness.calculateGradients channel [] [] = some (ghor, gver)
        ∧ ghor.length = height * (width - 1)
        ∧ gver.length = (height - 1) * width
        ∧ (∀ i j : Nat, i < height → 1 ≤ j → j < width →
            ghor[i * (width - 1) + (j - 1)]?
              = some |Spec.sample channel i j - Spec.sample channel i (j - 1)|)
        ∧ (∀ i j : Nat, 1 ≤ i → i < height → j < width →
            gver[(i - 1) * width + j]?
              = some |Spec.sample channel i j - Spec.sample channel (i - 1) j|)
        ∧ (∀ v ∈ ghor, 0 ≤ v)
        ∧ (∀ v ∈ gver, 0 ≤ v) := by
  obtain ⟨h1, h2, h3, h4, h5, h6⟩ := differences_spec channel width height
  exact ⟨_, _, calculateGradients_of_two_le channel width height hrows hcols hh hw,
    h1, h2, h3, h4, h5, h6⟩

/-- C13 (amended), on the 2x3 grid `[[1, 2, 4], [3, 5, 9]]`. -/
theorem C13_calculateGradients_differences_witness :
    ∃ ghor gver : List Int,
      Syntheticness.calculateGradients [[1, 2, 4], [3, 5, 9]] [] [] = some (ghor, gver)
        ∧ ghor.length = 2 * (3 - 1)
        ∧ gver.length = (2 - 1) * 3
        ∧ (∀ i j : Nat, i < 2 → 1 ≤ j → j < 3 →
            ghor[i * (3 - 1) + (j - 1)]?
              = some |Spec.sample [[1, 2, 4], [3, 5, 9]] i j
                  - Spec.sample [[1, 2, 4], [3, 5, 9]] i (j - 1)|)
        ∧ (∀ i j : Nat, 1 ≤ i → i < 2 → j < 3 →
            gver[(i - 1) * 3 + j]?
              = some |Spec.sample [[1, 2, 4], [3, 5, 9]] i j
                  - Spec.sample [[1, 2, 4], [3, 5, 9]] (i - 1) j|)
        ∧ (∀ v ∈ ghor, 0 ≤ v)
        ∧ (∀ v ∈ gver, 0 ≤ v) :=
  C13_calculateGradients_differences [[1, 2, 4], [3, 5, 9]] 3 2 rfl (by simp)
    (by decide) (by decide)

/-- C14 fails on the code: for the 2x2 grid `[[1, 2], [3, 5]]`
`calculateGradients` returns `ghor = [1, 2]` and `gver = [2, 3]`: each has two
entries, not `2 * 2`, and the first entries (for row `0`) are not `0`. -/
theorem C14_calculateGradients_counterexample :
    Syntheticness.calculateGradients [[1, 2], [3, 5]] [] [] = some ([1, 2], [2, 3])
      ∧ ([1, 2] : List Int).length ≠ 2 * 2
      ∧ ([2, 3] : List Int).length ≠ 2 * 2
      ∧ ([1, 2] : List Int)[0]? ≠ some 0
      ∧ ([2, 3] : List Int)[0]? ≠ some 0 := by
  refine ⟨by decide, by decide, by decide, by decide, by decide⟩

/-- C14 (amended): for a rectangular channel grid with `height ≥ 2` and
`width ≥ 2` and empty outputs, `calculateGradients` stores no border entries and
no sentinel: `ghor` has `height*(width-1)` entries and `gver` has
`(height-1)*width` entries, both fewer than `height*width`, one per pair of
adjacent samples, and an entry is `0` exactly when its two samples are equal. -/
theorem C14_calculateGradients_no_border (channel : List (List Int)) (width height : Nat)
    (hrows : channel.length = height) (hcols : ∀ row ∈ channel, row.length = width)
    (hh : 2 ≤ height) (hw : 2 ≤ width) :
    ∃ ghor gver : List Int,
      Syntheticness.calculateGradients channel [] [] = some (ghor, gver)
        ∧ ghor.length = height * (width - 1)
        ∧ gver.length = (height - 1) * width
        ∧ ghor.length < height * width
        ∧ gver.length < height * width
        ∧ (∀ i j : Nat, i < height → 1 ≤ j → j < width →
            (ghor[i * (width - 1) + (j - 1)]? = some 0
              ↔ Spec.sample channel i j = Spec.sample channel i (j - 1)))
        ∧ (∀ i j : Nat, 1 ≤ i → i < height → j < width →
            (gver[(i - 1) * width + j]? = some 0
              ↔ Spec.sample channel i j = Spec.sample channel (i - 1) j)) := by
  obtain ⟨h1, h2, h3, h4, -, -⟩ := differences_spec channel width height
  refine ⟨_, _, calculateGradients_of_two_le channel width height hrows hcols hh hw,
    h1, h2, ?_, ?_, ?_, ?_⟩
  · rw [h1]
    exact Nat.mul_lt_mul_of_pos_left (by omega) (by omega)
  · rw [h2]
    exact Nat.mul_lt_mul_of_pos_right (by omega) (by omega)
  · intro i j hi hj hj'
    rw [h3 i j hi hj hj', Option.some.injEq, abs_eq_zero, sub_eq_zero]
  · intro i j hi hi' hj
    rw [h4 i j hi hi' hj, Option.some.injEq, abs_eq_zero, sub_eq_zero]

/-- C14 (amended), on the 2x3 grid `[[1, 2, 4], [3, 5, 9]]`. -/
theorem C14_calculateGradients_no_border_witness :
    ∃ ghor gver : List Int,
      Syntheticness.calculateGradients [[1, 2, 4], [3, 5, 9]] [] [] = some (ghor, gver)
        ∧ ghor.length = 2 * (3 - 1)
        ∧ gver.length = (2 - 1) * 3
        ∧ ghor.length < 2 * 3
        ∧ gver.length < 2 * 3
        ∧ (∀ i j : Nat, i < 2 → 1 ≤ j → j < 3 →
            (ghor[i * (3 - 1) + (j - 1)]? = some 0
              ↔ Spec.sample [[1, 2, 4], [3, 5, 9]] i j
                  = Spec.sample [[1, 2, 4], [3, 5, 9]] i (j - 1)))
        ∧ (∀ i j : Nat, 1 ≤ i → i < 2 → j < 3 →
            (gver[(i - 1) * 3 + j]? = some 0
              ↔ Spec.sample [[1, 2, 4], [3, 5, 9]] i j
                  = Spec.sample [[1, 2, 4], [3, 5, 9]] (i - 1) j)) :=
  C14_calculateGradients_no_border [[1, 2, 4], [3, 5, 9]] 3 2 rfl (by simp)
    (by decide) (by decide)

/-- A loop whose body leaves the state as it is returns the initial state. -/
theorem foldlM_skip {σ α : Type} (body : σ → α → Option σ) (xs : List α)
    (hbody : ∀ x ∈ xs, ∀ s : σ, body s x = some s) :
    ∀ s : σ, xs.foldlM body s = some s := by
  induction xs with
  | nil => intro s; rfl
  | cons a rest ih =>
    intro s
    rw [List.foldlM_cons, hbody a (List.mem_cons_self a rest) s]
    exact ih (fun x hx => hbody x (List.mem_cons_of_mem a hx)) s

/-- With `width < 3` or `height < 3` the pixel loops of `applySobel` visit no
pixel: whatever the channel holds, the result is the resized output. -/
theorem applySobel_small (channel : List (List Int)) (gradient : List Int)
    (gradientRows : List (List Int)) (width height : Nat) (h : width < 3 ∨ height < 3) :
    SobelSyntheticness.applySobel channel gradient width height
        = some (Cxx.resize gradient (height * width) 0)
      ∧ SobelOperator.applySobel channel gradientRows width height
        = some (Cxx.resize gradientRows height (List.replicate width 0)) := by
  rcases h with hw | hh
  · have e : width - 2 = 0 := by omega
    constructor
    · simp only [SobelSyntheticness.applySobel, e, List.range'_zero, List.foldlM_nil]
      exact foldlM_skip _ _ (fun _ _ _ => rfl) _
    · simp only [SobelOperator.applySobel, e, List.range'_zero, List.foldlM_nil]
      exact foldlM_skip _ _ (fun _ _ _ => rfl) _
  · have e : height - 2 = 0 := by omega
    constructor
    · simp only [SobelSyntheticness.applySobel, e, List.range'_zero, List.foldlM_nil]
      rfl
    · simp only [SobelOperator.applySobel, e, List.range'_zero, List.foldlM_nil]
      rfl

/-- C16 fails on the code: for the 2x2 grid `[[1, 2], [3, 4]]` (below the Sobel
minimum of 3) both versions of `applySobel` return an all-zero gradient, not an
error; for the 2x1 grid `[[5], [7]]` and for the grid without rows (below the
difference minimum of 2) `calculateGradients` raises no error either: it reads
`ghor[0]` of an empty vector, respectively `channel[0]` of an empty vector. -/
theorem C16_invalid_dimensions_counterexample :
    SobelSyntheticness.applySobel [[1, 2], [3, 4]] [] 2 2 = some [0, 0, 0, 0]
      ∧ SobelOperator.applySobel [[1, 2], [3, 4]] [] 2 2 = some [[0, 0], [0, 0]]
      ∧ Syntheticness.calculateGradients [[5], [7]] [] [] = none
      ∧ ([] : List Int)[0]? = none
      ∧ Syntheticness.calculateGradients [] [] [] = none
      ∧ ([] : List (List Int))[0]? = none := by
  obtain ⟨h1, h2⟩ := applySobel_small [[1, 2], [3, 4]] [] [] 2 2 (Or.inl (by decide))
  refine ⟨?_, ?_, by decide, rfl, by decide, rfl⟩
  · rw [h1]; rfl
  · rw [h2]; rfl

/-- C16 (amended): for every channel grid whose width or height is below 3,
`applySobel` raises no `InvalidDimensions` error and reads no sample: it visits
no pixel and returns, for an initially empty output, the gradient of
`height * width` zeros (`height` rows of `width` zeros in
`sobel_operator.cpp`). -/
theorem C16_applySobel_small_returns_zeros (channel : List (List Int)) (width height : Nat)
    (h : width < 3 ∨ height < 3) :
    SobelSyntheticness.applySobel channel [] width height
        = some (List.replicate (height * width) 0)
      ∧ SobelOperator.applySobel channel [] width height
        = some (List.replicate height (List.replicate width 0)) := by
  obtain ⟨h1, h2⟩ := applySobel_small channel [] [] width height h
  rw [h1, h2, resize_nil, resize_nil]
  exact ⟨rfl, rfl⟩

/-- C16 (amended), on the 2x2 grid `[[1, 2], [3, 4]]`. -/
theorem C16_applySobel_small_returns_zeros_witness :
    SobelSyntheticness.applySobel [[1, 2], [3, 4]] [] 2 2
        = some (List.replicate (2 * 2) 0)
      ∧ SobelOperator.applySobel [[1, 2], [3, 4]] [] 2 2
        = some (List.replicate 2 (List.replicate 2 0)) :=
  C16_applySobel_small_returns_zeros [[1, 2], [3, 4]] 2 2 (Or.inl (by decide))

/-! ### Division by zero in the scorer -/

/-- The integer quotient `gmax / 2` (truncated toward zero) vanishes exactly
for `gmax` in `{-1, 0, 1}`. -/
theorem half_eq_zero_iff (gmax : Int) : gmax.tdiv 2 = 0 ↔ (-2 < gmax ∧ gmax < 2) := by
  rcases le_total 0 gmax with h | h
  · rw [Int.tdiv_eq_ediv h (by decide)]
    omega
  · obtain ⟨k, rfl⟩ : ∃ k : Int, gmax = -k := ⟨-gmax, by ring⟩
    rw [Int.neg_tdiv, Int.tdiv_eq_ediv (by omega) (by decide)]
    omega

/-- C18 fails on the code: `gmax = 1` and `gmax = -1` satisfy `gmax ≠ 0`, but
the integer quotient `gmax / 2` is `0`, so `200 / (gmax / 2)` divides by zero and
neither scorer returns a value. -/
theorem C18_gmax_ne_zero_counterexample :
    (1 : Int) ≠ 0 ∧ (-1 : Int) ≠ 0
      ∧ Cxx.idiv 1 2 = some 0 ∧ Cxx.idiv (-1) 2 = some 0 ∧ Cxx.idiv 200 0 = none
      ∧ SobelSyntheticness.calculateSyntheticness 7 1 = none
      ∧ Syntheticness.calculateSyntheticness 7 1 = none
      ∧ SobelSyntheticness.calculateSyntheticness 7 (-1) = none
      ∧ Syntheticness.calculateSyntheticness 7 (-1) = none := by
  obtain ⟨h1, h2⟩ := calculateSyntheticness_none_of_half_zero 7 1 (by decide)
  obtain ⟨h3, h4⟩ := calculateSyntheticness_none_of_half_zero 7 (-1) (by decide)
  exact ⟨by decide, by decide, by decide, by decide, by decide, h1, h2, h3, h4⟩

/-- C18 (amended): the precondition `gmax ≠ 0` is not sufficient for the scorer;
for every `g0` and every integer `gmax`, evaluating
`((g0 - gmax)/2) * (200 / (gmax/2))` in `calculateSyntheticness`, with the
integer divisions `gmax/2` and `200/(gmax/2)` as written, performs no division
by zero (and the scorer returns a value) exactly when `gmax ≤ -2` or
`gmax ≥ 2`. -/
theorem C18_scorer_defined_iff (g0 : ℚ) (gmax : Int) :
    (((Cxx.idiv gmax 2).bind fun half => Cxx.idiv 200 half) ≠ none
        ↔ (gmax ≤ -2 ∨ 2 ≤ gmax))
      ∧ ((∃ v : ℚ, SobelSyntheticness.calculateSyntheticness g0 gmax = some v)
        ↔ (gmax ≤ -2 ∨ 2 ≤ gmax))
      ∧ ((∃ v : ℚ, Syntheticness.calculateSyntheticness g0 gmax = some v)
        ↔ (gmax ≤ -2 ∨ 2 ≤ gmax)) := by
  have hz := half_eq_zero_iff gmax
  by_cases h : gmax.tdiv 2 = 0
  · have hr : ¬ (gmax ≤ -2 ∨ 2 ≤ gmax) := by have := hz.mp h; omega
    obtain ⟨hs, hy⟩ := calculateSyntheticness_none_of_half_zero g0 gmax h
    refine ⟨?_, ?_, ?_⟩
    · simp [Cxx.idiv, h, hr]
    · rw [hs]; simp [hr]
    · rw [hy]; simp [hr]
  · have hr : gmax ≤ -2 ∨ 2 ≤ gmax := by
      by_contra hcon
      exact h (hz.mpr (by omega))
    obtain ⟨hs, hy⟩ := calculateSyntheticness_eq_of_half_ne_zero g0 gmax h
    refine ⟨?_, ?_, ?_⟩
    · simp [Cxx.idiv, h, hr]
    · rw [hs]; simp [hr]
    · rw [hy]; simp [hr]

/-! ### IEEE-754 doubles and the finite model -/

/-- The product of two finite doubles is finite, with the product as value. -/
theorem Double_toRat_mul (x y : Cxx.Double) (a b : ℚ)
    (hx : x.toRat? = some a) (hy : y.toRat? = some b) :
    (Cxx.Double.mul x y).toRat? = some (a * b) := by
  cases x <;> cases y <;>
    simp only [Cxx.Double.toRat?, Option.some.injEq] at hx hy <;>
    first
    | exact Option.noConfusion hx
    | exact Option.noConfusion hy
    | (subst hx; subst hy
       simp only [Cxx.Double.mul, Cxx.Double.ofRat, Cxx.Double.zero, Cxx.Double.value]
       split_ifs <;> simp_all [Cxx.Double.toRat?])

/-- The sum of two finite doubles is finite, with the sum as value. -/
theorem Double_toRat_add (x y : Cxx.Double) (a b : ℚ)
    (hx : x.toRat? = some a) (hy : y.toRat? = some b) :
    (Cxx.Double.add x y).toRat? = some (a + b) := by
  cases x <;> cases y <;>
    simp only [Cxx.Double.toRat?, Option.some.injEq] at hx hy <;>
    first
    | exact Option.noConfusion hx
    | exact Option.noConfusion hy
    | (subst hx; subst hy
       simp [Cxx.Double.add, Cxx.Double.value, Cxx.Double.toRat?])

/-- The negation of a finite double is finite, with the negated value. -/
theorem Double_toRat_neg (x : Cxx.Double) (a : ℚ) (hx : x.toRat? = some a) :
    (Cxx.Double.neg x).toRat? = some (-a) := by
  cases x <;> simp only [Cxx.Double.toRat?, Option.some.injEq] at hx <;>
    first
    | exact Option.noConfusion hx
    | (subst hx
       simp only [Cxx.Double.neg]
       first
       | (split_ifs <;> simp_all [Cxx.Double.toRat?])
       | simp [Cxx.Double.toRat?])

/-- The difference of two finite doubles is finite, with the difference as
value. -/
theorem Double_toRat_sub (x y : Cxx.Double) (a b : ℚ)
    (hx : x.toRat? = some a) (hy : y.toRat? = some b) :
    (Cxx.Double.sub x y).toRat? = some (a - b) := by
  rw [Cxx.Double.sub, Double_toRat_add x _ a (-b) hx (Double_toRat_neg y b hy), sub_eq_add_neg]

/-- The quotient of two finite doubles is the quotient of the finite model: not
finite for a zero divisor, the rational quotient otherwise. -/
theorem Double_toRat_div (x y : Cxx.Double) (a b : ℚ)
    (hx : x.toRat? = some a) (hy : y.toRat? = some b) :
    (Cxx.Double.div x y).toRat? = Cxx.fdiv a b := by
  cases x <;> cases y <;>
    simp only [Cxx.Double.toRat?, Option.some.injEq] at hx hy <;>
    first
    | exact Option.noConfusion hx
    | exact Option.noConfusion hy
    | (subst hx; subst hy
       simp only [Cxx.Double.div, Cxx.Double.ofRat, Cxx.Double.zero, Cxx.Double.value,
         Cxx.Double.isZero, Cxx.fdiv]
       split_ifs <;> simp_all [Cxx.Double.toRat?])

/-- An infinity or NaN times a finite double is an infinity or NaN. -/
theorem Double_nonfinite_mul (x y : Cxx.Double) (b : ℚ)
    (hx : x.toRat? = none) (hy : y.toRat? = some b) :
    (Cxx.Double.mul x y).toRat? = none := by
  cases x <;> cases y <;> simp only [Cxx.Double.toRat?] at hx hy <;>
    first
    | exact Option.noConfusion hx
    | exact Option.noConfusion hy
    | (simp only [Cxx.Double.mul]
       first
       | rfl
       | (split_ifs <;> rfl))

/-- A finite double minus an infinity or NaN is an infinity or NaN. -/
theorem Double_sub_nonfinite (x y : Cxx.Double) (a : ℚ)
    (hx : x.toRat? = some a) (hy : y.toRat? = none) :
    (Cxx.Double.sub x y).toRat? = none := by
  cases x <;> cases y <;> simp only [Cxx.Double.toRat?] at hx hy <;>
    first
    | exact Option.noConfusion hx
    | exact Option.noConfusion hy
    | rfl

/-- The negation of an infinity or NaN is an infinity or NaN. -/
theorem Double_neg_nonfinite (x : Cxx.Double) (hx : x.toRat? = none) :
    (Cxx.Double.neg x).toRat? = none := by
  cases x <;> simp only [Cxx.Double.toRat?] at hx <;>
    first
    | exact Option.noConfusion hx
    | rfl

/-- An infinity or NaN divided by any double is an infinity or NaN. -/
theorem Double_nonfinite_div (x y : Cxx.Double) (hx : x.toRat? = none) :
    (Cxx.Double.div x y).toRat? = none := by
  cases x <;> cases y <;> simp only [Cxx.Double.toRat?] at hx <;>
    first
    | exact Option.noConfusion hx
    | rfl

/-- The three quotients of `fitRegressionLine` on IEEE-754 doubles, for finite
sums: their finite values are the quotients of the finite model, and a result
that is not finite stays not finite in the later quotients. -/
theorem fit_quotients_project (total sx sy sxy sx2 : ℚ) :
    (Cxx.Double.div
        (Cxx.Double.sub (Cxx.Double.mul (Cxx.Double.finite total) (Cxx.Double.finite sxy))
          (Cxx.Double.mul (Cxx.Double.finite sx) (Cxx.Double.finite sy)))
        (Cxx.Double.sub (Cxx.Double.mul (Cxx.Double.finite total) (Cxx.Double.finite sx2))
          (Cxx.Double.mul (Cxx.Double.finite sx) (Cxx.Double.finite sx)))).toRat?
        = Cxx.fdiv (total * sxy - sx * sy) (total * sx2 - sx * sx)
      ∧ (Cxx.Double.div
          (Cxx.Double.sub (Cxx.Double.finite sy)
            (Cxx.Double.mul
              (Cxx.Double.div
                (Cxx.Double.sub
                  (Cxx.Double.mul (Cxx.Double.finite total) (Cxx.Double.finite sxy))
                  (Cxx.Double.mul (Cxx.Double.finite sx) (Cxx.Double.finite sy)))
                (Cxx.Double.sub
                  (Cxx.Double.mul (Cxx.Double.finite total) (Cxx.Double.finite sx2))
                  (Cxx.Double.mul (Cxx.Double.finite sx) (Cxx.Double.finite sx))))
              (Cxx.Double.finite sx)))
          (Cxx.Double.finite total)).toRat?
        = (Cxx.fdiv (total * sxy - sx * sy) (total * sx2 - sx * sx)).bind
            (fun s => Cxx.fdiv (sy - s * sx) total)
      ∧ (Cxx.Double.div
          (Cxx.Double.neg
            (Cxx.Double.div
              (Cxx.Double.sub (Cxx.Double.finite sy)
                (Cxx.Double.mul
                  (Cxx.Double.div
                    (Cxx.Double.sub
                      (Cxx.Double.mul (Cxx.Double.finite total) (Cxx.Double.finite sxy))
                      (Cxx.Double.mul (Cxx.Double.finite sx) (Cxx.Double.finite sy)))
                    (Cxx.Double.sub
                      (Cxx.Double.mul (Cxx.Double.finite total) (Cxx.Double.finite sx2))
                      (Cxx.Double.mul (Cxx.Double.finite sx) (Cxx.Double.finite sx))))
                  (Cxx.Double.finite sx)))
              (Cxx.Double.finite total)))
          (Cxx.Double.div
            (Cxx.Double.sub (Cxx.Double.mul (Cxx.Double.finite total) (Cxx.Double.finite sxy))
              (Cxx.Double.mul (Cxx.Double.finite sx) (Cxx.Double.finite sy)))
            (Cxx.Double.sub (Cxx.Double.mul (Cxx.Double.finite total) (Cxx.Double.finite sx2))
              (Cxx.Double.mul (Cxx.Double.finite sx) (Cxx.Double.finite sx))))).toRat?
        = ((Cxx.fdiv (total * sxy - sx * sy) (total * sx2 - sx * sx)).bind
            (fun s => Cxx.fdiv (sy - s * sx) total)).bind
            (fun c => (Cxx.fdiv (total * sxy - sx * sy) (total * sx2 - sx * sx)).bind
              (fun s => Cxx.fdiv (-c) s)) := by
  have hfin : ∀ q : ℚ, (Cxx.Double.finite q).toRat? = some q := fun _ => rfl
  have hnum := Double_toRat_sub _ _ _ _
    (Double_toRat_mul _ _ _ _ (hfin total) (hfin sxy))
    (Double_toRat_mul _ _ _ _ (hfin sx) (hfin sy))
  have hden := Double_toRat_sub _ _ _ _
    (Double_toRat_mul _ _ _ _ (hfin total) (hfin sx2))
    (Double_toRat_mul _ _ _ _ (hfin sx) (hfin sx))
  have hslope := Double_toRat_div _ _ _ _ hnum hden
  generalize Cxx.Double.div
      (Cxx.Double.sub (Cxx.Double.mul (Cxx.Double.finite total) (Cxx.Double.finite sxy))
        (Cxx.Double.mul (Cxx.Double.finite sx) (Cxx.Double.finite sy)))
      (Cxx.Double.sub (Cxx.Double.mul (Cxx.Double.finite total) (Cxx.Double.finite sx2))
        (Cxx.Double.mul (Cxx.Double.finite sx) (Cxx.Double.finite sx))) = slope at hslope ⊢
  generalize Cxx.fdiv (total * sxy - sx * sy) (total * sx2 - sx * sx) = slopeQ at hslope ⊢
  cases slopeQ with
  | none =>
    have hint : (Cxx.Double.div
        (Cxx.Double.sub (Cxx.Double.finite sy) (Cxx.Double.mul slope (Cxx.Double.finite sx)))
        (Cxx.Double.finite total)).toRat? = none :=
      Double_nonfinite_div _ _
        (Double_sub_nonfinite _ _ _ (hfin sy) (Double_nonfinite_mul _ _ _ hslope (hfin sx)))
    exact ⟨hslope, hint, Double_nonfinite_div _ _ (Double_neg_nonfinite _ hint)⟩
  | some s =>
    have hint := Double_toRat_div _ _ _ _
      (Double_toRat_sub _ _ _ _ (hfin sy) (Double_toRat_mul _ _ _ _ hslope (hfin sx)))
      (hfin total)
    refine ⟨hslope, hint, ?_⟩
    generalize Cxx.Double.div
        (Cxx.Double.sub (Cxx.Double.finite sy) (Cxx.Double.mul slope (Cxx.Double.finite sx)))
        (Cxx.Double.finite total) = intercept at hint ⊢
    simp only [Option.some_bind]
    generalize Cxx.fdiv (sy - s * sx) total = interceptQ at hint ⊢
    cases interceptQ with
    | none => exact Double_nonfinite_div _ _ (Double_neg_nonfinite _ hint)
    | some c =>
      simp only [Option.some_bind]
      exact Double_toRat_div _ _ _ _ (Double_toRat_neg _ _ hint) hslope

/-- The function `fitRegressionLine` on IEEE-754 doubles agrees with the finite
model: it returns under the same conditions, with the same `gmax`, and each of
`slope`, `intercept`, `g0` has the finite value of the finite model, or is an
infinity or NaN where the finite model has no value. -/
theorem ieee_fitRegressionLine_project (histogram : List Int) :
    (Ieee.fitRegressionLine histogram).map
        (fun r => ({ slope := r.slope.toRat?, intercept := r.intercept.toRat?,
                     gmax := r.gmax, g0 := r.g0.toRat? } : RegressionFit))
      = SobelSyntheticness.fitRegressionLine histogram := by
  have hloop := regression_loop histogram histogram.length le_rfl ⟨0, 0, 0, 0⟩
  by_cases h0 : histogram.length = 0
  · have hnil : histogram = [] := List.length_eq_zero.mp h0
    subst hnil
    rfl
  · have hlast : (Cxx.iota histogram.length)[histogram.length - 1]?
        = some ((histogram.length - 1 : Nat) : Int) :=
      iota_getElem? histogram.length (histogram.length - 1) (by omega)
    obtain ⟨h1, h2, h3⟩ := fit_quotients_project
      ((histogram.foldl (fun acc h => acc + h) 0 : Int) : ℚ)
      ((0 : ℚ) + ∑ i ∈ Finset.range histogram.length, (i : ℚ))
      ((0 : ℚ) + ∑ i ∈ Finset.range histogram.length, ((histogram.getD i 0 : Int) : ℚ))
      ((0 : ℚ) + ∑ i ∈ Finset.range histogram.length,
        (i : ℚ) * ((histogram.getD i 0 : Int) : ℚ))
      ((0 : ℚ) + ∑ i ∈ Finset.range histogram.length, (i : ℚ) ^ 2)
    simp only [Ieee.fitRegressionLine, SobelSyntheticness.fitRegressionLine, hloop,
      Option.bind_eq_bind, Option.some_bind, h0, if_false, hlast, Option.map_some',
      Cxx.Double.ofInt, h1, h2, h3]

/-- Comparing two finite doubles compares their values. -/
theorem Double_le_finite (x y : Cxx.Double) (a b : ℚ)
    (hx : x.toRat? = some a) (hy : y.toRat? = some b) :
    Cxx.Double.le x y = decide (a ≤ b) := by
  cases x <;> cases y <;>
    simp only [Cxx.Double.toRat?, Option.some.injEq] at hx hy <;>
    first
    | exact Option.noConfusion hx
    | exact Option.noConfusion hy
    | (subst hx; subst hy; rfl)

/-- With a zero inner quotient `gmax / 2` the scorers on IEEE-754 doubles divide
by zero in `200 / (gmax / 2)`, whatever `g0` is. -/
theorem ieee_calculateSyntheticness_none_of_half_zero (g0 : Cxx.Double) (gmax : Int)
    (h : gmax.tdiv 2 = 0) :
    Ieee.SobelSyntheticness.calculateSyntheticness g0 gmax = none
      ∧ Ieee.Syntheticness.calculateSyntheticness g0 gmax = none := by
  constructor
  · simp [Ieee.SobelSyntheticness.calculateSyntheticness, Cxx.idiv, h]
  · simp [Ieee.Syntheticness.calculateSyntheticness, Cxx.idiv, h]

/-- NaN propagates through the arithmetic of the scorer, and every comparison
with a NaN is false. -/
theorem Double_nan_propagates (y : Cxx.Double) :
    Cxx.Double.sub Cxx.Double.nan y = Cxx.Double.nan
      ∧ Cxx.Double.div Cxx.Double.nan y = Cxx.Double.nan
      ∧ Cxx.Double.mul Cxx.Double.nan y = Cxx.Double.nan
      ∧ Cxx.Double.le y Cxx.Double.nan = false
      ∧ Cxx.Double.le Cxx.Double.nan y = false := by
  cases y <;> simp [Cxx.Double.sub, Cxx.Double.add, Cxx.Double.div, Cxx.Double.mul,
    Cxx.Double.le]

/-- With a non-zero inner quotient `gmax / 2` the scorers return a NaN argument
as it is: the product is NaN and both clamping comparisons are false. -/
theorem ieee_calculateSyntheticness_nan (gmax : Int) (h : gmax.tdiv 2 ≠ 0) :
    Ieee.SobelSyntheticness.calculateSyntheticness Cxx.Double.nan gmax = some Cxx.Double.nan
      ∧ Ieee.Syntheticness.calculateSyntheticness Cxx.Double.nan gmax
          = some Cxx.Double.nan := by
  have hidiv2 : Cxx.idiv gmax 2 = some (gmax.tdiv 2) := by simp [Cxx.idiv]
  have hidiv : Cxx.idiv 200 (gmax.tdiv 2) = some ((200 : Int).tdiv (gmax.tdiv 2)) := by
    simp [Cxx.idiv, h]
  have e1 := (Double_nan_propagates (Cxx.Double.ofInt gmax)).1
  have e2 := (Double_nan_propagates (Cxx.Double.ofInt 2)).2.1
  have e3 := (Double_nan_propagates (Cxx.Double.ofInt ((200 : Int).tdiv (gmax.tdiv 2)))).2.2.1
  have e4 := (Double_nan_propagates (Cxx.Double.ofInt 200)).2.2.2.1
  have e5 := (Double_nan_propagates (Cxx.Double.ofInt 0)).2.2.2.2
  constructor
  · simp only [Ieee.SobelSyntheticness.calculateSyntheticness, hidiv2, hidiv,
      Option.bind_eq_bind, Option.some_bind, e1, e2, e3, e4, e5]
    rfl
  · simp only [Ieee.Syntheticness.calculateSyntheticness, hidiv2, hidiv,
      Option.bind_eq_bind, Option.some_bind, e1, e2, e3, e4, e5]
    rfl

/-- The two clamps of the scorers on a finite product `sy_prime` agree with the
clamps of the finite model. -/
theorem ieee_clamp_project (sy : Cxx.Double) (raw : ℚ) (hsy : sy.toRat? = some raw) :
    ((if Cxx.Double.le (Cxx.Double.ofInt 200) sy = true then some (Cxx.Double.ofInt 200)
        else if Cxx.Double.le sy (Cxx.Double.ofInt 0) = true then some (Cxx.Double.ofInt 0)
        else some sy).map Cxx.Double.toRat?
        = (if 200 ≤ raw then some 200 else if raw ≤ 0 then some 0 else some raw).map some)
      ∧ ((some
            (if Cxx.Double.le
                  (if Cxx.Double.le (Cxx.Double.ofInt 200) sy = true then Cxx.Double.ofInt 200
                    else sy)
                  (Cxx.Double.ofInt 0) = true
              then Cxx.Double.ofInt 0
              else if Cxx.Double.le (Cxx.Double.ofInt 200) sy = true then Cxx.Double.ofInt 200
                else sy)).map Cxx.Double.toRat?
          = (some
              (if (if 200 ≤ raw then 200 else raw) ≤ 0 then 0
                else if 200 ≤ raw then 200 else raw)).map some) := by
  have hfin : ∀ n : Int, (Cxx.Double.ofInt n).toRat? = some (n : ℚ) := fun _ => rfl
  have h200 := Double_le_finite _ _ _ _ (hfin 200) hsy
  have h0 := Double_le_finite _ _ _ _ hsy (hfin 0)
  have e200 : (Cxx.Double.ofInt 200).toRat? = some 200 := rfl
  have e0 : (Cxx.Double.ofInt 0).toRat? = some 0 := rfl
  have c200 : (((200 : Int) : ℚ) ≤ raw) ↔ (200 ≤ raw) := by norm_num
  have c0 : (raw ≤ ((0 : Int) : ℚ)) ↔ (raw ≤ 0) := by norm_num
  simp only [c200, c0] at h200 h0
  have hl : Cxx.Double.le (Cxx.Double.ofInt 200) (Cxx.Double.ofInt 0) = false := by
    decide
  rw [h200, h0]
  by_cases c1 : 200 ≤ raw
  · have c2 : ¬ ((200 : ℚ) ≤ 0) := by norm_num
    simp [c1, c2, hl, e200]
  · by_cases c2 : raw ≤ 0
    · simp [c1, c2, e0, h0]
    · simp [c1, c2, hsy, h0]

/-- On a finite `g0` the scorers on IEEE-754 doubles agree with the finite
model: they return under the same conditions, and the returned double is finite
with the value of the finite model. -/
theorem ieee_calculateSyntheticness_project (g0 : Cxx.Double) (q : ℚ)
    (hq : g0.toRat? = some q) (gmax : Int) :
    (Ieee.SobelSyntheticness.calculateSyntheticness g0 gmax).map Cxx.Double.toRat?
        = (SobelSyntheticness.calculateSyntheticness q gmax).map some
      ∧ (Ieee.Syntheticness.calculateSyntheticness g0 gmax).map Cxx.Double.toRat?
        = (Syntheticness.calculateSyntheticness q gmax).map some := by
  by_cases h : gmax.tdiv 2 = 0
  · obtain ⟨h1, h2⟩ := ieee_calculateSyntheticness_none_of_half_zero g0 gmax h
    obtain ⟨h3, h4⟩ := calculateSyntheticness_none_of_half_zero q gmax h
    rw [h1, h2, h3, h4]
    exact ⟨rfl, rfl⟩
  · have hfin : ∀ n : Int, (Cxx.Double.ofInt n).toRat? = some (n : ℚ) := fun _ => rfl
    have hsy := Double_toRat_mul _ _ _ _
      ((Double_toRat_div _ _ _ _ (Double_toRat_sub _ _ _ _ hq (hfin gmax)) (hfin 2)).trans
        (show Cxx.fdiv (q - (gmax : ℚ)) ((2 : Int) : ℚ) = some ((q - (gmax : ℚ)) / 2) by
          simp [Cxx.fdiv]))
      (hfin ((200 : Int).tdiv (gmax.tdiv 2)))
    obtain ⟨k1, k2⟩ := ieee_clamp_project _ _ hsy
    have hidiv2 : Cxx.idiv gmax 2 = some (gmax.tdiv 2) := by simp [Cxx.idiv]
    have hidiv : Cxx.idiv 200 (gmax.tdiv 2) = some ((200 : Int).tdiv (gmax.tdiv 2)) := by
      simp [Cxx.idiv, h]
    constructor
    · simp only [Ieee.SobelSyntheticness.calculateSyntheticness,
        SobelSyntheticness.calculateSyntheticness, hidiv2, hidiv, Option.bind_eq_bind,
        Option.some_bind]
      exact k1
    · simp only [Ieee.Syntheticness.calculateSyntheticness,
        Syntheticness.calculateSyntheticness, hidiv2, hidiv, Option.bind_eq_bind,
        Option.some_bind]
      exact k2

/-- On a non-empty histogram `fitRegressionLine` on IEEE-754 doubles returns,
with the sums of the specification: the three quotients of the code and
`gmax = bin_count - 1`. -/
theorem ieee_fitRegressionLine_eq (histogram : List Int) (hne : histogram ≠ []) :
    Ieee.fitRegressionLine histogram
      = some
          { slope :=
              Cxx.Double.div
                (Cxx.Double.sub
                  (Cxx.Double.mul (Cxx.Double.finite (Spec.n histogram))
                    (Cxx.Double.finite (Spec.sumXY histogram)))
                  (Cxx.Double.mul (Cxx.Double.finite (Spec.sumX histogram))
                    (Cxx.Double.finite (Spec.sumY histogram))))
                (Cxx.Double.sub
                  (Cxx.Double.mul (Cxx.Double.finite (Spec.n histogram))
                    (Cxx.Double.finite (Spec.sumX2 histogram)))
                  (Cxx.Double.mul (Cxx.Double.finite (Spec.sumX histogram))
                    (Cxx.Double.finite (Spec.sumX histogram)))),
            intercept :=
              Cxx.Double.div
                (Cxx.Double.sub (Cxx.Double.finite (Spec.sumY histogram))
                  (Cxx.Double.mul
                    (Cxx.Double.div
                      (Cxx.Double.sub
                        (Cxx.Double.mul (Cxx.Double.finite (Spec.n histogram))
                          (Cxx.Double.finite (Spec.sumXY histogram)))
                        (Cxx.Double.mul (Cxx.Double.finite (Spec.sumX histogram))
                          (Cxx.Double.finite (Spec.sumY histogram))))
                      (Cxx.Double.sub
                        (Cxx.Double.mul (Cxx.Double.finite (Spec.n histogram))
                          (Cxx.Double.finite (Spec.sumX2 histogram)))
                        (Cxx.Double.mul (Cxx.Double.finite (Spec.sumX histogram))
                          (Cxx.Double.finite (Spec.sumX histogram)))))
                    (Cxx.Double.finite (Spec.sumX histogram))))
                (Cxx.Double.finite (Spec.n histogram)),
            gmax := (histogram.length : Int) - 1,
            g0 :=
              Cxx.Double.div
                (Cxx.Double.neg
                  (Cxx.Double.div
                    (Cxx.Double.sub (Cxx.Double.finite (Spec.sumY histogram))
                      (Cxx.Double.mul
                        (Cxx.Double.div
                          (Cxx.Double.sub
                            (Cxx.Double.mul (Cxx.Double.finite (Spec.n histogram))
                              (Cxx.Double.finite (Spec.sumXY histogram)))
                            (Cxx.Double.mul (Cxx.Double.finite (Spec.sumX histogram))
                              (Cxx.Double.finite (Spec.sumY histogram))))
                          (Cxx.Double.sub
                            (Cxx.Double.mul (Cxx.Double.finite (Spec.n histogram))
                              (Cxx.Double.finite (Spec.sumX2 histogram)))
                            (Cxx.Double.mul (Cxx.Double.finite (Spec.sumX histogram))
                              (Cxx.Double.finite (Spec.sumX histogram)))))
                        (Cxx.Double.finite (Spec.sumX histogram))))
                    (Cxx.Double.finite (Spec.n histogram))))
                (Cxx.Double.div
                  (Cxx.Double.sub
                    (Cxx.Double.mul (Cxx.Double.finite (Spec.n histogram))
                      (Cxx.Double.finite (Spec.sumXY histogram)))
                    (Cxx.Double.mul (Cxx.Double.finite (Spec.sumX histogram))
                      (Cxx.Double.finite (Spec.sumY histogram))))
                  (Cxx.Double.sub
                    (Cxx.Double.mul (Cxx.Double.finite (Spec.n histogram))
                      (Cxx.Double.finite (Spec.sumX2 histogram)))
                    (Cxx.Double.mul (Cxx.Double.finite (Spec.sumX histogram))
                      (Cxx.Double.finite (Spec.sumX histogram))))) } := by
  have hpos : 0 < histogram.length := List.length_pos.mpr hne
  have hloop := regression_loop histogram histogram.length le_rfl ⟨0, 0, 0, 0⟩
  have hlast : (Cxx.iota histogram.length)[histogram.length - 1]?
      = some ((histogram.length : Int) - 1) := by
    rw [iota_getElem? histogram.length (histogram.length - 1) (by omega)]
    congr 1
    omega
  have h0 : histogram.length ≠ 0 := by omega
  simp only [Ieee.fitRegressionLine, hloop, Option.bind_eq_bind,
    Option.some_bind, zero_add, accumulate_eq_n, h0, if_false, hlast, Cxx.Double.ofInt]
  rfl

/-- The arithmetic of IEEE-754 doubles on finite operands, for evaluating the
fit on concrete sums: products and differences of finite values, and quotients
by a non-zero finite value. -/
theorem Double_finite_arith (a b : ℚ) :
    (a * b ≠ 0 → Cxx.Double.mul (Cxx.Double.finite a) (Cxx.Double.finite b)
        = Cxx.Double.finite (a * b))
      ∧ (0 ≤ a → 0 ≤ b → Cxx.Double.mul (Cxx.Double.finite a) (Cxx.Double.finite b)
        = Cxx.Double.finite (a * b))
      ∧ Cxx.Double.sub (Cxx.Double.finite a) (Cxx.Double.finite b) = Cxx.Double.finite (a - b)
      ∧ (b ≠ 0 → a ≠ 0 → Cxx.Double.div (Cxx.Double.finite a) (Cxx.Double.finite b)
        = Cxx.Double.finite (a / b))
      ∧ (a ≠ 0 → Cxx.Double.div (Cxx.Double.finite a) (Cxx.Double.finite 0)
        = Cxx.Double.inf (decide (a < 0)))
      ∧ Cxx.Double.div (Cxx.Double.finite 0) (Cxx.Double.finite 0) = Cxx.Double.nan := by
  refine ⟨?_, ?_, ?_, ?_, ?_, ?_⟩
  · intro h
    simp [Cxx.Double.mul, Cxx.Double.ofRat, Cxx.Double.value, h]
  · intro ha hb
    by_cases h : a * b = 0
    · have ha' : ¬ a < 0 := not_lt.mpr ha
      have hb' : ¬ b < 0 := not_lt.mpr hb
      simp [Cxx.Double.mul, Cxx.Double.ofRat, Cxx.Double.value, Cxx.Double.zero,
        Cxx.Double.signBit, h, ha', hb']
    · simp [Cxx.Double.mul, Cxx.Double.ofRat, Cxx.Double.value, h]
  · by_cases hb : b = 0
    · subst hb
      simp [Cxx.Double.sub, Cxx.Double.neg, Cxx.Double.add, Cxx.Double.value]
    · simp [Cxx.Double.sub, Cxx.Double.neg, Cxx.Double.add, Cxx.Double.value, hb,
        sub_eq_add_neg]
  · intro hb ha
    have hq : a / b ≠ 0 := div_ne_zero ha hb
    simp [Cxx.Double.div, Cxx.Double.ofRat, Cxx.Double.value, Cxx.Double.isZero, hb, hq]
  · intro ha
    simp [Cxx.Double.div, Cxx.Double.isZero, Cxx.Double.signBit, ha]
  · simp [Cxx.Double.div, Cxx.Double.isZero]

/-- The sums of the specification on the histogram `[1, 1]`. -/
theorem spec_sums_one_one :
    Spec.n [1, 1] = 2 ∧ Spec.sumX [1, 1] = 1 ∧ Spec.sumY [1, 1] = 2
      ∧ Spec.sumXY [1, 1] = 1 ∧ Spec.sumX2 [1, 1] = 1 := by
  refine ⟨?_, ?_, ?_, ?_, ?_⟩ <;>
    norm_num [Spec.n, Spec.sumY, Spec.sumX, Spec.sumXY, Spec.sumX2, Finset.sum_range_succ]

/-- The sums of the specification on the histogram `[0, 0, 0]`. -/
theorem spec_sums_three_zeros :
    Spec.n [0, 0, 0] = 0 ∧ Spec.sumX [0, 0, 0] = 3 ∧ Spec.sumY [0, 0, 0] = 0
      ∧ Spec.sumXY [0, 0, 0] = 0 ∧ Spec.sumX2 [0, 0, 0] = 5 := by
  refine ⟨?_, ?_, ?_, ?_, ?_⟩ <;>
    norm_num [Spec.n, Spec.sumY, Spec.sumX, Spec.sumXY, Spec.sumX2, Finset.sum_range_succ]

/-- The fit of the histogram `[1, 1]` on IEEE-754 doubles: the slope is `0` and
`g0 = -1 / 0` is `-inf`. -/
theorem ieee_fit_one_one :
    Ieee.fitRegressionLine [1, 1]
      = some { slope := Cxx.Double.finite 0, intercept := Cxx.Double.finite 1, gmax := 1,
               g0 := Cxx.Double.inf true } := by
  obtain ⟨hn, hx, hy, hxy, hx2⟩ := spec_sums_one_one
  rw [ieee_fitRegressionLine_eq _ (by simp), hn, hx, hy, hxy, hx2]
  norm_num [Cxx.Double.mul, Cxx.Double.sub, Cxx.Double.add, Cxx.Double.neg,
    Cxx.Double.div, Cxx.Double.ofRat, Cxx.Double.zero, Cxx.Double.value, Cxx.Double.isZero,
    Cxx.Double.signBit]

/-- The fit of the histogram `[0, 0, 0]` on IEEE-754 doubles: the total count is
`0`, the intercept `0 / 0` is NaN and so is `g0`. -/
theorem ieee_fit_three_zeros :
    Ieee.fitRegressionLine [0, 0, 0]
      = some { slope := Cxx.Double.negZero, intercept := Cxx.Double.nan, gmax := 2,
               g0 := Cxx.Double.nan } := by
  obtain ⟨hn, hx, hy, hxy, hx2⟩ := spec_sums_three_zeros
  rw [ieee_fitRegressionLine_eq _ (by simp), hn, hx, hy, hxy, hx2]
  norm_num [Cxx.Double.mul, Cxx.Double.sub, Cxx.Double.add, Cxx.Double.neg,
    Cxx.Double.div, Cxx.Double.ofRat, Cxx.Double.zero, Cxx.Double.value, Cxx.Double.isZero,
    Cxx.Double.signBit]

/-- C15 fails on the code: on the histogram `[1, 1]` (fitted slope `0`) and on
the histogram `[0, 0, 0]` (total count `0`) `fitRegressionLine` raises no error:
it returns, with `gmax` set, a `g0` that is `-inf`, respectively NaN (no finite
value in the finite model). -/
theorem C15_degenerate_histogram_counterexample :
    Ieee.fitRegressionLine [1, 1]
        = some { slope := Cxx.Double.finite 0, intercept := Cxx.Double.finite 1, gmax := 1,
                 g0 := Cxx.Double.inf true }
      ∧ SobelSyntheticness.fitRegressionLine [1, 1]
        = some { slope := some 0, intercept := some 1, gmax := 1, g0 := none }
      ∧ Syntheticness.fitRegressionLine [1, 1]
        = some { slope := some 0, intercept := some 1, gmax := 1, g0 := none }
      ∧ Ieee.fitRegressionLine [0, 0, 0]
        = some { slope := Cxx.Double.negZero, intercept := Cxx.Double.nan, gmax := 2,
                 g0 := Cxx.Double.nan }
      ∧ SobelSyntheticness.fitRegressionLine [0, 0, 0]
        = some { slope := some 0, intercept := none, gmax := 2, g0 := none }
      ∧ Syntheticness.fitRegressionLine [0, 0, 0]
        = some { slope := some 0, intercept := none, gmax := 2, g0 := none } := by
  have p1 := ieee_fitRegressionLine_project [1, 1]
  have p2 := ieee_fitRegressionLine_project [0, 0, 0]
  rw [ieee_fit_one_one] at p1
  rw [ieee_fit_three_zeros] at p2
  simp only [Option.map_some', Cxx.Double.toRat?] at p1 p2
  refine ⟨ieee_fit_one_one, p1.symm, ?_, ieee_fit_three_zeros, p2.symm, ?_⟩
  · rw [fitRegressionLine_versions_eq]; exact p1.symm
  · rw [fitRegressionLine_versions_eq]; exact p2.symm

/-- C15 (amended): for every non-empty histogram whose fitted slope is `0` (with
a non-zero regression denominator) or whose total count `n` is `0`,
`fitRegressionLine` raises no error: it returns, sets `gmax = bin_count - 1`, and
the `g0` it returns is the result of a floating-point division by zero, an
infinity or a NaN and not a finite number. -/
theorem C15_fitRegressionLine_degenerate_g0 (histogram : List Int) (hne : histogram ≠ [])
    (hdeg : (Spec.denominator histogram ≠ 0 ∧ Spec.slope histogram = 0)
      ∨ Spec.n histogram = 0) :
    (∃ d : Ieee.RegressionFit, Ieee.fitRegressionLine histogram = some d
        ∧ d.gmax = (histogram.length : Int) - 1
        ∧ ((∃ negative : Bool, d.g0 = Cxx.Double.inf negative) ∨ d.g0 = Cxx.Double.nan))
      ∧ (∃ r : RegressionFit, SobelSyntheticness.fitRegressionLine histogram = some r
        ∧ Syntheticness.fitRegressionLine histogram = some r
        ∧ r.gmax = (histogram.length : Int) - 1
        ∧ r.g0 = none) := by
  have key := fitRegressionLine_eq histogram hne
  have hg0 : ((Cxx.fdiv
        (Spec.n histogram * Spec.sumXY histogram - Spec.sumX histogram * Spec.sumY histogram)
        (Spec.n histogram * Spec.sumX2 histogram
          - Spec.sumX histogram * Spec.sumX histogram)).bind
        fun s => Cxx.fdiv (Spec.sumY histogram - s * Spec.sumX histogram)
          (Spec.n histogram)).bind
        (fun c =>
          (Cxx.fdiv
            (Spec.n histogram * Spec.sumXY histogram
              - Spec.sumX histogram * Spec.sumY histogram)
            (Spec.n histogram * Spec.sumX2 histogram
              - Spec.sumX histogram * Spec.sumX histogram)).bind
            fun s => Cxx.fdiv (-c) s) = none := by
    rcases hdeg with ⟨hden, hslope⟩ | hn
    · have hden' : Spec.n histogram * Spec.sumX2 histogram
          - Spec.sumX histogram * Spec.sumX histogram ≠ 0 := by
        have e : Spec.n histogram * Spec.sumX2 histogram
            - Spec.sumX histogram * Spec.sumX histogram = Spec.denominator histogram := by
          rw [Spec.denominator]; ring
        rw [e]; exact hden
      have hsl : Cxx.fdiv
          (Spec.n histogram * Spec.sumXY histogram
            - Spec.sumX histogram * Spec.sumY histogram)
          (Spec.n histogram * Spec.sumX2 histogram
            - Spec.sumX histogram * Spec.sumX histogram) = some 0 := by
        rw [Cxx.fdiv, if_neg hden', ← hslope, Spec.slope, Spec.denominator]
        congr 2; ring
      rw [hsl]
      simp only [Option.some_bind]
      cases Cxx.fdiv (Spec.sumY histogram - 0 * Spec.sumX histogram) (Spec.n histogram) with
      | none => rfl
      | some c => simp [Cxx.fdiv]
    · rw [hn]
      cases Cxx.fdiv (0 * Spec.sumXY histogram - Spec.sumX histogram * Spec.sumY histogram)
          (0 * Spec.sumX2 histogram - Spec.sumX histogram * Spec.sumX histogram) with
      | none => rfl
      | some s => simp [Cxx.fdiv]
  rw [hg0] at key
  have hproj := ieee_fitRegressionLine_project histogram
  rw [key] at hproj
  cases hd : Ieee.fitRegressionLine histogram with
  | none => rw [hd] at hproj; exact Option.noConfusion hproj
  | some d =>
    rw [hd, Option.map_some', Option.some.injEq] at hproj
    have hgm : d.gmax = (histogram.length : Int) - 1 := congrArg RegressionFit.gmax hproj
    have hgz : d.g0.toRat? = none := congrArg RegressionFit.g0 hproj
    refine ⟨⟨d, rfl, hgm, ?_⟩, ⟨_, key, by rw [fitRegressionLine_versions_eq, key], rfl, rfl⟩⟩
    cases hv : d.g0 with
    | finite q => rw [hv] at hgz; exact Option.noConfusion hgz
    | negZero => rw [hv] at hgz; exact Option.noConfusion hgz
    | inf negative => exact Or.inl ⟨negative, rfl⟩
    | nan => exact Or.inr rfl

/-- C15 (amended), on the histogram `[1, 1]`: the regression denominator is `1`
and the fitted slope is `0`. -/
theorem C15_fitRegressionLine_degenerate_g0_witness :
    (∃ d : Ieee.RegressionFit, Ieee.fitRegressionLine [1, 1] = some d
        ∧ d.gmax = (([1, 1] : List Int).length : Int) - 1
        ∧ ((∃ negative : Bool, d.g0 = Cxx.Double.inf negative) ∨ d.g0 = Cxx.Double.nan))
      ∧ (∃ r : RegressionFit, SobelSyntheticness.fitRegressionLine [1, 1] = some r
        ∧ Syntheticness.fitRegressionLine [1, 1] = some r
        ∧ r.gmax = (([1, 1] : List Int).length : Int) - 1
        ∧ r.g0 = none) :=
  C15_fitRegressionLine_degenerate_g0 [1, 1] (by simp)
    (Or.inl (by
      obtain ⟨hn, hx, hy, hxy, hx2⟩ := spec_sums_one_one
      rw [Spec.slope, Spec.denominator, hn, hx, hy, hxy, hx2]
      norm_num))

/-! ### The pipelines on a uniform image -/

/-- On a `height × width` grid whose samples all equal `c`, the flat
`applySobel`, started on an empty vector, returns `height * width` zeros. -/
theorem applySobel_uniform_eq (channel : List (List Int)) (width height : Nat) (c : Int)
    (hrows : channel.length = height) (hcols : ∀ row ∈ channel, row.length = width)
    (huniform : ∀ row ∈ channel, ∀ v ∈ row, v = c) :
    SobelSyntheticness.applySobel channel [] width height
      = some (List.replicate (height * width) 0) := by
  obtain ⟨g, hg, hlen, hframe, hval⟩ := applySobel_flat_spec channel [] width height hrows hcols
  rw [hg]
  congr 1
  apply List.ext_getElem?
  intro k
  by_cases hint : ∃ i j : Nat, 1 ≤ i ∧ i + 1 < height ∧ 1 ≤ j ∧ j + 1 < width
      ∧ i * width + j = k
  · obtain ⟨i, j, hi, hi', hj, hj', rfl⟩ := hint
    have hs := sample_uniform channel width height c hrows hcols huniform
    have hx : Spec.sobelSumX channel i j = 0 := by
      simp only [Spec.sobelSumX, hs (i - 1) (j - 1) (by omega) (by omega),
        hs (i - 1) (j + 1) (by omega) (by omega), hs i (j - 1) (by omega) (by omega),
        hs i (j + 1) (by omega) (by omega), hs (i + 1) (j - 1) (by omega) (by omega),
        hs (i + 1) (j + 1) (by omega) (by omega)]
      ring
    have hy : Spec.sobelSumY channel i j = 0 := by
      simp only [Spec.sobelSumY, hs (i - 1) (j - 1) (by omega) (by omega),
        hs (i - 1) j (by omega) (by omega), hs (i - 1) (j + 1) (by omega) (by omega),
        hs (i + 1) (j - 1) (by omega) (by omega), hs (i + 1) j (by omega) (by omega),
        hs (i + 1) (j + 1) (by omega) (by omega)]
      ring
    rw [hval i j hi hi' hj hj', hx, hy, List.getElem?_replicate,
      if_pos (flat_index_lt width height i j (by omega) (by omega))]
    simp
  · rw [hframe k (fun i j hi hi' hj hj' hk => hint ⟨i, j, hi, hi', hj, hj', hk⟩), resize_nil]

/-- On a gradient of zeros the histogram loop counts nothing: with at least one
bin and a positive bin width both versions of `buildHistogram` return
`bin_size` zero counts. -/
theorem buildHistogram_zeros (n : Nat) (bin_size max_val : Int) (hbs : 1 ≤ bin_size)
    (hbw : 0 < max_val.tdiv bin_size) :
    SobelSyntheticness.buildHistogram (List.replicate n 0) bin_size max_val
        = some (List.replicate bin_size.toNat 0)
      ∧ Syntheticness.buildHistogram (List.replicate n 0) bin_size max_val
        = some (List.replicate bin_size.toNat 0) := by
  obtain ⟨h, hrun, hs, hy, -, -, -⟩ :=
    buildHistogram_eq_loop (List.replicate n 0) bin_size max_val hbs hbw
  have hskip := foldlM_skip (histogramStep bin_size (max_val.tdiv bin_size))
    (List.replicate n 0)
    (fun x hx s => by
      rw [(List.mem_replicate.mp hx).2]
      simp [histogramStep])
    (List.replicate bin_size.toNat 0)
  rw [hskip] at hrun
  rw [hs, hy, ← Option.some.inj hrun]
  exact ⟨rfl, rfl⟩

/-- The sums of the specification on a histogram of `m` zero counts. -/
theorem spec_sums_zeros (m : Nat) :
    Spec.n (List.replicate m 0) = 0
      ∧ Spec.sumX (List.replicate m 0) = (m : ℚ) * ((m : ℚ) - 1) / 2
      ∧ Spec.sumY (List.replicate m 0) = 0
      ∧ Spec.sumXY (List.replicate m 0) = 0
      ∧ Spec.sumX2 (List.replicate m 0) = ((m : ℚ) - 1) * (m : ℚ) * (2 * (m : ℚ) - 1) / 6 := by
  have hget : ∀ i : Nat, (List.replicate m (0 : Int)).getD i 0 = 0 := by
    intro i
    rw [List.getD_eq_getElem?_getD, List.getElem?_replicate]
    split_ifs <;> rfl
  refine ⟨?_, ?_, ?_, ?_, ?_⟩
  · simp [Spec.n, Spec.sumY, hget]
  · simpa [Spec.sumX] using sum_range_index m
  · simp [Spec.sumY, hget]
  · simp [Spec.sumXY, hget]
  · simpa [Spec.sumX2] using sum_range_index_sq m

/-- The fit of the 50-bin histogram of zeros on IEEE-754 doubles: the slope is
`0 / -1500625 = -0.0`, the intercept `0 / 0` is NaN and so is `g0`. -/
theorem ieee_fit_fifty_zeros :
    Ieee.fitRegressionLine (List.replicate 50 0)
      = some { slope := Cxx.Double.negZero, intercept := Cxx.Double.nan, gmax := 49,
               g0 := Cxx.Double.nan } := by
  obtain ⟨hn, hx, hy, hxy, hx2⟩ := spec_sums_zeros 50
  rw [ieee_fitRegressionLine_eq _ (by simp), hn, hx, hy, hxy, hx2]
  norm_num [Cxx.Double.mul, Cxx.Double.sub, Cxx.Double.add, Cxx.Double.neg,
    Cxx.Double.div, Cxx.Double.ofRat, Cxx.Double.zero, Cxx.Double.value, Cxx.Double.isZero,
    Cxx.Double.signBit]

/-- The Sobel pipeline on an image whose three channels are uniform (each
channel a `height × width` grid of one value, with at least one pixel): every
stage returns, no error is raised, and the three values printed are NaN. -/
theorem sobel_main_uniform (red green blue : List (List Int)) (width height : Nat)
    (cr cg cb : Int) (hpix : 0 < height * width)
    (hr : red.length = height ∧ (∀ row ∈ red, row.length = width)
      ∧ ∀ row ∈ red, ∀ v ∈ row, v = cr)
    (hg : green.length = height ∧ (∀ row ∈ green, row.length = width)
      ∧ ∀ row ∈ green, ∀ v ∈ row, v = cg)
    (hb : blue.length = height ∧ (∀ row ∈ blue, row.length = width)
      ∧ ∀ row ∈ blue, ∀ v ∈ row, v = cb) :
    SobelSyntheticness.main red green blue width height
      = some (Cxx.Double.nan, Cxx.Double.nan, Cxx.Double.nan) := by
  have gr := applySobel_uniform_eq red width height cr hr.1 hr.2.1 hr.2.2
  have gg := applySobel_uniform_eq green width height cg hg.1 hg.2.1 hg.2.2
  have gb := applySobel_uniform_eq blue width height cb hb.1 hb.2.1 hb.2.2
  have hfirst : (List.replicate (height * width) (0 : Int))[0]? = some 0 := by
    rw [List.getElem?_replicate, if_pos hpix]
  have hhist := (buildHistogram_zeros (height * width) 50 255 (by decide) (by decide)).1
  have hfit : Ieee.fitRegressionLine (List.replicate (50 : Int).toNat 0)
      = some { slope := Cxx.Double.negZero, intercept := Cxx.Double.nan, gmax := 49,
               g0 := Cxx.Double.nan } := ieee_fit_fifty_zeros
  have hscore := (ieee_calculateSyntheticness_nan 49 (by decide)).1
  simp only [SobelSyntheticness.main, gr, gg, gb, hfirst, Option.bind_eq_bind,
    Option.some_bind, SobelSyntheticness.default_bin_size,
    SobelSyntheticness.default_max_val, hhist, hfit, hscore]

/-- The shape of the 4x4 image channel whose samples are all `128`. -/
theorem gray_channel_shape :
    (List.replicate 4 (List.replicate 4 (128 : Int))).length = 4
      ∧ (∀ row ∈ List.replicate 4 (List.replicate 4 (128 : Int)), row.length = 4)
      ∧ ∀ row ∈ List.replicate 4 (List.replicate 4 (128 : Int)), ∀ v ∈ row, v = 128 := by
  refine ⟨by simp, ?_, ?_⟩
  · intro row hrow
    rw [(List.mem_replicate.mp hrow).2]; simp
  · intro row hrow v hv
    rw [(List.mem_replicate.mp hrow).2] at hv
    exact (List.mem_replicate.mp hv).2

/-! ### The absolute-difference pipeline -/

/-- With one bin (`bin_size = 1`, bin width `255`) both versions of
`buildHistogram` return the single count of the positive samples. -/
theorem buildHistogram_one_bin (gradients : List Int) :
    SobelSyntheticness.buildHistogram gradients 1 255
        = some [((gradients.countP (fun v => decide (0 < v)) : Nat) : Int)]
      ∧ Syntheticness.buildHistogram gradients 1 255
        = some [((gradients.countP (fun v => decide (0 < v)) : Nat) : Int)] := by
  obtain ⟨h, -, hs, hy, hlen, hsum, -⟩ :=
    buildHistogram_eq_loop gradients 1 255 (by decide) (by decide)
  have hlen1 : h.length = 1 := by exact_mod_cast hlen
  obtain ⟨x, rfl⟩ := List.length_eq_one.mp hlen1
  have hx : x = ((gradients.countP (fun v => decide (0 < v)) : Nat) : Int) := by
    simpa using hsum
  rw [hs, hy, hx]
  exact ⟨rfl, rfl⟩

/-- The sums of the specification on a histogram with the single count `n`:
the only bin index is `0`, so `Σx = 0`, `Σx² = 0` and the regression
denominator vanishes. -/
theorem spec_sums_one_bin (n : Int) :
    Spec.n [n] = (n : ℚ) ∧ Spec.sumX [n] = 0 ∧ Spec.sumY [n] = (n : ℚ)
      ∧ Spec.sumXY [n] = 0 ∧ Spec.sumX2 [n] = 0 ∧ Spec.denominator [n] = 0 := by
  refine ⟨?_, ?_, ?_, ?_, ?_, ?_⟩ <;>
    simp [Spec.denominator, Spec.n, Spec.sumY, Spec.sumX, Spec.sumXY, Spec.sumX2]

/-- The fit of a histogram with a single non-negative count on IEEE-754
doubles: the slope is `0 / 0`, a NaN, and so are the intercept and `g0`;
`gmax` is `0`. -/
theorem ieee_fit_one_bin (n : Nat) :
    Ieee.fitRegressionLine [(n : Int)]
      = some { slope := Cxx.Double.nan, intercept := Cxx.Double.nan, gmax := 0,
               g0 := Cxx.Double.nan } := by
  obtain ⟨hn, hx, hy, hxy, hx2, -⟩ := spec_sums_one_bin (n : Int)
  have hn0 : (0 : ℚ) ≤ ((n : Int) : ℚ) := by exact_mod_cast Nat.zero_le n
  have m1 := (Double_finite_arith ((n : Int) : ℚ) 0).2.1 hn0 le_rfl
  have m2 := (Double_finite_arith 0 ((n : Int) : ℚ)).2.1 le_rfl hn0
  have m3 := (Double_finite_arith 0 0).2.1 le_rfl le_rfl
  have s1 := (Double_finite_arith 0 0).2.2.1
  have d1 := (Double_finite_arith 0 0).2.2.2.2.2
  have p := Double_nan_propagates
  rw [ieee_fitRegressionLine_eq _ (by simp), hn, hx, hy, hxy, hx2]
  simp only [m1, m2, m3, mul_zero, zero_mul, sub_zero, s1, d1, (p _).2.2.1]
  simp [Cxx.Double.sub, Cxx.Double.add, Cxx.Double.neg, Cxx.Double.div]

/-- Every histogram built in steps 2 and 3 of `calculateImageSyntheticness` has
exactly one bin, holding a non-negative count. -/
theorem imageHistograms_one_bin (red green blue : List (List Int))
    (hist_red hist_green hist_blue : List Int)
    (h : Syntheticness.imageHistograms red green blue
      = some (hist_red, hist_green, hist_blue)) :
    ∃ nr ng nb : Nat, hist_red = [(nr : Int)] ∧ hist_green = [(ng : Int)]
      ∧ hist_blue = [(nb : Int)] := by
  simp only [Syntheticness.imageHistograms, Option.bind_eq_bind, Option.bind_eq_some,
    Syntheticness.default_bin_size, Syntheticness.default_max_val] at h
  obtain ⟨⟨ghr, gvr⟩, -, ⟨ghg, gvg⟩, -, ⟨ghb, gvb⟩, -, hr, e1, hg, e2, hb, e3, e⟩ := h
  simp only [Option.some.injEq, Prod.mk.injEq] at e
  obtain ⟨rfl, rfl, rfl⟩ := e
  rw [(buildHistogram_one_bin ghr).2, Option.some.injEq] at e1
  rw [(buildHistogram_one_bin ghg).2, Option.some.injEq] at e2
  rw [(buildHistogram_one_bin ghb).2, Option.some.injEq] at e3
  exact ⟨_, _, _, e1.symm, e2.symm, e3.symm⟩

/-- For every image the absolute-difference pipeline returns no value: every
histogram has one bin, `gmax` is `0`, and the scorer divides by
`gmax / 2 = 0`. -/
theorem calculateImageSyntheticness_none (red green blue : List (List Int)) :
    Syntheticness.calculateImageSyntheticness red green blue = none := by
  cases h : Syntheticness.imageHistograms red green blue with
  | none => simp [Syntheticness.calculateImageSyntheticness, h]
  | some hists =>
    obtain ⟨hist_red, hist_green, hist_blue⟩ := hists
    obtain ⟨nr, ng, nb, rfl, rfl, rfl⟩ :=
      imageHistograms_one_bin red green blue hist_red hist_green hist_blue h
    have hz := (ieee_calculateSyntheticness_none_of_half_zero Cxx.Double.nan 0 (by decide)).2
    simp only [Syntheticness.calculateImageSyntheticness, h, Option.bind_eq_bind,
      Option.some_bind, ieee_fit_one_bin, hz, Option.none_bind]

/-- C17 fails on the code: for the 4x4 image whose samples are all `128` the
Sobel pipeline raises no error and prints NaN, not `0`, for every channel, and
the absolute-difference pipeline returns no value at all (its scorer divides by
`gmax / 2 = 0`). -/
theorem C17_gray_image_counterexample :
    SobelSyntheticness.main (List.replicate 4 (List.replicate 4 128))
        (List.replicate 4 (List.replicate 4 128)) (List.replicate 4 (List.replicate 4 128))
        4 4
        = some (Cxx.Double.nan, Cxx.Double.nan, Cxx.Double.nan)
      ∧ Cxx.Double.nan ≠ Cxx.Double.ofInt 0
      ∧ Syntheticness.calculateImageSyntheticness (List.replicate 4 (List.replicate 4 128))
          (List.replicate 4 (List.replicate 4 128)) (List.replicate 4 (List.replicate 4 128))
        = none := by
  refine ⟨sobel_main_uniform _ _ _ 4 4 128 128 128 (by decide) gray_channel_shape
    gray_channel_shape gray_channel_shape, by decide, calculateImageSyntheticness_none _ _ _⟩

/-- C17 (amended): end to end, for a 4x4 channel in which every sample is `128`,
the Sobel pipeline raises no error and yields NaN: the gradient of `applySobel`
is 16 zeros, the histogram of `buildHistogram` with its defaults is 50 zeros,
`fitRegressionLine` divides `0` by the total count `0` without a guard and
returns `g0 = NaN` with `gmax = 49`, and `calculateSyntheticness` returns the NaN
because both clamping comparisons are false. -/
theorem C17_sobel_pipeline_gray_nan :
    SobelSyntheticness.applySobel (List.replicate 4 (List.replicate 4 128)) [] 4 4
        = some (List.replicate 16 0)
      ∧ SobelSyntheticness.buildHistogram (List.replicate 16 0)
          SobelSyntheticness.default_bin_size SobelSyntheticness.default_max_val
        = some (List.replicate 50 0)
      ∧ Ieee.fitRegressionLine (List.replicate 50 0)
        = some { slope := Cxx.Double.negZero, intercept := Cxx.Double.nan, gmax := 49,
                 g0 := Cxx.Double.nan }
      ∧ Ieee.SobelSyntheticness.calculateSyntheticness Cxx.Double.nan 49
        = some Cxx.Double.nan
      ∧ SobelSyntheticness.main (List.replicate 4 (List.replicate 4 128))
          (List.replicate 4 (List.replicate 4 128)) (List.replicate 4 (List.replicate 4 128))
          4 4
        = some (Cxx.Double.nan, Cxx.Double.nan, Cxx.Double.nan) := by
  obtain ⟨h1, h2, h3⟩ := gray_channel_shape
  refine ⟨applySobel_uniform_eq _ 4 4 128 h1 h2 h3,
    (buildHistogram_zeros 16 50 255 (by decide) (by decide)).1,
    ieee_fit_fifty_zeros,
    (ieee_calculateSyntheticness_nan 49 (by decide)).1,
    sobel_main_uniform _ _ _ 4 4 128 128 128 (by decide) gray_channel_shape
      gray_channel_shape gray_channel_shape⟩

/-- C19, on the code: for the 2x2 channel `[[0, 0], [255, 255]]`
`calculateGradients` returns the vertical gradients `[255, 255]`, but steps 2
and 3 of `calculateImageSyntheticness` build the histograms from the horizontal
gradients `[0, 0]` only: they are the histograms `[0]` of the flat channel
`[[0, 0], [0, 0]]`, whereas the vertical gradients would give `[2]`. -/
theorem C19_vertical_gradients_not_histogrammed :
    Syntheticness.calculateGradients [[0, 0], [255, 255]] [] []
        = some ([0, 0], [255, 255])
      ∧ Syntheticness.calculateGradients [[0, 0], [0, 0]] [] [] = some ([0, 0], [0, 0])
      ∧ Syntheticness.imageHistograms [[0, 0], [255, 255]] [[0, 0], [255, 255]]
          [[0, 0], [255, 255]]
        = some ([0], [0], [0])
      ∧ Syntheticness.imageHistograms [[0, 0], [0, 0]] [[0, 0], [0, 0]] [[0, 0], [0, 0]]
        = some ([0], [0], [0])
      ∧ Syntheticness.buildHistogram [255, 255] Syntheticness.default_bin_size
          Syntheticness.default_max_val
        = some [2] := by
  refine ⟨by decide, by decide, by decide, by decide, by decide⟩

/-- C20: in the absolute-difference pipeline of `syntheticness.cpp`
`buildHistogram` is called with its default `bin_size = 1`, so for every
gradient sequence the histogram has exactly one bin; `fitRegressionLine` then
has `Σx = 0` and `Σx² = 0` (regression denominator `0`) and sets `gmax = 0`, and
`calculateSyntheticness` divides by `gmax / 2 = 0` whatever `g0` is.  For every
input image the pipeline returns no value, and for every image of at least
2x2 pixels the histograms are built and the scorer is reached. -/
theorem C20_abs_diff_pipeline_divides_by_zero :
    Syntheticness.default_bin_size = 1
      ∧ (∀ gradients : List Int,
          Syntheticness.buildHistogram gradients Syntheticness.default_bin_size
              Syntheticness.default_max_val
            = some [((gradients.countP (fun v => decide (0 < v)) : Nat) : Int)])
      ∧ (∀ n : Nat,
          Spec.sumX [(n : Int)] = 0 ∧ Spec.sumX2 [(n : Int)] = 0
            ∧ Spec.denominator [(n : Int)] = 0
            ∧ Ieee.fitRegressionLine [(n : Int)]
              = some { slope := Cxx.Double.nan, intercept := Cxx.Double.nan, gmax := 0,
                       g0 := Cxx.Double.nan }
            ∧ Syntheticness.fitRegressionLine [(n : Int)]
              = some { slope := none, intercept := none, gmax := 0, g0 := none })
      ∧ Cxx.idiv 0 2 = some 0 ∧ Cxx.idiv 200 0 = none
      ∧ (∀ g0 : Cxx.Double, Ieee.Syntheticness.calculateSyntheticness g0 0 = none)
      ∧ (∀ g0 : ℚ, Syntheticness.calculateSyntheticness g0 0 = none)
      ∧ (∀ red green blue : List (List Int),
          Syntheticness.calculateImageSyntheticness red green blue = none)
      ∧ (∀ (red green blue : List (List Int)) (width height : Nat),
          2 ≤ width → 2 ≤ height →
          (red.length = height ∧ ∀ row ∈ red, row.length = width) →
          (green.length = height ∧ ∀ row ∈ green, row.length = width) →
          (blue.length = height ∧ ∀ row ∈ blue, row.length = width) →
          ∃ nr ng nb : Nat,
            Syntheticness.imageHistograms red green blue
              = some ([(nr : Int)], [(ng : Int)], [(nb : Int)])) := by
  refine ⟨rfl, fun gradients => (buildHistogram_one_bin gradients).2, ?_, by decide,
    by decide,
    fun g0 => (ieee_calculateSyntheticness_none_of_half_zero g0 0 (by decide)).2,
    fun g0 => (calculateSyntheticness_none_of_half_zero g0 0 (by decide)).2,
    calculateImageSyntheticness_none, ?_⟩
  · intro n
    obtain ⟨-, hx, -, -, hx2, hden⟩ := spec_sums_one_bin (n : Int)
    have hp := ieee_fitRegressionLine_project [(n : Int)]
    rw [ieee_fit_one_bin] at hp
    simp only [Option.map_some', Cxx.Double.toRat?] at hp
    refine ⟨hx, hx2, hden, ieee_fit_one_bin n, ?_⟩
    rw [fitRegressionLine_versions_eq]
    exact hp.symm
  · intro red green blue width height hw hh hr hg hb
    have gr := calculateGradients_of_two_le red width height hr.1 hr.2 hh hw
    have gg := calculateGradients_of_two_le green width height hg.1 hg.2 hh hw
    have gb := calculateGradients_of_two_le blue width height hb.1 hb.2 hh hw
    refine ⟨(Spec.horizontalDifferences red width height).countP (fun v => decide (0 < v)),
      (Spec.horizontalDifferences green width height).countP (fun v => decide (0 < v)),
      (Spec.horizontalDifferences blue width height).countP (fun v => decide (0 < v)), ?_⟩
    simp only [Syntheticness.imageHistograms, gr, gg, gb, Option.bind_eq_bind,
      Option.some_bind, Syntheticness.default_bin_size, Syntheticness.default_max_val,
      (buildHistogram_one_bin _).2]

/-! ### The scorer at 403 or more bins -/

/-- For `gmax ≥ 402` the inner quotient `gmax / 2` is at least `201`, so the
integer quotient `200 / (gmax / 2)` is `0`. -/
theorem scale_zero_of_large_gmax (gmax : Int) (h : 402 ≤ gmax) :
    gmax.tdiv 2 ≠ 0 ∧ (200 : Int).tdiv (gmax.tdiv 2) = 0 := by
  have hhalf : 201 ≤ gmax.tdiv 2 := by
    rw [Int.tdiv_eq_ediv (by omega) (by omega)]
    omega
  refine ⟨by omega, ?_⟩
  rw [Int.tdiv_eq_ediv (by omega) (by omega)]
  exact Int.ediv_eq_zero_of_lt (by omega) (by omega)

/-- The threshold `402` is the least one: at `gmax = 401` the integer quotient
`200 / (401 / 2)` is `1` and the score follows `g0`. -/
theorem calculateSyntheticness_at_401 :
    Cxx.idiv 200 ((401 : Int).tdiv 2) = some 1
      ∧ SobelSyntheticness.calculateSyntheticness 403 401 = some 1
      ∧ Syntheticness.calculateSyntheticness 403 401 = some 1
      ∧ SobelSyntheticness.calculateSyntheticness 501 401 = some 50
      ∧ Syntheticness.calculateSyntheticness 501 401 = some 50 := by
  obtain ⟨a1, a2⟩ := calculateSyntheticness_eq_of_half_ne_zero 403 401 (by decide)
  obtain ⟨b1, b2⟩ := calculateSyntheticness_eq_of_half_ne_zero 501 401 (by decide)
  have hs : (200 : Int).tdiv ((401 : Int).tdiv 2) = 1 := by decide
  rw [hs] at a1 a2 b1 b2
  refine ⟨by decide, ?_, ?_, ?_, ?_⟩
  · rw [a1]; norm_num
  · rw [a2]; norm_num
  · rw [b1]; norm_num
  · rw [b2]; norm_num

/-- C21: for every integer `gmax ≥ 402` and every finite `g0`, both versions of
`calculateSyntheticness` return `0`: the integer quotient `200 / (gmax / 2)` is
`0`, so the product with `(g0 - gmax) / 2` is a zero and is clamped to `0`.
This holds in the finite model and on IEEE-754 doubles (for every double `d`
with the finite value `g0`, either zero included), so the result is the same
for all finite `g0`.  A histogram of 403 or more bins gives such a `gmax`. -/
theorem C21_score_zero_of_large_gmax (g0 : ℚ) (gmax : Int) (h : 402 ≤ gmax) :
    Cxx.idiv gmax 2 = some (gmax.tdiv 2)
      ∧ Cxx.idiv 200 (gmax.tdiv 2) = some 0
      ∧ SobelSyntheticness.calculateSyntheticness g0 gmax = some 0
      ∧ Syntheticness.calculateSyntheticness g0 gmax = some 0
      ∧ (∀ d : Cxx.Double, d.toRat? = some g0 →
          Ieee.SobelSyntheticness.calculateSyntheticness d gmax
              = some (Cxx.Double.ofInt 0)
            ∧ Ieee.Syntheticness.calculateSyntheticness d gmax
              = some (Cxx.Double.ofInt 0))
      ∧ (∀ histogram : List Int, (histogram.length : Int) - 1 = gmax →
          ∃ fit : Ieee.RegressionFit, Ieee.fitRegressionLine histogram = some fit
            ∧ fit.gmax = gmax) := by
  obtain ⟨hne, hscale⟩ := scale_zero_of_large_gmax gmax h
  have hidiv2 : Cxx.idiv gmax 2 = some (gmax.tdiv 2) := by simp [Cxx.idiv]
  have hidiv : Cxx.idiv 200 (gmax.tdiv 2) = some 0 := by
    simp [Cxx.idiv, hne, hscale]
  obtain ⟨hs, hy⟩ := calculateSyntheticness_eq_of_half_ne_zero g0 gmax hne
  rw [hscale] at hs hy
  have hz : max (0 : ℚ) (min 200 (((g0 - (gmax : ℚ)) / 2) * (((0 : Int) : Int) : ℚ))) = 0 := by
    norm_num
  rw [hz] at hs hy
  refine ⟨hidiv2, hidiv, hs, hy, ?_, ?_⟩
  · intro d hd
    have hfin : ∀ n : Int, (Cxx.Double.ofInt n).toRat? = some (n : ℚ) := fun _ => rfl
    have hsy := Double_toRat_mul _ _ _ _
      ((Double_toRat_div _ _ _ _ (Double_toRat_sub _ _ _ _ hd (hfin gmax)) (hfin 2)).trans
        (show Cxx.fdiv (g0 - (gmax : ℚ)) ((2 : Int) : ℚ) = some ((g0 - (gmax : ℚ)) / 2) by
          simp [Cxx.fdiv]))
      (hfin 0)
    have hraw : ((g0 - (gmax : ℚ)) / 2) * (((0 : Int) : Int) : ℚ) = 0 := by norm_num
    rw [hraw] at hsy
    have h200 := Double_le_finite _ _ _ _ (hfin 200) hsy
    have h0 := Double_le_finite _ _ _ _ hsy (hfin 0)
    have d200 : decide ((((200 : Int) : ℚ)) ≤ 0) = false := by
      rw [decide_eq_false_iff_not]; norm_num
    have d0 : decide ((0 : ℚ) ≤ (((0 : Int) : ℚ))) = true := by
      rw [decide_eq_true_iff]; norm_num
    rw [d200] at h200
    rw [d0] at h0
    constructor
    · simp only [Ieee.SobelSyntheticness.calculateSyntheticness, hidiv2, hidiv,
        Option.bind_eq_bind, Option.some_bind, h200, h0]
      rfl
    · simp only [Ieee.Syntheticness.calculateSyntheticness, hidiv2, hidiv,
        Option.bind_eq_bind, Option.some_bind, h200, Bool.false_eq_true, if_false, h0,
        if_true]
  · intro histogram hlen
    have hnil : histogram ≠ [] := by
      intro hnil
      rw [hnil] at hlen
      simp at hlen
      omega
    exact ⟨_, ieee_fitRegressionLine_eq histogram hnil, hlen⟩

/-- C21, at `g0 = 1000`, `gmax = 402` and the histogram of 403 empty bins: the
raw value is `299 * 0 = 0`. -/
theorem C21_score_zero_of_large_gmax_witness :
    (402 : Int) ≤ 402
      ∧ Cxx.idiv 200 ((402 : Int).tdiv 2) = some 0
      ∧ SobelSyntheticness.calculateSyntheticness 1000 402 = some 0
      ∧ Syntheticness.calculateSyntheticness 1000 402 = some 0
      ∧ Ieee.SobelSyntheticness.calculateSyntheticness (Cxx.Double.finite 1000) 402
          = some (Cxx.Double.ofInt 0)
      ∧ Ieee.Syntheticness.calculateSyntheticness (Cxx.Double.finite 1000) 402
          = some (Cxx.Double.ofInt 0)
      ∧ (∃ fit : Ieee.RegressionFit,
          Ieee.fitRegressionLine (List.replicate 403 0) = some fit ∧ fit.gmax = 402) :=
  have w := C21_score_zero_of_large_gmax 1000 402 (by decide)
  ⟨by decide, w.2.1, w.2.2.1, w.2.2.2.1,
    (w.2.2.2.2.1 (Cxx.Double.finite 1000) rfl).1,
    (w.2.2.2.2.1 (Cxx.Double.finite 1000) rfl).2,
    w.2.2.2.2.2 (List.replicate 403 0) (by rw [List.length_replicate]; decide)⟩

/-! ### The scorer on infinite arguments -/

/-- The two versions of the scorer on IEEE-754 doubles are the same function:
the two successive assignments of `syntheticness.cpp` clamp as the two returns
of `sobel_syntheticness.cpp` do. -/
theorem ieee_calculateSyntheticness_versions_eq (g0 : Cxx.Double) (gmax : Int) :
    Ieee.Syntheticness.calculateSyntheticness g0 gmax
      = Ieee.SobelSyntheticness.calculateSyntheticness g0 gmax := by
  have hl : Cxx.Double.le (Cxx.Double.ofInt 200) (Cxx.Double.ofInt 0) = false := by decide
  by_cases h : gmax.tdiv 2 = 0
  · obtain ⟨h1, h2⟩ := ieee_calculateSyntheticness_none_of_half_zero g0 gmax h
    rw [h1, h2]
  · have hidiv2 : Cxx.idiv gmax 2 = some (gmax.tdiv 2) := by simp [Cxx.idiv]
    have hidiv : Cxx.idiv 200 (gmax.tdiv 2) = some ((200 : Int).tdiv (gmax.tdiv 2)) := by
      simp [Cxx.idiv, h]
    simp only [Ieee.Syntheticness.calculateSyntheticness,
      Ieee.SobelSyntheticness.calculateSyntheticness, hidiv2, hidiv, Option.bind_eq_bind,
      Option.some_bind]
    generalize Cxx.Double.mul
      (Cxx.Double.div (Cxx.Double.sub g0 (Cxx.Double.ofInt gmax)) (Cxx.Double.ofInt 2))
      (Cxx.Double.ofInt ((200 : Int).tdiv (gmax.tdiv 2))) = sy
    cases h1 : Cxx.Double.le (Cxx.Double.ofInt 200) sy <;>
      cases h2 : Cxx.Double.le sy (Cxx.Double.ofInt 0) <;>
      simp [h1, h2, hl]

/-- The three outcomes of the scorer of `sobel_syntheticness.cpp` on IEEE-754
doubles, by the two comparisons on the product `sy_prime`. -/
theorem ieee_calculateSyntheticness_cases (g0 : Cxx.Double) (gmax : Int)
    (h : gmax.tdiv 2 ≠ 0) :
    (Cxx.Double.le (Cxx.Double.ofInt 200)
        (Cxx.Double.mul
          (Cxx.Double.div (Cxx.Double.sub g0 (Cxx.Double.ofInt gmax)) (Cxx.Double.ofInt 2))
          (Cxx.Double.ofInt ((200 : Int).tdiv (gmax.tdiv 2)))) = true →
      Ieee.SobelSyntheticness.calculateSyntheticness g0 gmax
        = some (Cxx.Double.ofInt 200))
    ∧ (Cxx.Double.le (Cxx.Double.ofInt 200)
        (Cxx.Double.mul
          (Cxx.Double.div (Cxx.Double.sub g0 (Cxx.Double.ofInt gmax)) (Cxx.Double.ofInt 2))
          (Cxx.Double.ofInt ((200 : Int).tdiv (gmax.tdiv 2)))) = false →
      Cxx.Double.le
        (Cxx.Double.mul
          (Cxx.Double.div (Cxx.Double.sub g0 (Cxx.Double.ofInt gmax)) (Cxx.Double.ofInt 2))
          (Cxx.Double.ofInt ((200 : Int).tdiv (gmax.tdiv 2))))
        (Cxx.Double.ofInt 0) = true →
      Ieee.SobelSyntheticness.calculateSyntheticness g0 gmax
        = some (Cxx.Double.ofInt 0))
    ∧ (Cxx.Double.le (Cxx.Double.ofInt 200)
        (Cxx.Double.mul
          (Cxx.Double.div (Cxx.Double.sub g0 (Cxx.Double.ofInt gmax)) (Cxx.Double.ofInt 2))
          (Cxx.Double.ofInt ((200 : Int).tdiv (gmax.tdiv 2)))) = false →
      Cxx.Double.le
        (Cxx.Double.mul
          (Cxx.Double.div (Cxx.Double.sub g0 (Cxx.Double.ofInt gmax)) (Cxx.Double.ofInt 2))
          (Cxx.Double.ofInt ((200 : Int).tdiv (gmax.tdiv 2))))
        (Cxx.Double.ofInt 0) = false →
      Ieee.SobelSyntheticness.calculateSyntheticness g0 gmax
        = some (Cxx.Double.mul
          (Cxx.Double.div (Cxx.Double.sub g0 (Cxx.Double.ofInt gmax)) (Cxx.Double.ofInt 2))
          (Cxx.Double.ofInt ((200 : Int).tdiv (gmax.tdiv 2))))) := by
  have hidiv2 : Cxx.idiv gmax 2 = some (gmax.tdiv 2) := by simp [Cxx.idiv]
  have hidiv : Cxx.idiv 200 (gmax.tdiv 2) = some ((200 : Int).tdiv (gmax.tdiv 2)) := by
    simp [Cxx.idiv, h]
  simp only [Ieee.SobelSyntheticness.calculateSyntheticness, hidiv2, hidiv,
    Option.bind_eq_bind, Option.some_bind]
  generalize Cxx.Double.mul
    (Cxx.Double.div (Cxx.Double.sub g0 (Cxx.Double.ofInt gmax)) (Cxx.Double.ofInt 2))
    (Cxx.Double.ofInt ((200 : Int).tdiv (gmax.tdiv 2))) = sy
  refine ⟨?_, ?_, ?_⟩
  · intro h1; simp [h1]
  · intro h1 h2; simp [h1, h2]
  · intro h1 h2; simp [h1, h2]

/-- The arithmetic of the scorer on an infinite `g0`: subtracting `gmax` and
halving keep the infinity; the product with a positive `int` keeps it, and the
product with the `int` zero is NaN. -/
theorem Double_inf_arith (s : Bool) (n : Int) :
    Cxx.Double.sub (Cxx.Double.inf s) (Cxx.Double.ofInt n) = Cxx.Double.inf s
      ∧ Cxx.Double.div (Cxx.Double.inf s) (Cxx.Double.ofInt 2) = Cxx.Double.inf s
      ∧ (0 < n → Cxx.Double.mul (Cxx.Double.inf s) (Cxx.Double.ofInt n) = Cxx.Double.inf s)
      ∧ Cxx.Double.mul (Cxx.Double.inf s) (Cxx.Double.ofInt 0) = Cxx.Double.nan
      ∧ Cxx.Double.le (Cxx.Double.ofInt 200) (Cxx.Double.inf s) = !s
      ∧ Cxx.Double.le (Cxx.Double.inf s) (Cxx.Double.ofInt 0) = s := by
  refine ⟨?_, ?_, ?_, ?_, ?_, ?_⟩
  · simp only [Cxx.Double.sub, Cxx.Double.neg, Cxx.Double.ofInt]
    split_ifs <;> rfl
  · cases s <;> simp [Cxx.Double.div, Cxx.Double.ofInt, Cxx.Double.signBit]
  · intro hn
    have h1 : ((n : Int) : ℚ) ≠ 0 := by
      have : (0 : ℚ) < (n : ℚ) := by exact_mod_cast hn
      exact ne_of_gt this
    have h2 : ¬ ((n : ℚ) < 0) := by
      have : (0 : ℚ) < (n : ℚ) := by exact_mod_cast hn
      exact not_lt.mpr this.le
    cases s <;> simp [Cxx.Double.mul, Cxx.Double.ofInt, Cxx.Double.isZero,
      Cxx.Double.signBit, h1, h2]
  · cases s <;> simp [Cxx.Double.mul, Cxx.Double.ofInt, Cxx.Double.isZero]
  · cases s <;> rfl
  · cases s <;> rfl

/-- For `2 ≤ gmax ≤ 401` the integer quotient `200 / (gmax / 2)` is at least
`1`. -/
theorem scale_pos_of_le_401 (gmax : Int) (h : 2 ≤ gmax) (h401 : gmax ≤ 401) :
    gmax.tdiv 2 ≠ 0 ∧ 0 < (200 : Int).tdiv (gmax.tdiv 2) := by
  have hhalf : 1 ≤ gmax.tdiv 2 ∧ gmax.tdiv 2 ≤ 200 := by
    rw [Int.tdiv_eq_ediv (by omega) (by omega)]
    omega
  refine ⟨by omega, ?_⟩
  rw [Int.tdiv_eq_ediv (by omega) (by omega)]
  exact Int.lt_of_lt_of_le (by decide) (Int.le_ediv_of_mul_le (by omega) (by omega : 1 * gmax.tdiv 2 ≤ 200))

/-- The product `sy_prime` of the scorer on a finite `g0` is finite, with the
value of the finite model. -/
theorem ieee_sy_prime_toRat (g0 : Cxx.Double) (q : ℚ) (hq : g0.toRat? = some q)
    (gmax scale : Int) :
    (Cxx.Double.mul
        (Cxx.Double.div (Cxx.Double.sub g0 (Cxx.Double.ofInt gmax)) (Cxx.Double.ofInt 2))
        (Cxx.Double.ofInt scale)).toRat?
      = some ((q - (gmax : ℚ)) / 2 * (scale : ℚ)) := by
  have hfin : ∀ n : Int, (Cxx.Double.ofInt n).toRat? = some (n : ℚ) := fun _ => rfl
  exact Double_toRat_mul _ _ _ _
    ((Double_toRat_div _ _ _ _ (Double_toRat_sub _ _ _ _ hq (hfin gmax)) (hfin 2)).trans
      (show Cxx.fdiv (q - (gmax : ℚ)) ((2 : Int) : ℚ) = some ((q - (gmax : ℚ)) / 2) by
        simp [Cxx.fdiv]))
    (hfin scale)

/-- On a finite `g0 ≤ gmax` with `gmax ≥ 2` the scorer on IEEE-754 doubles
returns the literal `0`: the product is a finite value that is not positive
(possibly `-0.0`), the test `sy_prime <= 0` holds and `0` is returned. -/
theorem ieee_score_zero_of_finite_le (g0 : Cxx.Double) (q : ℚ) (hq : g0.toRat? = some q)
    (gmax : Int) (h : 2 ≤ gmax) (hle : q ≤ (gmax : ℚ)) :
    Ieee.SobelSyntheticness.calculateSyntheticness g0 gmax = some (Cxx.Double.ofInt 0) := by
  have hhalf := half_pos_of_two_le gmax h
  have hscale := scale_nonneg_of_two_le gmax h
  have hne : gmax.tdiv 2 ≠ 0 := by omega
  obtain ⟨-, c2, -⟩ := ieee_calculateSyntheticness_cases g0 gmax hne
  have hsy := ieee_sy_prime_toRat g0 q hq gmax ((200 : Int).tdiv (gmax.tdiv 2))
  have hfin : ∀ n : Int, (Cxx.Double.ofInt n).toRat? = some (n : ℚ) := fun _ => rfl
  have hqQ : (0 : ℚ) ≤ (((200 : Int).tdiv (gmax.tdiv 2) : Int) : ℚ) := by exact_mod_cast hscale
  have hraw : (q - (gmax : ℚ)) / 2 * (((200 : Int).tdiv (gmax.tdiv 2) : Int) : ℚ) ≤ 0 :=
    mul_nonpos_of_nonpos_of_nonneg (by linarith) hqQ
  have h200 := Double_le_finite _ _ _ _ (hfin 200) hsy
  have h0 := Double_le_finite _ _ _ _ hsy (hfin 0)
  refine c2 ?_ ?_
  · rw [h200, decide_eq_false_iff_not]
    push_cast
    linarith
  · rw [h0, decide_eq_true_iff]
    push_cast
    exact hraw

/-- On a finite `g0` the scorer on IEEE-754 doubles returns a finite double
whose value is the clamped product of the finite model. -/
theorem ieee_score_of_finite (g0 : Cxx.Double) (q : ℚ) (hq : g0.toRat? = some q)
    (gmax : Int) (h : gmax.tdiv 2 ≠ 0) :
    ∃ v : Cxx.Double, Ieee.SobelSyntheticness.calculateSyntheticness g0 gmax = some v
      ∧ v.toRat? = some (max 0 (min 200
          (((q - (gmax : ℚ)) / 2) * (((200 : Int).tdiv (gmax.tdiv 2) : Int) : ℚ)))) := by
  have hp := (ieee_calculateSyntheticness_project g0 q hq gmax).1
  rw [(calculateSyntheticness_eq_of_half_ne_zero q gmax h).1] at hp
  cases hv : Ieee.SobelSyntheticness.calculateSyntheticness g0 gmax with
  | none => rw [hv] at hp; exact Option.noConfusion hp
  | some v =>
    rw [hv] at hp
    exact ⟨v, rfl, Option.some.inj hp⟩

/-- With a positive integer quotient `200 / (gmax / 2)` the scorer on IEEE-754
doubles returns `0` at `-inf` and `200` at `+inf`. -/
theorem ieee_score_inf_of_scale_pos (gmax : Int) (h : gmax.tdiv 2 ≠ 0)
    (hs : 0 < (200 : Int).tdiv (gmax.tdiv 2)) :
    Ieee.SobelSyntheticness.calculateSyntheticness (Cxx.Double.inf true) gmax
        = some (Cxx.Double.ofInt 0)
      ∧ Ieee.SobelSyntheticness.calculateSyntheticness (Cxx.Double.inf false) gmax
        = some (Cxx.Double.ofInt 200) := by
  constructor
  · obtain ⟨-, c2, -⟩ := ieee_calculateSyntheticness_cases (Cxx.Double.inf true) gmax h
    obtain ⟨e1, e2, -, -, -, -⟩ := Double_inf_arith true gmax
    obtain ⟨-, -, e3, -, e5, e6⟩ := Double_inf_arith true ((200 : Int).tdiv (gmax.tdiv 2))
    rw [e1, e2, e3 hs] at c2
    exact c2 e5 e6
  · obtain ⟨c1, -, -⟩ := ieee_calculateSyntheticness_cases (Cxx.Double.inf false) gmax h
    obtain ⟨e1, e2, -, -, -, -⟩ := Double_inf_arith false gmax
    obtain ⟨-, -, e3, -, e5, -⟩ := Double_inf_arith false ((200 : Int).tdiv (gmax.tdiv 2))
    rw [e1, e2, e3 hs] at c1
    exact c1 e5

/-- With a zero integer quotient `200 / (gmax / 2)` the scorer on IEEE-754
doubles returns NaN at both infinities: `inf * 0` is NaN and both clamping
comparisons are false. -/
theorem ieee_score_inf_of_scale_zero (s : Bool) (gmax : Int) (h : gmax.tdiv 2 ≠ 0)
    (hs : (200 : Int).tdiv (gmax.tdiv 2) = 0) :
    Ieee.SobelSyntheticness.calculateSyntheticness (Cxx.Double.inf s) gmax
      = some Cxx.Double.nan := by
  obtain ⟨-, -, c3⟩ := ieee_calculateSyntheticness_cases (Cxx.Double.inf s) gmax h
  obtain ⟨e1, e2, -, e4, -, -⟩ := Double_inf_arith s gmax
  rw [hs, e1, e2, e4] at c3
  exact c3 rfl rfl

/-- Every double is finite (with a rational value), an infinity, or NaN. -/
theorem Double_cases (d : Cxx.Double) :
    (∃ q : ℚ, d.toRat? = some q) ∨ (∃ s : Bool, d = Cxx.Double.inf s) ∨ d = Cxx.Double.nan := by
  cases d with
  | finite q => exact Or.inl ⟨q, rfl⟩
  | negZero => exact Or.inl ⟨0, rfl⟩
  | inf s => exact Or.inr (Or.inl ⟨s, rfl⟩)
  | nan => exact Or.inr (Or.inr rfl)

/-- The comparison `<=` of a finite double with an infinity, and of two
infinities. -/
theorem Double_le_inf (d : Cxx.Double) (q : ℚ) (hd : d.toRat? = some q) (s t : Bool) :
    Cxx.Double.le d (Cxx.Double.inf t) = !t
      ∧ Cxx.Double.le (Cxx.Double.inf s) d = s
      ∧ Cxx.Double.le (Cxx.Double.inf s) (Cxx.Double.inf t) = (s || !t) := by
  cases d with
  | finite x => exact ⟨rfl, rfl, rfl⟩
  | negZero => exact ⟨rfl, rfl, rfl⟩
  | inf u => exact Option.noConfusion hd
  | nan => exact Option.noConfusion hd

/-- C3 fails on the code at `gmax = 1`: `gmax / 2 = 0` in integer arithmetic,
so `200 / (gmax / 2)` divides by zero and neither scorer returns a value for
`g0 = 0 ≤ gmax`.  It also fails at `g0 = -inf` (a value `fitRegressionLine`
returns) and `gmax = 402`: the product `-inf * 0` is NaN, which both scorers
return. -/
theorem C3_score_zero_counterexample :
    (0 : Int) < 1 ∧ (0 : ℚ) ≤ ((1 : Int) : ℚ)
      ∧ SobelSyntheticness.calculateSyntheticness 0 1 = none
      ∧ Syntheticness.calculateSyntheticness 0 1 = none
      ∧ SobelSyntheticness.calculateSyntheticness 0 1 ≠ some 0
      ∧ Syntheticness.calculateSyntheticness 0 1 ≠ some 0
      ∧ Cxx.Double.le (Cxx.Double.inf true) (Cxx.Double.ofInt 402) = true
      ∧ Ieee.SobelSyntheticness.calculateSyntheticness (Cxx.Double.inf true) 402
          = some Cxx.Double.nan
      ∧ Ieee.Syntheticness.calculateSyntheticness (Cxx.Double.inf true) 402
          = some Cxx.Double.nan
      ∧ Cxx.Double.nan ≠ Cxx.Double.ofInt 0 := by
  obtain ⟨hs, hy⟩ := calculateSyntheticness_none_of_half_zero 0 1 (by decide)
  have hnan := ieee_score_inf_of_scale_zero true 402 (by decide) (by decide)
  refine ⟨by decide, by norm_num, hs, hy, ?_, ?_, rfl, hnan, ?_, by decide⟩
  · rw [hs]; exact fun h => Option.noConfusion h
  · rw [hy]; exact fun h => Option.noConfusion h
  · rw [ieee_calculateSyntheticness_versions_eq]; exact hnan

/-- C3 (amended): for every integer `gmax ≥ 2` and every finite `g0 ≤ gmax`,
both versions of `calculateSyntheticness` return exactly `0`, in the finite
model and on IEEE-754 doubles (for every double with a finite value, either
zero included).  At `g0 = -inf` they return `0` when `gmax ≤ 401` and NaN when
`gmax ≥ 402`. -/
theorem C3_score_zero_of_le_gmax (gmax : Int) (h : 2 ≤ gmax) :
    (∀ g0 : ℚ, g0 ≤ (gmax : ℚ) →
        SobelSyntheticness.calculateSyntheticness g0 gmax = some 0
          ∧ Syntheticness.calculateSyntheticness g0 gmax = some 0)
      ∧ (∀ (d : Cxx.Double) (q : ℚ), d.toRat? = some q → q ≤ (gmax : ℚ) →
          Ieee.SobelSyntheticness.calculateSyntheticness d gmax = some (Cxx.Double.ofInt 0)
            ∧ Ieee.Syntheticness.calculateSyntheticness d gmax
                = some (Cxx.Double.ofInt 0))
      ∧ (gmax ≤ 401 →
          Ieee.SobelSyntheticness.calculateSyntheticness (Cxx.Double.inf true) gmax
              = some (Cxx.Double.ofInt 0)
            ∧ Ieee.Syntheticness.calculateSyntheticness (Cxx.Double.inf true) gmax
                = some (Cxx.Double.ofInt 0))
      ∧ (402 ≤ gmax →
          Ieee.SobelSyntheticness.calculateSyntheticness (Cxx.Double.inf true) gmax
              = some Cxx.Double.nan
            ∧ Ieee.Syntheticness.calculateSyntheticness (Cxx.Double.inf true) gmax
                = some Cxx.Double.nan) := by
  have hhalf := half_pos_of_two_le gmax h
  have hq := scale_nonneg_of_two_le gmax h
  refine ⟨?_, ?_, ?_, ?_⟩
  · intro g0 hg
    obtain ⟨hs, hy⟩ := calculateSyntheticness_eq_of_half_ne_zero g0 gmax (by omega)
    generalize (200 : Int).tdiv (gmax.tdiv 2) = k at hq hs hy
    have hqQ : (0 : ℚ) ≤ (k : ℚ) := by exact_mod_cast hq
    have hraw : (g0 - (gmax : ℚ)) / 2 * (k : ℚ) ≤ 0 :=
      mul_nonpos_of_nonpos_of_nonneg (by linarith) hqQ
    have hm : max (0 : ℚ) (min 200 ((g0 - (gmax : ℚ)) / 2 * (k : ℚ))) = 0 :=
      max_eq_left (le_trans (min_le_right _ _) hraw)
    rw [hm] at hs hy
    exact ⟨hs, hy⟩
  · intro d q hd hle
    have hz := ieee_score_zero_of_finite_le d q hd gmax h hle
    exact ⟨hz, by rw [ieee_calculateSyntheticness_versions_eq]; exact hz⟩
  · intro h401
    obtain ⟨hne, hpos⟩ := scale_pos_of_le_401 gmax h h401
    have hz := (ieee_score_inf_of_scale_pos gmax hne hpos).1
    exact ⟨hz, by rw [ieee_calculateSyntheticness_versions_eq]; exact hz⟩
  · intro h402
    obtain ⟨hne, hzero⟩ := scale_zero_of_large_gmax gmax h402
    have hz := ieee_score_inf_of_scale_zero true gmax hne hzero
    exact ⟨hz, by rw [ieee_calculateSyntheticness_versions_eq]; exact hz⟩

/-- C3 (amended), at `gmax = 49` with `g0 = 30` and `g0 = -inf`, and at
`gmax = 402` with `g0 = -inf`. -/
theorem C3_score_zero_of_le_gmax_witness :
    SobelSyntheticness.calculateSyntheticness 30 49 = some 0
      ∧ Syntheticness.calculateSyntheticness 30 49 = some 0
      ∧ Ieee.SobelSyntheticness.calculateSyntheticness (Cxx.Double.finite 30) 49
          = some (Cxx.Double.ofInt 0)
      ∧ Ieee.Syntheticness.calculateSyntheticness (Cxx.Double.finite 30) 49
          = some (Cxx.Double.ofInt 0)
      ∧ Ieee.SobelSyntheticness.calculateSyntheticness (Cxx.Double.inf true) 49
          = some (Cxx.Double.ofInt 0)
      ∧ Ieee.Syntheticness.calculateSyntheticness (Cxx.Double.inf true) 49
          = some (Cxx.Double.ofInt 0)
      ∧ Ieee.SobelSyntheticness.calculateSyntheticness (Cxx.Double.inf true) 402
          = some Cxx.Double.nan
      ∧ Ieee.Syntheticness.calculateSyntheticness (Cxx.Double.inf true) 402
          = some Cxx.Double.nan :=
  have w := C3_score_zero_of_le_gmax 49 (by decide)
  have w' := C3_score_zero_of_le_gmax 402 (by decide)
  ⟨(w.1 30 (by norm_num)).1, (w.1 30 (by norm_num)).2,
    (w.2.1 (Cxx.Double.finite 30) 30 rfl (by norm_num)).1,
    (w.2.1 (Cxx.Double.finite 30) 30 rfl (by norm_num)).2,
    (w.2.2.1 (by decide)).1, (w.2.2.1 (by decide)).2,
    (w'.2.2.2 (by decide)).1, (w'.2.2.2 (by decide)).2⟩

/-- C4 fails on the code at `gmax = 1`: for `g0 = 0 ≤ g0' = 1` neither scorer
returns a pair of values to compare, because `200 / (gmax / 2)` divides by
zero.  It also fails at `gmax = 402` for `g0 = -inf ≤ g0' = 0`: the scores are
NaN and `0`, and `NaN <= 0` is false. -/
theorem C4_score_monotone_counterexample :
    (0 : Int) < 1 ∧ (0 : ℚ) ≤ 1
      ∧ (¬ ∃ v v' : ℚ, SobelSyntheticness.calculateSyntheticness 0 1 = some v
            ∧ SobelSyntheticness.calculateSyntheticness 1 1 = some v' ∧ v ≤ v')
      ∧ (¬ ∃ v v' : ℚ, Syntheticness.calculateSyntheticness 0 1 = some v
            ∧ Syntheticness.calculateSyntheticness 1 1 = some v' ∧ v ≤ v')
      ∧ Cxx.Double.le (Cxx.Double.inf true) (Cxx.Double.finite 0) = true
      ∧ Ieee.SobelSyntheticness.calculateSyntheticness (Cxx.Double.inf true) 402
          = some Cxx.Double.nan
      ∧ Ieee.SobelSyntheticness.calculateSyntheticness (Cxx.Double.finite 0) 402
          = some (Cxx.Double.ofInt 0)
      ∧ Ieee.Syntheticness.calculateSyntheticness (Cxx.Double.inf true) 402
          = some Cxx.Double.nan
      ∧ Ieee.Syntheticness.calculateSyntheticness (Cxx.Double.finite 0) 402
          = some (Cxx.Double.ofInt 0)
      ∧ Cxx.Double.le Cxx.Double.nan (Cxx.Double.ofInt 0) = false := by
  have hnan := ieee_score_inf_of_scale_zero true 402 (by decide) (by decide)
  have hzero := ieee_score_zero_of_finite_le (Cxx.Double.finite 0) 0 rfl 402 (by decide)
    (by norm_num)
  refine ⟨by decide, by norm_num, ?_, ?_, rfl, hnan, hzero, ?_, ?_, rfl⟩
  · rintro ⟨v, v', h, -, -⟩
    rw [(calculateSyntheticness_none_of_half_zero 0 1 (by decide)).1] at h
    exact Option.noConfusion h
  · rintro ⟨v, v', h, -, -⟩
    rw [(calculateSyntheticness_none_of_half_zero 0 1 (by decide)).2] at h
    exact Option.noConfusion h
  · rw [ieee_calculateSyntheticness_versions_eq]; exact hnan
  · rw [ieee_calculateSyntheticness_versions_eq]; exact hzero

/-- The clamped product of the finite model is monotone in `g0` when the
integer quotient `200 / (gmax / 2)` is not negative, and lies in `[0, 200]`. -/
theorem clamp_monotone (q q' g : ℚ) (k : Int) (hk : 0 ≤ k) (hq : q ≤ q') :
    max 0 (min 200 ((q - g) / 2 * (k : ℚ))) ≤ max 0 (min 200 ((q' - g) / 2 * (k : ℚ)))
      ∧ 0 ≤ max 0 (min 200 ((q - g) / 2 * (k : ℚ)))
      ∧ max 0 (min 200 ((q - g) / 2 * (k : ℚ))) ≤ 200 := by
  have hkQ : (0 : ℚ) ≤ (k : ℚ) := by exact_mod_cast hk
  have hraw : (q - g) / 2 * (k : ℚ) ≤ (q' - g) / 2 * (k : ℚ) :=
    mul_le_mul_of_nonneg_right (by linarith) hkQ
  exact ⟨max_le_max le_rfl (min_le_min le_rfl hraw), le_max_left _ _,
    max_le (by norm_num) (min_le_left _ _)⟩

/-- C4 (amended): for every fixed integer `gmax ≥ 2` and all finite
`g0 ≤ g0'`, both versions of `calculateSyntheticness` return values `v` (at
`g0`) and `v'` (at `g0'`) with `v ≤ v'`, in the finite model and on IEEE-754
doubles.  For `gmax ≤ 401` the same holds for all doubles `g0 <= g0'`, the
infinities included; for `gmax ≥ 402` the score at either infinity is NaN. -/
theorem C4_score_monotone (gmax : Int) (h : 2 ≤ gmax) :
    (∀ g0 g0' : ℚ, g0 ≤ g0' →
        ∃ v v' : ℚ, SobelSyntheticness.calculateSyntheticness g0 gmax = some v
          ∧ SobelSyntheticness.calculateSyntheticness g0' gmax = some v'
          ∧ Syntheticness.calculateSyntheticness g0 gmax = some v
          ∧ Syntheticness.calculateSyntheticness g0' gmax = some v'
          ∧ v ≤ v')
      ∧ (∀ (d d' : Cxx.Double) (q q' : ℚ), d.toRat? = some q → d'.toRat? = some q' →
          q ≤ q' →
          ∃ v v' : Cxx.Double,
            Ieee.SobelSyntheticness.calculateSyntheticness d gmax = some v
            ∧ Ieee.SobelSyntheticness.calculateSyntheticness d' gmax = some v'
            ∧ Ieee.Syntheticness.calculateSyntheticness d gmax = some v
            ∧ Ieee.Syntheticness.calculateSyntheticness d' gmax = some v'
            ∧ Cxx.Double.le v v' = true)
      ∧ (gmax ≤ 401 → ∀ d d' : Cxx.Double, Cxx.Double.le d d' = true →
          ∃ v v' : Cxx.Double,
            Ieee.SobelSyntheticness.calculateSyntheticness d gmax = some v
            ∧ Ieee.SobelSyntheticness.calculateSyntheticness d' gmax = some v'
            ∧ Ieee.Syntheticness.calculateSyntheticness d gmax = some v
            ∧ Ieee.Syntheticness.calculateSyntheticness d' gmax = some v'
            ∧ Cxx.Double.le v v' = true)
      ∧ (402 ≤ gmax → ∀ s : Bool,
          Ieee.SobelSyntheticness.calculateSyntheticness (Cxx.Double.inf s) gmax
              = some Cxx.Double.nan
            ∧ Ieee.Syntheticness.calculateSyntheticness (Cxx.Double.inf s) gmax
                = some Cxx.Double.nan) := by
  have hhalf := half_pos_of_two_le gmax h
  have hk := scale_nonneg_of_two_le gmax h
  have hne : gmax.tdiv 2 ≠ 0 := by omega
  have hfinite : ∀ (d d' : Cxx.Double) (q q' : ℚ), d.toRat? = some q → d'.toRat? = some q' →
      q ≤ q' →
      ∃ v v' : Cxx.Double,
        Ieee.SobelSyntheticness.calculateSyntheticness d gmax = some v
        ∧ Ieee.SobelSyntheticness.calculateSyntheticness d' gmax = some v'
        ∧ Ieee.Syntheticness.calculateSyntheticness d gmax = some v
        ∧ Ieee.Syntheticness.calculateSyntheticness d' gmax = some v'
        ∧ Cxx.Double.le v v' = true := by
    intro d d' q q' hd hd' hqq
    obtain ⟨v, hv, hvr⟩ := ieee_score_of_finite d q hd gmax hne
    obtain ⟨v', hv', hvr'⟩ := ieee_score_of_finite d' q' hd' gmax hne
    refine ⟨v, v', hv, hv', ?_, ?_, ?_⟩
    · rw [ieee_calculateSyntheticness_versions_eq]; exact hv
    · rw [ieee_calculateSyntheticness_versions_eq]; exact hv'
    · rw [Double_le_finite v v' _ _ hvr hvr', decide_eq_true_iff]
      exact (clamp_monotone q q' (gmax : ℚ) _ hk hqq).1
  refine ⟨?_, hfinite, ?_, ?_⟩
  · intro g0 g0' hg
    obtain ⟨hs, hy⟩ := calculateSyntheticness_eq_of_half_ne_zero g0 gmax hne
    obtain ⟨hs', hy'⟩ := calculateSyntheticness_eq_of_half_ne_zero g0' gmax hne
    exact ⟨_, _, hs, hs', hy, hy', (clamp_monotone g0 g0' (gmax : ℚ) _ hk hg).1⟩
  · intro h401 d d' hle
    obtain ⟨-, hpos⟩ := scale_pos_of_le_401 gmax h h401
    obtain ⟨hneg, hposinf⟩ := ieee_score_inf_of_scale_pos gmax hne hpos
    have hfin : ∀ n : Int, (Cxx.Double.ofInt n).toRat? = some (n : ℚ) := fun _ => rfl
    rcases Double_cases d with ⟨q, hd⟩ | ⟨s, rfl⟩ | rfl
    · rcases Double_cases d' with ⟨q', hd'⟩ | ⟨t, rfl⟩ | rfl
      · rw [Double_le_finite d d' q q' hd hd', decide_eq_true_iff] at hle
        exact hfinite d d' q q' hd hd' hle
      · rw [(Double_le_inf d q hd true t).1] at hle
        cases t with
        | true => exact Bool.noConfusion hle
        | false =>
          obtain ⟨v, hv, hvr⟩ := ieee_score_of_finite d q hd gmax hne
          refine ⟨v, _, hv, hposinf, ?_, ?_, ?_⟩
          · rw [ieee_calculateSyntheticness_versions_eq]; exact hv
          · rw [ieee_calculateSyntheticness_versions_eq]; exact hposinf
          · rw [Double_le_finite v _ _ _ hvr (hfin 200), decide_eq_true_iff]
            push_cast
            exact (clamp_monotone q q (gmax : ℚ) _ hk le_rfl).2.2
      · rw [(Double_nan_propagates d).2.2.2.1] at hle
        exact Bool.noConfusion hle
    · rcases Double_cases d' with ⟨q', hd'⟩ | ⟨t, rfl⟩ | rfl
      · rw [(Double_le_inf d' q' hd' s true).2.1] at hle
        subst hle
        obtain ⟨v', hv', hvr'⟩ := ieee_score_of_finite d' q' hd' gmax hne
        refine ⟨_, v', hneg, hv', ?_, ?_, ?_⟩
        · rw [ieee_calculateSyntheticness_versions_eq]; exact hneg
        · rw [ieee_calculateSyntheticness_versions_eq]; exact hv'
        · rw [Double_le_finite _ v' _ _ (hfin 0) hvr', decide_eq_true_iff]
          push_cast
          exact (clamp_monotone q' q' (gmax : ℚ) _ hk le_rfl).2.1
      · cases s with
        | true =>
          cases t with
          | true =>
            exact ⟨_, _, hneg, hneg,
              by rw [ieee_calculateSyntheticness_versions_eq]; exact hneg,
              by rw [ieee_calculateSyntheticness_versions_eq]; exact hneg, by decide⟩
          | false =>
            exact ⟨_, _, hneg, hposinf,
              by rw [ieee_calculateSyntheticness_versions_eq]; exact hneg,
              by rw [ieee_calculateSyntheticness_versions_eq]; exact hposinf, by decide⟩
        | false =>
          cases t with
          | true => exact Bool.noConfusion hle
          | false =>
            exact ⟨_, _, hposinf, hposinf,
              by rw [ieee_calculateSyntheticness_versions_eq]; exact hposinf,
              by rw [ieee_calculateSyntheticness_versions_eq]; exact hposinf, by decide⟩
      · exact Bool.noConfusion hle
    · rw [(Double_nan_propagates d').2.2.2.2] at hle
      exact Bool.noConfusion hle
  · intro h402 s
    obtain ⟨-, hzero⟩ := scale_zero_of_large_gmax gmax h402
    have hz := ieee_score_inf_of_scale_zero s gmax hne hzero
    exact ⟨hz, by rw [ieee_calculateSyntheticness_versions_eq]; exact hz⟩

/-- C4 (amended), at `gmax = 49`: `g0 = 60 ≤ g0' = 70` in the finite model and
`g0 = -inf <= g0' = +inf` on IEEE-754 doubles; and at `gmax = 402`, where the
score at `-inf` is NaN. -/
theorem C4_score_monotone_witness :
    (∃ v v' : ℚ, SobelSyntheticness.calculateSyntheticness 60 49 = some v
        ∧ SobelSyntheticness.calculateSyntheticness 70 49 = some v'
        ∧ Syntheticness.calculateSyntheticness 60 49 = some v
        ∧ Syntheticness.calculateSyntheticness 70 49 = some v'
        ∧ v ≤ v')
      ∧ (∃ v v' : Cxx.Double,
          Ieee.SobelSyntheticness.calculateSyntheticness (Cxx.Double.inf true) 49 = some v
          ∧ Ieee.SobelSyntheticness.calculateSyntheticness (Cxx.Double.inf false) 49 = some v'
          ∧ Ieee.Syntheticness.calculateSyntheticness (Cxx.Double.inf true) 49 = some v
          ∧ Ieee.Syntheticness.calculateSyntheticness (Cxx.Double.inf false) 49 = some v'
          ∧ Cxx.Double.le v v' = true)
      ∧ Ieee.SobelSyntheticness.calculateSyntheticness (Cxx.Double.inf true) 402
          = some Cxx.Double.nan :=
  have w := C4_score_monotone 49 (by decide)
  have w' := C4_score_monotone 402 (by decide)
  ⟨w.1 60 70 (by norm_num),
    w.2.2.1 (by decide) (Cxx.Double.inf true) (Cxx.Double.inf false) rfl,
    (w'.2.2.2 (by decide) true).1⟩

/-! ### The regression fit with 32-bit `int` arithmetic -/

/-- An `int` result that is in range is held as it is. -/
theorem wrapInt_of_fits (x : Int) (h : Cxx.fitsInt x = true) : Cxx.wrapInt x = x := by
  simp only [Cxx.fitsInt, Bool.and_eq_true, decide_eq_true_eq] at h
  unfold Cxx.wrapInt
  omega

/-- Wrapping an intermediate sum does not change the wrapped total. -/
theorem wrapInt_add_wrapInt (a b : Int) :
    Cxx.wrapInt (Cxx.wrapInt a + b) = Cxx.wrapInt (a + b) := by
  unfold Cxx.wrapInt
  omega

/-- The `int` total of `std::accumulate` is the wrapped sum of the counts. -/
theorem machine_accumulate (histogram : List Int) :
    histogram.foldl (fun acc h => Cxx.iadd acc h) 0 = Cxx.wrapInt histogram.sum := by
  have h1 : ∀ (l : List Int) (a : Int),
      l.foldl (fun acc h => Cxx.iadd acc h) (Cxx.wrapInt a) = Cxx.wrapInt (a + l.sum) := by
    intro l
    induction l with
    | nil => intro a; simp
    | cons x xs ih =>
      intro a
      rw [List.foldl_cons, Cxx.iadd, wrapInt_add_wrapInt, ih, List.sum_cons, add_assoc]
  have h0 : Cxx.wrapInt 0 = 0 := by decide
  have := h1 histogram 0
  rw [h0, zero_add] at this
  exact this

/-- The summation loop of `fitRegressionLine` with `int` products, run over the
first `k` bins from the accumulators `s`, adds the four partial sums of the
source: the bin indices, the counts, the `int` products `i * histogram[i]` and
the `int` squares `i * i`. -/
theorem machine_regression_loop (histogram : List Int) (k : Nat)
    (hk : k ≤ histogram.length) (s : RegressionSums) :
    (List.range k).foldlM (Machine.regressionStep (Cxx.iota histogram.length) histogram) s
      = some { sum_x := s.sum_x + ∑ i ∈ Finset.range k, (i : ℚ),
               sum_y := s.sum_y + ∑ i ∈ Finset.range k, ((histogram.getD i 0 : Int) : ℚ),
               sum_xy := s.sum_xy
                 + ∑ i ∈ Finset.range k,
                     ((Cxx.imul (i : Int) (histogram.getD i 0) : Int) : ℚ),
               sum_x2 := s.sum_x2
                 + ∑ i ∈ Finset.range k, ((Cxx.imul (i : Int) (i : Int) : Int) : ℚ) } := by
  induction k with
  | zero => simp
  | succ k ih =>
    have hlt : k < histogram.length := hk
    rw [List.range_succ, List.foldlM_append, ih (Nat.le_of_lt hlt)]
    have hc := iota_getElem? histogram.length k hlt
    have hh : histogram[k]? = some (histogram.getD k 0) := by
      simp [List.getD_eq_getElem?_getD, List.getElem?_eq_getElem hlt]
    simp only [Option.bind_eq_bind, Option.some_bind, List.foldlM_cons, List.foldlM_nil,
      Machine.regressionStep, hc, hh, Finset.sum_range_succ]
    simp only [pure, Option.some.injEq, RegressionSums.mk.injEq]
    refine ⟨?_, ?_, ?_, ?_⟩ <;> push_cast <;> ring

/-- The two versions of `fitRegressionLine` with `int` arithmetic are the same
function. -/
theorem machine_fitRegressionLine_versions_eq (histogram : List Int) :
    Machine.Syntheticness.fitRegressionLine histogram
      = Machine.SobelSyntheticness.fitRegressionLine histogram := rfl

/-- On a non-empty histogram `fitRegressionLine` with `int` arithmetic returns
the three quotients of the code over the values `total`, `sx`, `sy`, `sxy`,
`sx2` of `total` and of the four accumulators after the loop, and
`gmax = bin_count - 1`. -/
theorem machine_fitRegressionLine_eq (histogram : List Int) (hne : histogram ≠ [])
    (total sx sy sxy sx2 : ℚ)
    (htotal : ((Cxx.wrapInt histogram.sum : Int) : ℚ) = total)
    (hsx : ∑ i ∈ Finset.range histogram.length, (i : ℚ) = sx)
    (hsy : ∑ i ∈ Finset.range histogram.length, ((histogram.getD i 0 : Int) : ℚ) = sy)
    (hsxy : ∑ i ∈ Finset.range histogram.length,
        ((Cxx.imul (i : Int) (histogram.getD i 0) : Int) : ℚ) = sxy)
    (hsx2 : ∑ i ∈ Finset.range histogram.length,
        ((Cxx.imul (i : Int) (i : Int) : Int) : ℚ) = sx2) :
    Machine.SobelSyntheticness.fitRegressionLine histogram
      = some
          { slope := Cxx.fdiv (total * sxy - sx * sy) (total * sx2 - sx * sx),
            intercept :=
              (Cxx.fdiv (total * sxy - sx * sy) (total * sx2 - sx * sx)).bind
                fun s => Cxx.fdiv (sy - s * sx) total,
            gmax := (histogram.length : Int) - 1,
            g0 :=
              ((Cxx.fdiv (total * sxy - sx * sy) (total * sx2 - sx * sx)).bind
                fun s => Cxx.fdiv (sy - s * sx) total).bind
                fun c =>
                  (Cxx.fdiv (total * sxy - sx * sy) (total * sx2 - sx * sx)).bind
                    fun s => Cxx.fdiv (-c) s } := by
  have hpos : 0 < histogram.length := List.length_pos.mpr hne
  have hloop := machine_regression_loop histogram histogram.length le_rfl ⟨0, 0, 0, 0⟩
  have hlast : (Cxx.iota histogram.length)[histogram.length - 1]?
      = some ((histogram.length : Int) - 1) := by
    rw [iota_getElem? histogram.length (histogram.length - 1) (by omega)]
    congr 1
    omega
  have h0 : histogram.length ≠ 0 := by omega
  simp only [Machine.SobelSyntheticness.fitRegressionLine, hloop, Option.bind_eq_bind,
    Option.some_bind, zero_add, machine_accumulate, h0, if_false, hlast, htotal, hsx, hsy,
    hsxy, hsx2]

/-- What `noOverflow` says: the total of the counts, every product
`i * histogram[i]` and every square `i * i` is in the range of `int`. -/
theorem noOverflow_iff (histogram : List Int) :
    Machine.noOverflow histogram = true
      ↔ Cxx.fitsInt histogram.sum = true
        ∧ ∀ i : Nat, i < histogram.length →
            Cxx.fitsInt ((i : Int) * histogram.getD i 0) = true
              ∧ Cxx.fitsInt ((i : Int) * (i : Int)) = true := by
  simp only [Machine.noOverflow, Bool.and_eq_true, List.all_eq_true, List.mem_range]

/-- Where no `int` operation overflows, `fitRegressionLine` with 32-bit `int`
arithmetic is `fitRegressionLine` with exact integer arithmetic, in both
versions. -/
theorem machine_fitRegressionLine_eq_exact (histogram : List Int)
    (hfits : Machine.noOverflow histogram = true) :
    Machine.SobelSyntheticness.fitRegressionLine histogram
        = SobelSyntheticness.fitRegressionLine histogram
      ∧ Machine.Syntheticness.fitRegressionLine histogram
        = Syntheticness.fitRegressionLine histogram := by
  have key : Machine.SobelSyntheticness.fitRegressionLine histogram
      = SobelSyntheticness.fitRegressionLine histogram := by
    by_cases hne : histogram = []
    · subst hne; rfl
    · obtain ⟨hsum, hprod⟩ := (noOverflow_iff histogram).mp hfits
      rw [fitRegressionLine_eq histogram hne]
      refine machine_fitRegressionLine_eq histogram hne _ _ _ _ _ ?_ rfl rfl ?_ ?_
      · rw [wrapInt_of_fits _ hsum, specN_eq_sum]
      · rw [Spec.sumXY]
        refine Finset.sum_congr rfl fun i hi => ?_
        rw [Cxx.imul, wrapInt_of_fits _ (hprod i (Finset.mem_range.mp hi)).1]
        push_cast
        ring
      · rw [Spec.sumX2]
        refine Finset.sum_congr rfl fun i hi => ?_
        rw [Cxx.imul, wrapInt_of_fits _ (hprod i (Finset.mem_range.mp hi)).2]
        push_cast
        ring
  exact ⟨key, by rw [machine_fitRegressionLine_versions_eq, key, fitRegressionLine_versions_eq]⟩

/-- A sum over the bins of a histogram whose only non-zero count `k` is in the
last bin `m` has the single term of that bin. -/
theorem spike_sum (m : Nat) (k : Int) (f : Nat → Int → ℚ) (hf : ∀ i, f i 0 = 0) :
    ∑ i ∈ Finset.range (List.replicate m (0 : Int) ++ [k]).length,
        f i ((List.replicate m (0 : Int) ++ [k]).getD i 0)
      = f m k := by
  have hlen : (List.replicate m (0 : Int) ++ [k]).length = m + 1 := by simp
  have hlt : ∀ i : Nat, i < m → (List.replicate m (0 : Int) ++ [k]).getD i 0 = 0 := by
    intro i hi
    rw [List.getD_eq_getElem?_getD, List.getElem?_append_left (by simpa using hi)]
    simp [List.getElem?_replicate, hi]
  have hlast : (List.replicate m (0 : Int) ++ [k]).getD m 0 = k := by
    rw [List.getD_eq_getElem?_getD, List.getElem?_append_right (by simp)]
    simp
  rw [hlen, Finset.sum_range_succ, hlast, Finset.sum_eq_zero, zero_add]
  intro i hi
  rw [hlt i (Finset.mem_range.mp hi), hf]

/-- The square of a bin index below `46341` is in the range of `int`. -/
theorem imul_self_of_small (i : Nat) (h : i < 46341) :
    Cxx.imul (i : Int) (i : Int) = (i : Int) * (i : Int) := by
  refine wrapInt_of_fits _ ?_
  simp only [Cxx.fitsInt, Bool.and_eq_true, decide_eq_true_eq]
  have h1 : (i : Int) ≤ 46340 := by omega
  have h0 : (0 : Int) ≤ (i : Int) := Int.ofNat_nonneg i
  constructor <;> nlinarith

/-- The sum of the `int` squares of the bin indices is `Σx²` below `46341`
bins. -/
theorem machine_sum_x2 (m : Nat) (h : m ≤ 46341) :
    ∑ i ∈ Finset.range m, ((Cxx.imul (i : Int) (i : Int) : Int) : ℚ)
      = ∑ i ∈ Finset.range m, (i : ℚ) ^ 2 := by
  refine Finset.sum_congr rfl fun i hi => ?_
  rw [imul_self_of_small i (by have := Finset.mem_range.mp hi; omega)]
  push_cast
  ring

/-- The values of `total` and of the accumulators of `fitRegressionLine` on the
50-bin histogram with `43826197` counts in bin `49`: the `int` product
`49 * 43826197 = 2147483653` wraps to `-2147483643`. -/
theorem spike_sums :
    ((Cxx.wrapInt (List.replicate 49 (0 : Int) ++ [43826197]).sum : Int) : ℚ) = 43826197
      ∧ ∑ i ∈ Finset.range (List.replicate 49 (0 : Int) ++ [43826197]).length, (i : ℚ) = 1225
      ∧ ∑ i ∈ Finset.range (List.replicate 49 (0 : Int) ++ [43826197]).length,
          (((List.replicate 49 (0 : Int) ++ [43826197]).getD i 0 : Int) : ℚ) = 43826197
      ∧ ∑ i ∈ Finset.range (List.replicate 49 (0 : Int) ++ [43826197]).length,
          ((Cxx.imul (i : Int) ((List.replicate 49 (0 : Int) ++ [43826197]).getD i 0) : Int) : ℚ)
          = -2147483643
      ∧ ∑ i ∈ Finset.range (List.replicate 49 (0 : Int) ++ [43826197]).length,
          ((Cxx.imul (i : Int) (i : Int) : Int) : ℚ) = 40425
      ∧ ∑ i ∈ Finset.range (List.replicate 49 (0 : Int) ++ [43826197]).length,
          (i : ℚ) * (((List.replicate 49 (0 : Int) ++ [43826197]).getD i 0 : Int) : ℚ)
          = 2147483653
      ∧ ∑ i ∈ Finset.range (List.replicate 49 (0 : Int) ++ [43826197]).length,
          (i : ℚ) ^ 2 = 40425 := by
  have hlen : (List.replicate 49 (0 : Int) ++ [43826197]).length = 50 := by simp
  have hsum : (List.replicate 49 (0 : Int) ++ [43826197]).sum = 43826197 := by simp
  have hw : Cxx.wrapInt 43826197 = 43826197 := by decide
  have hm : Cxx.imul ((49 : Nat) : Int) 43826197 = -2147483643 := by decide
  have hz : ∀ i : Nat, ((Cxx.imul (i : Int) 0 : Int) : ℚ) = 0 := by
    intro i
    have : Cxx.imul (i : Int) 0 = 0 := by rw [Cxx.imul, mul_zero]; decide
    rw [this]; norm_num
  have hx2 : ∑ i ∈ Finset.range 50, (i : ℚ) ^ 2 = 40425 := by
    rw [sum_range_index_sq]; norm_num
  refine ⟨?_, ?_, ?_, ?_, ?_, ?_, ?_⟩
  · rw [hsum, hw]; norm_num
  · rw [hlen, sum_range_index]; norm_num
  · have := spike_sum 49 43826197 (fun _ h => ((h : Int) : ℚ)) (fun _ => by norm_num)
    simpa using this
  · have := spike_sum 49 43826197 (fun i h => ((Cxx.imul (i : Int) h : Int) : ℚ)) hz
    rw [this]
    show ((Cxx.imul ((49 : Nat) : Int) 43826197 : Int) : ℚ) = -2147483643
    rw [hm]; norm_num
  · rw [hlen, machine_sum_x2 50 (by decide), hx2]
  · have := spike_sum 49 43826197 (fun i h => (i : ℚ) * ((h : Int) : ℚ)) (fun _ => by norm_num)
    rw [this]
    show (((49 : Nat) : ℚ)) * (((43826197 : Int) : Int) : ℚ) = 2147483653
    norm_num
  · rw [hlen, hx2]

/-- C6 fails on the code for large counts: on the 50-bin histogram with
`43826197` counts in bin `49` (total count, denominator and slope of the
specification are non-zero) the `int` product `49 * 43826197 = 2147483653`
of the summation loop overflows and wraps to `-2147483643`, and both versions
of `fitRegressionLine` compute a negative slope and another `g0` than the
closed-form expressions of the specification. -/
theorem C6_fitRegressionLine_overflow_counterexample :
    List.replicate 49 (0 : Int) ++ [43826197] ≠ []
      ∧ Spec.n (List.replicate 49 (0 : Int) ++ [43826197]) = 43826197
      ∧ Spec.denominator (List.replicate 49 (0 : Int) ++ [43826197]) = 1771672513100
      ∧ Spec.slope (List.replicate 49 (0 : Int) ++ [43826197])
          = 480183611956971 / 9039145475
      ∧ Spec.g0 (List.replicate 49 (0 : Int) ++ [43826197]) = 100 / 10956543
      ∧ Cxx.imul 49 43826197 = -2147483643
      ∧ Machine.noOverflow (List.replicate 49 (0 : Int) ++ [43826197]) = false
      ∧ Machine.SobelSyntheticness.fitRegressionLine
            (List.replicate 49 (0 : Int) ++ [43826197])
          = some { slope := some (-23529023719871749 / 442918128275),
                   intercept := some (898437036 / 361565819), gmax := 49,
                   g0 := some (1100585369100 / 23529023719871749) }
      ∧ Machine.Syntheticness.fitRegressionLine
            (List.replicate 49 (0 : Int) ++ [43826197])
          = some { slope := some (-23529023719871749 / 442918128275),
                   intercept := some (898437036 / 361565819), gmax := 49,
                   g0 := some (1100585369100 / 23529023719871749) }
      ∧ (-23529023719871749 / 442918128275 : ℚ)
          ≠ Spec.slope (List.replicate 49 (0 : Int) ++ [43826197])
      ∧ (1100585369100 / 23529023719871749 : ℚ)
          ≠ Spec.g0 (List.replicate 49 (0 : Int) ++ [43826197]) := by
  obtain ⟨htotal, hsx, hsy, hsxy, hsx2, hxy, hx2⟩ := spike_sums
  have hne : List.replicate 49 (0 : Int) ++ [43826197] ≠ [] := by simp
  have hn : Spec.n (List.replicate 49 (0 : Int) ++ [43826197]) = 43826197 := hsy
  have hden : Spec.denominator (List.replicate 49 (0 : Int) ++ [43826197])
      = 1771672513100 := by
    rw [Spec.denominator, hn, Spec.sumX2, Spec.sumX, hx2, hsx]; norm_num
  have hslope : Spec.slope (List.replicate 49 (0 : Int) ++ [43826197])
      = 480183611956971 / 9039145475 := by
    rw [Spec.slope, hden, hn, Spec.sumXY, Spec.sumX, Spec.sumY, hxy, hsx, hsy]; norm_num
  have hic : Spec.intercept (List.replicate 49 (0 : Int) ++ [43826197])
      = -175304788 / 361565819 := by
    rw [Spec.intercept, hslope, hn, Spec.sumX, Spec.sumY, hsx, hsy]; norm_num
  have hg0 : Spec.g0 (List.replicate 49 (0 : Int) ++ [43826197]) = 100 / 10956543 := by
    rw [Spec.g0, hslope, hic]; norm_num
  have key := machine_fitRegressionLine_eq (List.replicate 49 (0 : Int) ++ [43826197]) hne
    43826197 1225 43826197 (-2147483643) 40425 htotal hsx hsy hsxy hsx2
  have e1 : Cxx.fdiv ((43826197 : ℚ) * (-2147483643) - 1225 * 43826197)
      (43826197 * 40425 - 1225 * 1225) = some (-23529023719871749 / 442918128275) := by
    norm_num [Cxx.fdiv]
  have e2 : Cxx.fdiv ((43826197 : ℚ) - -23529023719871749 / 442918128275 * 1225) 43826197
      = some (898437036 / 361565819) := by
    norm_num [Cxx.fdiv]
  have e3 : Cxx.fdiv (-(898437036 / 361565819 : ℚ)) (-23529023719871749 / 442918128275)
      = some (1100585369100 / 23529023719871749) := by
    norm_num [Cxx.fdiv]
  simp only [e1, Option.some_bind, e2, e3] at key
  have hg : ((List.replicate 49 (0 : Int) ++ [43826197]).length : Int) - 1 = 49 := by
    simp
  rw [hg] at key
  have hno : Machine.noOverflow (List.replicate 49 (0 : Int) ++ [43826197]) = false := by
    cases hb : Machine.noOverflow (List.replicate 49 (0 : Int) ++ [43826197]) with
    | false => rfl
    | true =>
      exfalso
      have h49 := ((noOverflow_iff _).mp hb).2 49 (by simp)
      have hget : (List.replicate 49 (0 : Int) ++ [43826197]).getD 49 0 = 43826197 := by
        rw [List.getD_eq_getElem?_getD, List.getElem?_append_right (by simp)]
        simp
      rw [hget] at h49
      exact absurd h49.1 (by decide)
  refine ⟨hne, hn, hden, hslope, hg0, by decide, hno, key, ?_, ?_, ?_⟩
  · rw [machine_fitRegressionLine_versions_eq, key]
  · rw [hslope]; norm_num
  · rw [hg0]; norm_num

/-- C6 (amended): on every non-empty histogram on which no `int` operation of
`fitRegressionLine` overflows (the total count, every product
`bin_index * count` and every square of a bin index is in the range of the
32-bit `int`), with non-zero total count `n = Σy`, non-zero regression
denominator and non-zero slope, both versions of `fitRegressionLine` return
`g0 = -intercept/slope` and set `gmax = bin_count - 1`, where `slope`,
`intercept` are the closed-form expressions of the specification over the
points `(bin_index, count)` with `n` the sum of the counts. -/
theorem C6_fitRegressionLine_refines_spec (histogram : List Int)
    (hne : histogram ≠ []) (hfits : Machine.noOverflow histogram = true)
    (hn : Spec.n histogram ≠ 0)
    (hden : Spec.denominator histogram ≠ 0) (hslope : Spec.slope histogram ≠ 0) :
    Machine.SobelSyntheticness.fitRegressionLine histogram
        = some { slope := some (Spec.slope histogram),
                 intercept := some (Spec.intercept histogram),
                 gmax := Spec.gmax histogram,
                 g0 := some (Spec.g0 histogram) }
      ∧ Machine.Syntheticness.fitRegressionLine histogram
        = some { slope := some (Spec.slope histogram),
                 intercept := some (Spec.intercept histogram),
                 gmax := Spec.gmax histogram,
                 g0 := some (Spec.g0 histogram) }
      ∧ Spec.g0 histogram = -Spec.intercept histogram / Spec.slope histogram
      ∧ Spec.gmax histogram = (histogram.length : Int) - 1 := by
  have hden' : Spec.n histogram * Spec.sumX2 histogram
      - Spec.sumX histogram * Spec.sumX histogram ≠ 0 := by
    have : Spec.n histogram * Spec.sumX2 histogram
        - Spec.sumX histogram * Spec.sumX histogram = Spec.denominator histogram := by
      rw [Spec.denominator]; ring
    rw [this]; exact hden
  have hsl : Cxx.fdiv
      (Spec.n histogram * Spec.sumXY histogram - Spec.sumX histogram * Spec.sumY histogram)
      (Spec.n histogram * Spec.sumX2 histogram - Spec.sumX histogram * Spec.sumX histogram)
      = some (Spec.slope histogram) := by
    rw [Cxx.fdiv, if_neg hden', Spec.slope, Spec.denominator]
    congr 2; ring
  have hic : Cxx.fdiv (Spec.sumY histogram - Spec.slope histogram * Spec.sumX histogram)
      (Spec.n histogram) = some (Spec.intercept histogram) := by
    rw [Cxx.fdiv, if_neg hn, Spec.intercept]
  have hg0 : Cxx.fdiv (-Spec.intercept histogram) (Spec.slope histogram)
      = some (Spec.g0 histogram) := by
    rw [Cxx.fdiv, if_neg hslope, Spec.g0]
  obtain ⟨hm1, hm2⟩ := machine_fitRegressionLine_eq_exact histogram hfits
  have key := fitRegressionLine_eq histogram hne
  simp only [hsl, Option.some_bind, hic, hg0] at key
  refine ⟨?_, ?_, rfl, rfl⟩
  · rw [hm1, key, Spec.gmax]
  · rw [hm2, fitRegressionLine_versions_eq, key, Spec.gmax]

/-- C6 (amended), on the histogram `[2, 1, 0]`: no `int` operation overflows,
`n = 3`, the denominator is `6`, the slope is `-1`. -/
theorem C6_fitRegressionLine_refines_spec_witness :
    Machine.SobelSyntheticness.fitRegressionLine [2, 1, 0]
        = some { slope := some (Spec.slope [2, 1, 0]),
                 intercept := some (Spec.intercept [2, 1, 0]),
                 gmax := Spec.gmax [2, 1, 0],
                 g0 := some (Spec.g0 [2, 1, 0]) }
      ∧ Machine.Syntheticness.fitRegressionLine [2, 1, 0]
        = some { slope := some (Spec.slope [2, 1, 0]),
                 intercept := some (Spec.intercept [2, 1, 0]),
                 gmax := Spec.gmax [2, 1, 0],
                 g0 := some (Spec.g0 [2, 1, 0]) }
      ∧ Spec.g0 [2, 1, 0] = -Spec.intercept [2, 1, 0] / Spec.slope [2, 1, 0]
      ∧ Spec.gmax [2, 1, 0] = (([2, 1, 0] : List Int).length : Int) - 1 :=
  C6_fitRegressionLine_refines_spec [2, 1, 0] (by simp) (by decide)
    (by norm_num [Spec.n, Spec.sumY, Finset.sum_range_succ])
    (by norm_num [Spec.denominator, Spec.n, Spec.sumY, Spec.sumX, Spec.sumX2,
          Finset.sum_range_succ])
    (by norm_num [Spec.slope, Spec.denominator, Spec.n, Spec.sumY, Spec.sumX, Spec.sumX2,
          Spec.sumXY, Finset.sum_range_succ])

/-- A histogram of non-negative counts with at most `46341` bins whose total
count `n` satisfies `n ≤ 2147483647` and `(bin_count - 1) * n ≤ 2147483647`
makes no `int` operation of `fitRegressionLine` overflow; with the 50 bins of
the Sobel pipeline this is every total count up to `43826196`. -/
theorem noOverflow_of_nonneg (histogram : List Int) (hnn : ∀ x ∈ histogram, 0 ≤ x)
    (hlen : histogram.length ≤ 46341) (hsum : histogram.sum ≤ 2147483647)
    (hprod : ((histogram.length : Int) - 1) * histogram.sum ≤ 2147483647) :
    Machine.noOverflow histogram = true := by
  rw [noOverflow_iff]
  have hs0 : 0 ≤ histogram.sum := List.sum_nonneg hnn
  refine ⟨?_, ?_⟩
  · simp only [Cxx.fitsInt, Bool.and_eq_true, decide_eq_true_eq]
    constructor <;> omega
  · intro i hi
    have hmem : histogram.getD i 0 ∈ histogram := by
      rw [List.getD_eq_getElem?_getD, List.getElem?_eq_getElem hi]
      exact List.getElem_mem hi
    have h0 : 0 ≤ histogram.getD i 0 := hnn _ hmem
    have hle : histogram.getD i 0 ≤ histogram.sum := List.single_le_sum hnn _ hmem
    have hi0 : (0 : Int) ≤ (i : Int) := Int.ofNat_nonneg i
    have hi1 : (i : Int) ≤ (histogram.length : Int) - 1 := by omega
    have hi2 : (i : Int) ≤ 46340 := by omega
    simp only [Cxx.fitsInt, Bool.and_eq_true, decide_eq_true_eq]
    refine ⟨⟨?_, ?_⟩, ?_, ?_⟩
    · have := mul_nonneg hi0 h0
      omega
    · calc (i : Int) * histogram.getD i 0
          ≤ ((histogram.length : Int) - 1) * histogram.sum :=
            mul_le_mul hi1 hle h0 (by omega)
        _ ≤ 2147483647 := hprod
    · nlinarith
    · nlinarith

/-- C5 fails on the code: on the specification's instance `counts[i] = 10 - i`,
`i = 0..9`, both versions of `fitRegressionLine` compute slope `44/91` and
intercept `55/91` (and `g0 = -5/4`), not slope `-1` and intercept `10`,
because the least-squares `n` of the code is the total count `55`, not the
number of bins `10`; no `int` operation overflows on this histogram.  On the
linear histogram `counts[i] = 536870912 * i` of three bins the `int` product
`2 * 1073741824` overflows, and the computed slope is negative. -/
theorem C5_linear_fit_counterexample :
    SobelSyntheticness.fitRegressionLine [10, 9, 8, 7, 6, 5, 4, 3, 2, 1]
        = some { slope := some (44 / 91), intercept := some (55 / 91), gmax := 9,
                 g0 := some (-5 / 4) }
      ∧ Syntheticness.fitRegressionLine [10, 9, 8, 7, 6, 5, 4, 3, 2, 1]
        = some { slope := some (44 / 91), intercept := some (55 / 91), gmax := 9,
                 g0 := some (-5 / 4) }
      ∧ (44 / 91 : ℚ) ≠ -1 ∧ (55 / 91 : ℚ) ≠ 10
      ∧ Machine.noOverflow [10, 9, 8, 7, 6, 5, 4, 3, 2, 1] = true
      ∧ Machine.SobelSyntheticness.fitRegressionLine [10, 9, 8, 7, 6, 5, 4, 3, 2, 1]
        = some { slope := some (44 / 91), intercept := some (55 / 91), gmax := 9,
                 g0 := some (-5 / 4) }
      ∧ Machine.Syntheticness.fitRegressionLine [10, 9, 8, 7, 6, 5, 4, 3, 2, 1]
        = some { slope := some (44 / 91), intercept := some (55 / 91), gmax := 9,
                 g0 := some (-5 / 4) }
      ∧ Machine.noOverflow [0, 536870912, 1073741824] = false
      ∧ Machine.SobelSyntheticness.fitRegressionLine [0, 536870912, 1073741824]
        = some { slope := some (-864691130065747968 / 2684354557),
                 intercept := some (4294967296 / 2684354557), gmax := 2,
                 g0 := some (8 / 1610612739) }
      ∧ Machine.Syntheticness.fitRegressionLine [0, 536870912, 1073741824]
        = some { slope := some (-864691130065747968 / 2684354557),
                 intercept := some (4294967296 / 2684354557), gmax := 2,
                 g0 := some (8 / 1610612739) }
      ∧ (-864691130065747968 / 2684354557 : ℚ) ≠ 536870912 := by
  have hn : Spec.n [10, 9, 8, 7, 6, 5, 4, 3, 2, 1] = 55 := by
    norm_num [Spec.n, Spec.sumY, Finset.sum_range_succ]
  have hy : Spec.sumY [10, 9, 8, 7, 6, 5, 4, 3, 2, 1] = 55 := by
    norm_num [Spec.sumY, Finset.sum_range_succ]
  have hx : Spec.sumX [10, 9, 8, 7, 6, 5, 4, 3, 2, 1] = 45 := by
    norm_num [Spec.sumX, Finset.sum_range_succ]
  have hxy : Spec.sumXY [10, 9, 8, 7, 6, 5, 4, 3, 2, 1] = 165 := by
    norm_num [Spec.sumXY, Finset.sum_range_succ]
  have hx2 : Spec.sumX2 [10, 9, 8, 7, 6, 5, 4, 3, 2, 1] = 285 := by
    norm_num [Spec.sumX2, Finset.sum_range_succ]
  have key := fitRegressionLine_eq [10, 9, 8, 7, 6, 5, 4, 3, 2, 1] (by simp)
  rw [hn, hy, hx, hxy, hx2] at key
  have e1 : Cxx.fdiv ((55 : ℚ) * 165 - 45 * 55) (55 * 285 - 45 * 45) = some (44 / 91) := by
    norm_num [Cxx.fdiv]
  have e2 : Cxx.fdiv ((55 : ℚ) - 44 / 91 * 45) 55 = some (55 / 91) := by
    norm_num [Cxx.fdiv]
  have e3 : Cxx.fdiv (-(55 / 91 : ℚ)) (44 / 91) = some (-5 / 4) := by
    norm_num [Cxx.fdiv]
  simp only [e1, Option.some_bind, e2, e3] at key
  have hg : (([10, 9, 8, 7, 6, 5, 4, 3, 2, 1] : List Int).length : Int) - 1 = 9 := by
    simp
  rw [hg] at key
  have hfits : Machine.noOverflow [10, 9, 8, 7, 6, 5, 4, 3, 2, 1] = true := by decide
  obtain ⟨hm1, hm2⟩ := machine_fitRegressionLine_eq_exact _ hfits
  have mkey := machine_fitRegressionLine_eq [0, 536870912, 1073741824] (by simp)
    1610612736 3 1610612736 (-1610612736) 5
    (by norm_num [Cxx.wrapInt])
    (by norm_num [Finset.sum_range_succ])
    (by norm_num [Finset.sum_range_succ])
    (by norm_num [Finset.sum_range_succ, Cxx.imul, Cxx.wrapInt])
    (by norm_num [Finset.sum_range_succ, Cxx.imul, Cxx.wrapInt])
  have f1 : Cxx.fdiv ((1610612736 : ℚ) * (-1610612736) - 3 * 1610612736)
      (1610612736 * 5 - 3 * 3) = some (-864691130065747968 / 2684354557) := by
    norm_num [Cxx.fdiv]
  have f2 : Cxx.fdiv ((1610612736 : ℚ) - -864691130065747968 / 2684354557 * 3) 1610612736
      = some (4294967296 / 2684354557) := by
    norm_num [Cxx.fdiv]
  have f3 : Cxx.fdiv (-(4294967296 / 2684354557 : ℚ)) (-864691130065747968 / 2684354557)
      = some (8 / 1610612739) := by
    norm_num [Cxx.fdiv]
  simp only [f1, Option.some_bind, f2, f3] at mkey
  have hg2 : (([0, 536870912, 1073741824] : List Int).length : Int) - 1 = 2 := by simp
  rw [hg2] at mkey
  refine ⟨key, ?_, by norm_num, by norm_num, hfits, ?_, ?_, by decide, mkey, ?_,
    by norm_num⟩
  · rw [fitRegressionLine_versions_eq, key]
  · rw [hm1, key]
  · rw [hm2, fitRegressionLine_versions_eq, key]
  · rw [machine_fitRegressionLine_versions_eq, mkey]

/-- C5 (amended): for every histogram with at least two bins whose counts are
exactly linear in the bin index (`counts[i] = b + a*i`) and on which no `int`
operation of `fitRegressionLine` overflows, both versions of
`fitRegressionLine` compute `slope = a` and `intercept = b` if and only if the
total count `n` and the regression denominator are non-zero and `b = 0` or the
total count equals the number of bins. -/
theorem C5_linear_fit_iff (histogram : List Int) (a b : Int)
    (hbins : 2 ≤ histogram.length)
    (hlin : ∀ i : Nat, i < histogram.length → histogram.getD i 0 = b + a * (i : Int))
    (hfits : Machine.noOverflow histogram = true) :
    ∃ r : RegressionFit, Machine.SobelSyntheticness.fitRegressionLine histogram = some r
      ∧ Machine.Syntheticness.fitRegressionLine histogram = some r
      ∧ ((r.slope = some (a : ℚ) ∧ r.intercept = some (b : ℚ))
          ↔ (Spec.n histogram ≠ 0 ∧ Spec.denominator histogram ≠ 0
              ∧ (b = 0 ∨ histogram.sum = (histogram.length : Int)))) := by
  have hne : histogram ≠ [] := by
    intro h; rw [h] at hbins; simp at hbins
  obtain ⟨hm1, hm2⟩ := machine_fitRegressionLine_eq_exact histogram hfits
  have key := fitRegressionLine_eq histogram hne
  refine ⟨_, hm1.trans key, hm2.trans ((fitRegressionLine_versions_eq _).trans key), ?_⟩
  have hm2' : (2 : ℚ) ≤ (histogram.length : ℚ) := by exact_mod_cast hbins
  have hx : Spec.sumX histogram = (histogram.length : ℚ) * ((histogram.length : ℚ) - 1) / 2 :=
    sum_range_index histogram.length
  have hy : Spec.sumY histogram
      = (b : ℚ) * (histogram.length : ℚ) + (a : ℚ) * Spec.sumX histogram := by
    rw [Spec.sumY, Spec.sumX, Finset.mul_sum,
      show (b : ℚ) * (histogram.length : ℚ)
          = ∑ _i ∈ Finset.range histogram.length, (b : ℚ) by simp [mul_comm],
      ← Finset.sum_add_distrib]
    refine Finset.sum_congr rfl fun i hi => ?_
    rw [hlin i (Finset.mem_range.mp hi)]; push_cast; ring
  have hxy : Spec.sumXY histogram
      = (b : ℚ) * Spec.sumX histogram + (a : ℚ) * Spec.sumX2 histogram := by
    rw [Spec.sumXY, Spec.sumX, Spec.sumX2, Finset.mul_sum, Finset.mul_sum,
      ← Finset.sum_add_distrib]
    refine Finset.sum_congr rfl fun i hi => ?_
    rw [hlin i (Finset.mem_range.mp hi)]; push_cast; ring
  have hnY : Spec.n histogram = Spec.sumY histogram := rfl
  have hsum : histogram.sum = (histogram.length : Int)
      ↔ Spec.n histogram = (histogram.length : ℚ) := by
    rw [specN_eq_sum]
    constructor
    · intro h; rw [h]; push_cast; rfl
    · intro h; exact_mod_cast h
  have hb0 : b = 0 ↔ (b : ℚ) = 0 := by
    constructor
    · intro h; rw [h]; norm_num
    · intro h; exact_mod_cast h
  have hdenom : Spec.denominator histogram
      = Spec.n histogram * Spec.sumX2 histogram
          - Spec.sumX histogram * Spec.sumX histogram := by
    rw [Spec.denominator]; ring
  rw [hsum, hb0, hdenom]
  show (Cxx.fdiv
        (Spec.n histogram * Spec.sumXY histogram
          - Spec.sumX histogram * Spec.sumY histogram)
        (Spec.n histogram * Spec.sumX2 histogram
          - Spec.sumX histogram * Spec.sumX histogram) = some (a : ℚ)
      ∧ (Cxx.fdiv
          (Spec.n histogram * Spec.sumXY histogram
            - Spec.sumX histogram * Spec.sumY histogram)
          (Spec.n histogram * Spec.sumX2 histogram
            - Spec.sumX histogram * Spec.sumX histogram)).bind
          (fun s => Cxx.fdiv (Spec.sumY histogram - s * Spec.sumX histogram)
            (Spec.n histogram)) = some (b : ℚ))
      ↔ _
  have hS1 : 0 < Spec.sumX histogram := by
    rw [hx]
    have h1 : (0 : ℚ) < (histogram.length : ℚ) := by linarith
    have h2 : (0 : ℚ) < (histogram.length : ℚ) - 1 := by linarith
    positivity
  rw [hxy, hnY, hy]
  generalize Spec.sumX histogram = S1 at hS1
  generalize Spec.sumX2 histogram = S2
  generalize (histogram.length : ℚ) = m
  generalize (a : ℚ) = A
  generalize (b : ℚ) = B
  have hnum : (B * m + A * S1) * (B * S1 + A * S2) - S1 * (B * m + A * S1)
      - A * ((B * m + A * S1) * S2 - S1 * S1) = B * S1 * ((B * m + A * S1) - m) := by
    ring
  constructor
  · rintro ⟨hs, hi⟩
    have hden : (B * m + A * S1) * S2 - S1 * S1 ≠ 0 := by
      intro h0
      rw [Cxx.fdiv, if_pos h0] at hs
      exact Option.noConfusion hs
    rw [hs, Option.some_bind] at hi
    have hn : B * m + A * S1 ≠ 0 := by
      intro h0
      rw [Cxx.fdiv, if_pos h0] at hi
      exact Option.noConfusion hi
    rw [Cxx.fdiv, if_neg hden] at hs
    rw [Cxx.fdiv, if_neg hn] at hi
    have hs' := Option.some.inj hs
    have hi' := Option.some.inj hi
    rw [div_eq_iff hn] at hi'
    refine ⟨hn, hden, ?_⟩
    have hprod : B * ((B * m + A * S1) - m) = 0 := by linarith
    rcases mul_eq_zero.mp hprod with h | h
    · exact Or.inl h
    · exact Or.inr (by linarith)
  · rintro ⟨hn, hden, hor⟩
    have hprod : B * ((B * m + A * S1) - m) = 0 := by
      rcases hor with h | h
      · rw [h]; ring
      · rw [h]; ring
    have hs : Cxx.fdiv ((B * m + A * S1) * (B * S1 + A * S2) - S1 * (B * m + A * S1))
        ((B * m + A * S1) * S2 - S1 * S1) = some A := by
      rw [Cxx.fdiv, if_neg hden]
      congr 1
      rw [div_eq_iff hden]
      have : B * S1 * ((B * m + A * S1) - m) = 0 := by
        rw [mul_assoc, mul_comm S1, ← mul_assoc, hprod, zero_mul]
      linarith
    refine ⟨hs, ?_⟩
    rw [hs, Option.some_bind, Cxx.fdiv, if_neg hn]
    congr 1
    rw [div_eq_iff hn]
    linarith

/-- C5 (amended), on the histogram `[0, 1, 2, 3]` (`counts[i] = i`, four bins,
total count six, `b = 0`): slope `1`, intercept `0`; and on the histogram
`[2, 1, 0]` (`counts[i] = 2 - i`, three bins, total count three): slope `-1`,
intercept `2`. -/
theorem C5_linear_fit_iff_witness :
    (∃ r : RegressionFit, Machine.SobelSyntheticness.fitRegressionLine [0, 1, 2, 3] = some r
        ∧ Machine.Syntheticness.fitRegressionLine [0, 1, 2, 3] = some r
        ∧ r.slope = some (((1 : Int) : ℚ)) ∧ r.intercept = some (((0 : Int) : ℚ)))
      ∧ (∃ r : RegressionFit, Machine.SobelSyntheticness.fitRegressionLine [2, 1, 0] = some r
        ∧ Machine.Syntheticness.fitRegressionLine [2, 1, 0] = some r
        ∧ r.slope = some (((-1 : Int) : ℚ)) ∧ r.intercept = some (((2 : Int) : ℚ))) := by
  constructor
  · obtain ⟨r, h1, h2, hiff⟩ := C5_linear_fit_iff [0, 1, 2, 3] 1 0 (by simp)
      (by
        intro i hi
        have hi4 : i < 4 := by simpa using hi
        interval_cases i <;> simp)
      (by decide)
    exact ⟨r, h1, h2, hiff.mpr
      ⟨by norm_num [Spec.n, Spec.sumY, Finset.sum_range_succ],
        by norm_num [Spec.denominator, Spec.n, Spec.sumY, Spec.sumX, Spec.sumX2,
          Finset.sum_range_succ],
        Or.inl rfl⟩⟩
  · obtain ⟨r, h1, h2, hiff⟩ := C5_linear_fit_iff [2, 1, 0] (-1) 2 (by simp)
      (by
        intro i hi
        have hi3 : i < 3 := by simpa using hi
        interval_cases i <;> simp)
      (by decide)
    exact ⟨r, h1, h2, hiff.mpr
      ⟨by norm_num [Spec.n, Spec.sumY, Finset.sum_range_succ],
        by norm_num [Spec.denominator, Spec.n, Spec.sumY, Spec.sumX, Spec.sumX2,
          Finset.sum_range_succ],
        Or.inr (by simp)⟩⟩
